import Mathlib

/-!
# Bearer-token verification layer of the real-estate booking server

A shallow embedding of `express-oauth2-jwt-bearer/dist/index.js` (the library the
server's `auth0Config.js` instantiates) together with the properties its
specification states about it.

Modelling conventions
* JavaScript values are the inductive `JsVal`; numbers are whole numbers (`Int`),
  which is what the time claims of a token and `Math.floor(Date.now() / 1000)` are.
  JavaScript holds a number as an IEEE 754 double, which is exact for whole numbers up
  to `2 ^ 53` in magnitude; `roundDouble` is the rounding beyond that, and the `exp`
  check applies it to the difference it computes. The bounds of the `iat` check are
  exact integer sums and differences, which is what the doubles are while the bounds
  stay within `2 ^ 53`.
* A JavaScript object is the list of its own enumerable entries in property
  enumeration order (`Obj`): keys that are array indices first, in ascending numeric
  order, then the other keys in creation order. A missing property reads as
  `undefined`.
* A function that can throw returns `Except`; mutable closure variables become
  explicit state.
* `toLowerCase` and the `i` flag of a regular expression are modelled on ASCII
  letters, which is exact for every comparison the code makes (the compared
  literals `bearer`, `none`, `application/at+jwt` are ASCII and no other character
  folds onto their letters).
-/

namespace OAuth2JwtBearer

/-! ## JavaScript values -/

/-- JavaScript values as they reach the library: JSON data plus `undefined`. -/
inductive JsVal where
  | undefined
  | null
  | bool (b : Bool)
  | num (n : Int)
  | str (s : String)
  | arr (items : List JsVal)
  | obj (fields : List (String × JsVal))

/-- An object: its own enumerable entries in enumeration order. -/
abbrev Obj := List (String × JsVal)

/-- Property read `o[key]` on an object: `undefined` when the key is absent. -/
def Obj.get (o : Obj) (key : String) : JsVal :=
  match o.find? (fun e => e.1 == key) with
  | some e => e.2
  | none => JsVal.undefined

/-- The test `key in o`. -/
def Obj.has (o : Obj) (key : String) : Bool :=
  o.any (fun e => e.1 == key)

/-- Property read `v.key` on a value that is known not to be `null` or
`undefined`: primitives and arrays have no such own property. -/
def JsVal.prop (v : JsVal) (key : String) : JsVal :=
  match v with
  | JsVal.obj fields => Obj.get fields key
  | _ => JsVal.undefined

/-- JavaScript truthiness (`!!v`). -/
def JsVal.truthy : JsVal → Bool
  | JsVal.undefined => false
  | JsVal.null => false
  | JsVal.bool b => b
  | JsVal.num n => n != 0
  | JsVal.str s => s != ""
  | JsVal.arr _ => true
  | JsVal.obj _ => true

/-- Truthiness of an optional string (`undefined` or a string). -/
def strTruthy : Option String → Bool
  | none => false
  | some s => s != ""

deriving instance DecidableEq for Except

/-! ## Errors (index.js 14-52) -/

/-- The four error classes of the library, each with the message it was built with;
`insufficientScope` also carries the `scopes` argument of its constructor. -/
inductive AuthError where
  | unauthorized (message : String)
  | invalidRequest (message : String)
  | invalidToken (message : String)
  | insufficientScope (scopes : Option (List String)) (message : String)
deriving DecidableEq, Repr

/-- The error `new UnauthorizedError()`, with the default message. -/
def UnauthorizedError.default : AuthError := AuthError.unauthorized "Unauthorized"

/-- The error `getToken` throws when several sources carry a token. -/
def ambiguousTokenError : AuthError :=
  AuthError.invalidRequest "More than one method used for authentication"

/-! ## Token extraction (index.js 54-88) -/

/-- Characters the regular-expression atom `.` does not match. -/
def isLineTerminator (c : Char) : Bool :=
  c == '\n' || c == '\r' || c.toNat == 0x2028 || c.toNat == 0x2029

/-- The match of `TOKEN_RE = /^Bearer (.+)$/i` on the characters of a string:
capture group 1 when the string matches. -/
def matchTokenRe (cs : List Char) : Option (List Char) :=
  let scheme := cs.take 6
  let rest := cs.drop 7
  if scheme.map Char.toLower == "bearer".toList && (cs.drop 6).head? == some ' '
      && !rest.isEmpty && rest.all (fun c => !isLineTerminator c) then
    some rest
  else
    none

/-- The function `getTokenFromHeader`: `undefined` (here `none`) unless `headers.authorization`
is a string that matches `TOKEN_RE`. -/
def getTokenFromHeader (headers : Obj) : Option String :=
  match Obj.get headers "authorization" with
  | JsVal.str s =>
    match matchTokenRe s.toList with
    | some m => some (String.mk m)
    | none => none
  | _ => none

/-- The read `x === null || x === void 0 ? void 0 : x.access_token`. -/
def accessTokenOf (x : JsVal) : JsVal :=
  match x with
  | JsVal.null => JsVal.undefined
  | JsVal.undefined => JsVal.undefined
  | v => v.prop "access_token"

/-- The function `getTokenFromQuery`. -/
def getTokenFromQuery (query : JsVal) : Option String :=
  match accessTokenOf query with
  | JsVal.str s => some s
  | _ => none

/-- The function `getFromBody`. -/
def getFromBody (body : JsVal) (urlEncoded : Bool) : Option String :=
  match accessTokenOf body with
  | JsVal.str s => if urlEncoded then some s else none
  | _ => none

/-- The number `+!!x` for an optional string. -/
def boolNum (x : Option String) : Nat := if strTruthy x then 1 else 0

/-- The value of `a || b` for optional strings. -/
def orElseFalsy (a b : Option String) : Option String :=
  if strTruthy a then a else b

/-- The function `getToken(headers, query, body, urlEncoded)`. -/
def getToken (headers : Obj) (query body : JsVal) (urlEncoded : Bool) :
    Except AuthError String :=
  let fromHeader := getTokenFromHeader headers
  let fromQuery := getTokenFromQuery query
  let fromBody := getFromBody body urlEncoded
  if !strTruthy fromQuery && !strTruthy fromHeader && !strTruthy fromBody then
    Except.error UnauthorizedError.default
  else if boolNum fromQuery + boolNum fromBody + boolNum fromHeader > 1 then
    Except.error ambiguousTokenError
  else
    -- `return (fromQuery || fromBody || fromHeader)`: a string here, as one is truthy
    match orElseFalsy (orElseFalsy fromQuery fromBody) fromHeader with
    | some t => Except.ok t
    | none => Except.error UnauthorizedError.default

/-- The three token sources of a request, in the order header, query, body. -/
def tokenSources (headers : Obj) (query body : JsVal) (urlEncoded : Bool) :
    List (Option String) :=
  [getTokenFromHeader headers, getTokenFromQuery query, getFromBody body urlEncoded]

/-- The values of the sources that are non-empty strings. -/
def nonEmptySources (headers : Obj) (query body : JsVal) (urlEncoded : Bool) :
    List String :=
  (tokenSources headers query body urlEncoded).filterMap
    (fun x => match x with
      | some s => if s != "" then some s else none
      | none => none)


/-! ### The three token sources in the words of the specification

These three relations are written from the specification, not from the code: they read
the request fields `authorization` and `access_token` directly. The theorems compare
them with `getTokenFromHeader`, `getTokenFromQuery` and `getFromBody`. -/

/-- The header source in the words of the specification: `headers.authorization` is a
string made of a scheme that reads `bearer` once its letters are lower-cased, one
space, and a non-empty text `tok` on one line (no line terminator); the source is the
text after the scheme and the space, `tok`. -/
def IsHeaderSource (headers : Obj) (t : String) : Prop :=
  ∃ scheme tok : List Char,
    Obj.get headers "authorization" = JsVal.str (String.mk (scheme ++ ' ' :: tok)) ∧
    scheme.map Char.toLower = "bearer".toList ∧ tok ≠ [] ∧
    (∀ c ∈ tok, isLineTerminator c = false) ∧ t = String.mk tok

/-- The query source in the words of the specification: `query.access_token` when it is
a string. -/
def IsQuerySource (query : JsVal) (t : String) : Prop :=
  ∃ fields : Obj, query = JsVal.obj fields ∧ Obj.get fields "access_token" = JsVal.str t

/-- The body source in the words of the specification: `body.access_token` when it is a
string and `urlEncoded` is true; never when `urlEncoded` is false. -/
def IsBodySource (body : JsVal) (urlEncoded : Bool) (t : String) : Prop :=
  urlEncoded = true ∧
    ∃ fields : Obj, body = JsVal.obj fields ∧ Obj.get fields "access_token" = JsVal.str t

/-- The header source is a non-empty string. -/
def HeaderPresent (headers : Obj) : Prop := ∃ t, IsHeaderSource headers t ∧ t ≠ ""

/-- The query source is a non-empty string. -/
def QueryPresent (query : JsVal) : Prop := ∃ t, IsQuerySource query t ∧ t ≠ ""

/-- The body source is a non-empty string. -/
def BodyPresent (body : JsVal) (urlEncoded : Bool) : Prop :=
  ∃ t, IsBodySource body urlEncoded t ∧ t ≠ ""


/-! ## Claim validation (index.js 200-245) -/

/-- What one call of a function validator does. The declared type of a function
validator is `(value, claims, header) => Promise<boolean> | boolean`; like every
JavaScript function it may also throw. A returned promise settles `delay` turns of
the job queue after the call (`0`: it is settled already). -/
inductive Completion where
  | value (b : Bool)
  | throws (message : String)
  | promise (delay : Nat) (outcome : Except String Bool)

/-- A function validator. Besides its three arguments it can read the clock
(`Date.now()`, milliseconds), which is its first argument here. -/
abbrev FunctionValidator := Nat → JsVal → Obj → Obj → Completion

/-- The type `Validator = FunctionValidator | string | false | undefined`. -/
inductive Validator where
  | fn (f : FunctionValidator)
  | str (s : String)
  | skip
  | undef

/-- A validator set: an object from claim names to validators, as its entries in
enumeration order (`Object.entries`). -/
abbrev Validators := List (String × Validator)

/-- Property read on a validator set. -/
def Validators.get? (vs : Validators) (key : String) : Option Validator :=
  match vs.find? (fun e => e.1 == key) with
  | some e => some e.2
  | none => none

/-- Property read `validators[key]`: `undefined` when the key is absent. -/
def Validators.get (vs : Validators) (key : String) : Validator :=
  match Validators.get? vs key with
  | some v => v
  | none => Validator.undef

/-- The array index a property key denotes, if it denotes one: the key is the decimal
numeral, without sign or leading zero, of a whole number below `2 ^ 32 - 1`. -/
def arrayIndex (key : String) : Option Nat :=
  let cs := key.toList
  if cs.isEmpty || !cs.all Char.isDigit || (cs.head? == some '0' && cs.length > 1) then
    none
  else
    let n := cs.foldl (fun acc c => 10 * acc + (c.toNat - '0'.toNat)) 0
    if n < 4294967295 then some n else none

/-- Assignment to a key the object has: the entry keeps its place. -/
def replaceEntry {α : Type} (key : String) (v : α) : List (String × α) → List (String × α)
  | [] => []
  | e :: rest => if e.1 == key then (key, v) :: rest else e :: replaceEntry key v rest

/-- A new entry whose key is the array index `n`: it is enumerated after the entries
with a smaller array index and before every other entry. -/
def insertIndexed {α : Type} (n : Nat) (key : String) (v : α) :
    List (String × α) → List (String × α)
  | [] => [(key, v)]
  | e :: rest =>
    match arrayIndex e.1 with
    | some m => if m < n then e :: insertIndexed n key v rest else (key, v) :: e :: rest
    | none => (key, v) :: e :: rest

/-- Assignment `o[key] = v` on an object given by its entries in enumeration order
(the order of `Object.entries`: keys that are array indices first, in ascending numeric
order, then the other string keys in the order they were created). An existing key
keeps its place; a new array-index key goes among the array indices; any other new key
goes last. -/
def setEntry {α : Type} (key : String) (v : α) (o : List (String × α)) :
    List (String × α) :=
  if o.any (fun e => e.1 == key) then replaceEntry key v o
  else
    match arrayIndex key with
    | some n => insertIndexed n key v o
    | none => o ++ [(key, v)]

/-- The object literal `{ ...base, ...extra }`: the entries of `base`, then each entry
of `extra` assigned in turn. -/
def spread {α : Type} (base extra : List (String × α)) : List (String × α) :=
  extra.foldl (fun acc e => setEntry e.1 e.2 acc) base

/-- The message `Unexpected '<key>' value`. -/
def unexpectedValue (key : String) : String := "Unexpected '" ++ key ++ "' value"

/-- The promise of one entry of `validate`: the turn at which it settles and how. -/
structure Settled where
  time : Nat
  result : Except String Unit

/-- The value an entry is checked against: `header[key]` for `alg` and `typ`,
`payload[key]` for every other key. -/
def claimValue (payload header : Obj) (key : String) : JsVal :=
  if key == "alg" || key == "typ" then Obj.get header key else Obj.get payload key

/-- The `===` test of a value against a string. -/
def JsVal.isStr (v : JsVal) (s : String) : Bool :=
  match v with
  | JsVal.str t => t == s
  | _ => false

/-- The async callback of `validate` for one entry. Without a function validator no
`await` is reached and the promise is settled when the callback returns (turn 0); the
same holds when the function throws. Otherwise the callback resumes one turn after
the awaited value is available. -/
def checkEntry (clock : Nat) (payload header : Obj) (key : String) (validator : Validator) :
    Settled :=
  let value := claimValue payload header key
  match validator with
  | Validator.skip => ⟨0, Except.ok ()⟩
  | Validator.str s =>
    if value.isStr s then ⟨0, Except.ok ()⟩ else ⟨0, Except.error (unexpectedValue key)⟩
  | Validator.undef => ⟨0, Except.error (unexpectedValue key)⟩
  | Validator.fn f =>
    match f clock value payload header with
    | Completion.value b =>
      if b then ⟨1, Except.ok ()⟩ else ⟨1, Except.error (unexpectedValue key)⟩
    | Completion.throws m => ⟨0, Except.error m⟩
    | Completion.promise d (Except.ok b) =>
      if b then ⟨d + 1, Except.ok ()⟩ else ⟨d + 1, Except.error (unexpectedValue key)⟩
    | Completion.promise d (Except.error m) => ⟨d + 1, Except.error m⟩

/-- The rejection `Promise.all` reports: the one that settles first, the earlier
entry when two settle in the same turn. -/
def firstRejection : List Settled → Option (Nat × String)
  | [] => none
  | s :: rest =>
    match s.result, firstRejection rest with
    | Except.error m, some (t, m') => if s.time ≤ t then some (s.time, m) else some (t, m')
    | Except.error m, none => some (s.time, m)
    | Except.ok _, r => r

/-- The call of `Promise.all` over the entry promises. -/
def promiseAll (ps : List Settled) : Except String Unit :=
  match firstRejection ps with
  | some (_, m) => Except.error m
  | none => Except.ok ()

/-- The function `validate(payload, header, validators)`, called when the clock reads `clock`. -/
def validate (clock : Nat) (payload header : Obj) (validators : Validators) :
    Except String Unit :=
  promiseAll (validators.map (fun e => checkEntry clock payload header e.1 e.2))

/-- The configured audience: a string or a list of strings. -/
inductive Audience where
  | one (s : String)
  | many (l : List String)
deriving DecidableEq, Repr

/-- The list `typeof audience === 'string' ? [audience] : audience`. -/
def Audience.toList : Audience → List String
  | Audience.one s => [s]
  | Audience.many l => l

/-- Strict equality `a === b` for values that are not the same object: primitives
compare by value, arrays and objects are distinct. -/
def JsVal.strictEq : JsVal → JsVal → Bool
  | JsVal.undefined, JsVal.undefined => true
  | JsVal.null, JsVal.null => true
  | JsVal.bool a, JsVal.bool b => a == b
  | JsVal.num a, JsVal.num b => a == b
  | JsVal.str a, JsVal.str b => a == b
  | _, _ => false

/-- The largest time value, in milliseconds (ECMA-262, "Time Values and Time Range"):
what `Date.now()` returns is a whole number of at most this size. -/
def maxTimeValue : Nat := 8640000000000000

/-- The seconds `Math.floor(Date.now() / 1000)` when the clock reads `clock`
milliseconds. The reading is a time value, so it is at most `maxTimeValue`; on that
range the double division followed by `Math.floor` is the integer quotient. -/
def nowSeconds (clock : Nat) : Int := (((min clock maxTimeValue) / 1000 : Nat) : Int)

/-- The number of low bits a whole number loses when it is stored with the 53-bit
significand of an IEEE 754 double: how often it must be halved to get below `2 ^ 53`.
The first argument bounds the number of halvings; the number itself is enough. -/
def excessBits : Nat → Nat → Nat
  | 0, _ => 0
  | fuel + 1, n => if n < 9007199254740992 then 0 else excessBits fuel (n / 2) + 1

/-- The double nearest to a whole number `n ≥ 0` (round to nearest, ties to the even
significand): `n` itself below `2 ^ 53`, otherwise a multiple of `2 ^ k` where `k` is
the number of bits lost. -/
def roundNat (n : Nat) : Nat :=
  let k := excessBits n n
  let q := n / 2 ^ k
  let r := n % 2 ^ k
  if 2 * r > 2 ^ k ∨ (2 * r = 2 ^ k ∧ q % 2 = 1) then (q + 1) * 2 ^ k else q * 2 ^ k

/-- The double nearest to a whole number: the value a JavaScript sum or difference of
two whole-number doubles has when `z` is its exact value. -/
def roundDouble (z : Int) : Int :=
  if z < 0 then -((roundNat z.natAbs : Nat) : Int) else ((roundNat z.natAbs : Nat) : Int)

/-- The text `s.toLowerCase()`. -/
def toLowerCase (s : String) : String := String.mk (s.toList.map Char.toLower)

/-- The `alg` check of `defaultValidators`. -/
def algCheck (allowedSigningAlgs : Option (List String)) (tokenSigningAlg : Option String)
    (alg : JsVal) : Bool :=
  match alg with
  | JsVal.str a =>
    toLowerCase a != "none" &&
    (match allowedSigningAlgs with
      | none => true
      | some algs => algs.contains a) &&
    (!strTruthy tokenSigningAlg || some a == tokenSigningAlg)
  | _ => false

/-- The text `s.replace(/^application\//, '')`. -/
def stripApplication (cs : List Char) : List Char :=
  if "application/".toList.isPrefixOf cs then cs.drop 12 else cs

/-- The `typ` check of `defaultValidators`. -/
def typCheck (strict : Bool) (typ : JsVal) : Bool :=
  !strict ||
  (match typ with
    | JsVal.str t => stripApplication (toLowerCase t).toList == "at+jwt".toList
    | _ => false)

/-- The `aud` check of `defaultValidators`. -/
def audCheck (audience : Audience) (aud : JsVal) : Bool :=
  let audience := audience.toList
  match aud with
  | JsVal.str a => audience.contains a
  | JsVal.arr items => audience.any (fun a => items.any (fun v => v.isStr a))
  | _ => false

/-- The `exp` check of `defaultValidators`, `now` being the clock in seconds:
`typeof exp === 'number' && exp >= now - clockTolerance`, the difference being the
double nearest to its exact value. -/
def expCheck (now clockTolerance : Int) (exp : JsVal) : Bool :=
  match exp with
  | JsVal.num e => decide (e ≥ roundDouble (now - clockTolerance))
  | _ => false

/-- Whether a value is `undefined`. -/
def JsVal.isUndefined : JsVal → Bool
  | JsVal.undefined => true
  | _ => false

/-- The test `typeof v === 'number'`. -/
def JsVal.isNumber : JsVal → Bool
  | JsVal.num _ => true
  | _ => false

/-- The test `typeof v === 'string'`. -/
def JsVal.isString : JsVal → Bool
  | JsVal.str _ => true
  | _ => false

/-- The `iat` check of `defaultValidators`, `now` being the clock in seconds. -/
def iatCheck (now clockTolerance : Int) (maxTokenAge : Option Int) (strict : Bool)
    (iat : JsVal) : Bool :=
  match maxTokenAge with
  | none => (iat.isUndefined && !strict) || iat.isNumber
  | some age =>
    if age == 0 then
      (iat.isUndefined && !strict) || iat.isNumber
    else
      match iat with
      | JsVal.num i =>
        decide (i < now + clockTolerance) && decide (i > now - clockTolerance - age)
      | _ => false

/-- The check shared by `sub`, `client_id` and `jti`. -/
def optionalStringCheck (strict : Bool) (v : JsVal) : Bool :=
  (v.isUndefined && !strict) || v.isString

/-- The function `defaultValidators(issuer, audience, clockTolerance, maxTokenAge, strict,
allowedSigningAlgs, tokenSigningAlg)`. -/
def defaultValidators (issuer : JsVal) (audience : Audience) (clockTolerance : Int)
    (maxTokenAge : Option Int) (strict : Bool) (allowedSigningAlgs : Option (List String))
    (tokenSigningAlg : Option String) : Validators :=
  [ ("alg", Validator.fn (fun _ alg _ _ =>
      Completion.value (algCheck allowedSigningAlgs tokenSigningAlg alg))),
    ("typ", Validator.fn (fun _ typ _ _ => Completion.value (typCheck strict typ))),
    ("iss", Validator.fn (fun _ iss _ _ => Completion.value (iss.strictEq issuer))),
    ("aud", Validator.fn (fun _ aud _ _ => Completion.value (audCheck audience aud))),
    ("exp", Validator.fn (fun clock exp _ _ =>
      Completion.value (expCheck (nowSeconds clock) clockTolerance exp))),
    ("iat", Validator.fn (fun clock iat _ _ =>
      Completion.value (iatCheck (nowSeconds clock) clockTolerance maxTokenAge strict iat))),
    ("sub", Validator.fn (fun _ sub _ _ => Completion.value (optionalStringCheck strict sub))),
    ("client_id", Validator.fn (fun _ clientId _ _ =>
      Completion.value (optionalStringCheck strict clientId))),
    ("jti", Validator.fn (fun _ jti _ _ => Completion.value (optionalStringCheck strict jti))) ]

/-! ## Verifier construction and the verify function (index.js 247-303) -/

/-- The list `ASYMMETRIC_ALGS`. -/
def ASYMMETRIC_ALGS : List String :=
  ["RS256", "RS384", "RS512", "PS256", "PS384", "PS512", "ES256", "ES256K", "ES384",
    "ES512", "EdDSA"]

/-- The list `SYMMETRIC_ALGS`. -/
def SYMMETRIC_ALGS : List String := ["HS256", "HS384", "HS512"]

/-- The variables of `process.env` that `jwtVerifier` reads as defaults. -/
structure Env where
  ISSUER_BASE_URL : Option String
  JWKS_URI : Option String
  ISSUER : Option String
  AUDIENCE : Option String
  SECRET : Option String
  TOKEN_SIGNING_ALG : Option String

/-- An environment that sets none of the variables. -/
def Env.empty : Env := ⟨none, none, none, none, none, none⟩

/-- The options object passed to `jwtVerifier` (`JwtVerifierOptions`); `none` is a
property that is `undefined`. The `agent` option takes no part in any decision and is
left out. -/
structure JwtVerifierOptions where
  issuerBaseURL : Option String
  jwksUri : Option String
  issuer : Option String
  audience : Option Audience
  secret : Option String
  tokenSigningAlg : Option String
  cooldownDuration : Option Nat
  timeoutDuration : Option Nat
  cacheMaxAge : Option Nat
  clockTolerance : Option Int
  maxTokenAge : Option Int
  strict : Option Bool
  validators : Option Validators

/-- The default of `clockTolerance`, in seconds. -/
def defaultClockTolerance : Int := 5

/-- Truthiness of an optional audience: an array is truthy also when empty. -/
def audTruthy : Option Audience → Bool
  | none => false
  | some (Audience.one s) => s != ""
  | some (Audience.many _) => true

/-- A parameter default `x = d`: the default is taken when the option is
`undefined`. -/
def orDefault {α : Type} (x d : Option α) : Option α :=
  match x with
  | some v => some v
  | none => d

/-- The parameters of `jwtVerifier` after destructuring with their defaults. -/
structure Verifier where
  issuerBaseURL : Option String
  jwksUri : Option String
  issuer : Option String
  audience : Audience
  secret : Option String
  tokenSigningAlg : Option String
  cooldownDuration : Nat
  timeoutDuration : Nat
  cacheMaxAge : Nat
  clockTolerance : Int
  maxTokenAge : Option Int
  strict : Bool
  customValidators : Validators

/-- The message of the fifth assertion of `jwtVerifier`. -/
def asymmetricAlgMessage : String :=
  "You must supply one of " ++ ", ".intercalate ASYMMETRIC_ALGS ++
    " for 'tokenSigningAlg' to validate asymmetrically signed tokens"

/-- The message of the sixth assertion of `jwtVerifier`. -/
def symmetricAlgMessage : String :=
  "You must supply one of " ++ ", ".intercalate SYMMETRIC_ALGS ++
    " for 'tokenSigningAlg' to validate symmetrically signed tokens"

/-- Membership `algs.includes(alg)` for an optional string. -/
def includesAlg (algs : List String) (alg : Option String) : Bool :=
  match alg with
  | some a => algs.contains a
  | none => false

/-- The function `jwtVerifier(opts)` up to the point where it returns the verify function: the six
assertions in order. An error is the message of the assertion that throws. -/
def jwtVerifier (env : Env) (opts : JwtVerifierOptions) : Except String Verifier :=
  let issuerBaseURL := orDefault opts.issuerBaseURL env.ISSUER_BASE_URL
  let jwksUri := orDefault opts.jwksUri env.JWKS_URI
  let issuer := orDefault opts.issuer env.ISSUER
  let audience := orDefault opts.audience (env.AUDIENCE.map Audience.one)
  let secret := orDefault opts.secret env.SECRET
  let tokenSigningAlg := orDefault opts.tokenSigningAlg env.TOKEN_SIGNING_ALG
  if !(strTruthy issuerBaseURL || (strTruthy issuer && strTruthy jwksUri) ||
      (strTruthy issuer && strTruthy secret)) then
    Except.error
      "You must provide an 'issuerBaseURL', an 'issuer' and 'jwksUri' or an 'issuer' and 'secret'"
  else if !(!(strTruthy secret && strTruthy jwksUri)) then
    Except.error "You must not provide both a 'secret' and 'jwksUri'"
  else if !audTruthy audience then
    Except.error "An 'audience' is required to validate the 'aud' claim"
  else if !(!strTruthy secret || (strTruthy secret && strTruthy tokenSigningAlg)) then
    Except.error "You must provide a 'tokenSigningAlg' for validating symmetric algorithms"
  else if !(strTruthy secret || !strTruthy tokenSigningAlg ||
      includesAlg ASYMMETRIC_ALGS tokenSigningAlg) then
    Except.error asymmetricAlgMessage
  else if !(!strTruthy secret ||
      (strTruthy tokenSigningAlg && includesAlg SYMMETRIC_ALGS tokenSigningAlg)) then
    Except.error symmetricAlgMessage
  else
    match audience with
    | none => Except.error "An 'audience' is required to validate the 'aud' claim"
    | some aud =>
      Except.ok
        { issuerBaseURL := issuerBaseURL
          jwksUri := jwksUri
          issuer := issuer
          audience := aud
          secret := secret
          tokenSigningAlg := tokenSigningAlg
          cooldownDuration := opts.cooldownDuration.getD 30000
          timeoutDuration := opts.timeoutDuration.getD 5000
          cacheMaxAge := opts.cacheMaxAge.getD 600000
          clockTolerance := opts.clockTolerance.getD defaultClockTolerance
          maxTokenAge := opts.maxTokenAge
          strict := opts.strict.getD false
          customValidators := opts.validators.getD [] }

/-- The authorization-server metadata the verify function reads from a discovery
result: `issuer`, `jwks_uri` and `id_token_signing_alg_values_supported`. -/
structure Metadata where
  issuer : String
  jwks_uri : Option String
  id_token_signing_alg_values_supported : Option (List String)

/-- The closure variables of one verifier that the verify function assigns. -/
structure VerifierState where
  jwksUri : Option String
  issuer : Option String
  allowedSigningAlgs : Option (List String)
  validators : Option Validators

/-- The closure variables when `jwtVerifier` returns. -/
def Verifier.initialState (v : Verifier) : VerifierState :=
  ⟨v.jwksUri, v.issuer, none, none⟩

/-- The object a successful verify call returns. -/
structure VerifyJwtResult where
  payload : Obj
  header : Obj
  token : String

/-- An optional string as a value. -/
def optStr : Option String → JsVal
  | some s => JsVal.str s
  | none => JsVal.undefined

/-- What the collaborators do during one verify call: the clock at validation, the
outcome of `getDiscovery()`, and the outcome of `jose.jwtVerify` with the key function
for the key-set URI it is given. -/
structure Call where
  clock : Nat
  discovered : Except String Metadata
  jwtVerify : Option String → Except String (Obj × Obj)

/-- The validator set of a verifier for a resolved issuer and algorithm list:
`{ ...defaultValidators(...), ...customValidators }`. -/
def Verifier.buildValidators (v : Verifier) (issuer : Option String)
    (allowedSigningAlgs : Option (List String)) : Validators :=
  spread
    (defaultValidators (optStr issuer) v.audience v.clockTolerance v.maxTokenAge v.strict
      allowedSigningAlgs v.tokenSigningAlg)
    v.customValidators

/-- The closure variables after the discovery part of a verify call that got the
metadata `d`. -/
def VerifierState.discoveredWith (st : VerifierState) (d : Metadata) : VerifierState :=
  { jwksUri := orElseFalsy st.jwksUri d.jwks_uri
    issuer := orElseFalsy st.issuer (some d.issuer)
    allowedSigningAlgs := d.id_token_signing_alg_values_supported
    validators := st.validators }

/-- The assignment `validators || (validators = { ... })`. -/
def VerifierState.withValidators (v : Verifier) (st : VerifierState) : VerifierState :=
  match st.validators with
  | some _ => st
  | none =>
    { jwksUri := st.jwksUri
      issuer := st.issuer
      allowedSigningAlgs := st.allowedSigningAlgs
      validators := some (v.buildValidators st.issuer st.allowedSigningAlgs) }

/-- The verify function `async (jwt) => ...`: the closure variables after the call and
its result; every failure is rethrown as `InvalidTokenError(e.message)`. -/
def Verifier.verify (v : Verifier) (st : VerifierState) (c : Call) (jwt : String) :
    VerifierState × Except AuthError VerifyJwtResult :=
  let afterDiscovery : Except String VerifierState :=
    if strTruthy v.issuerBaseURL then
      match c.discovered with
      | Except.ok d => Except.ok (st.discoveredWith d)
      | Except.error m => Except.error m
    else Except.ok st
  match afterDiscovery with
  | Except.error m => (st, Except.error (AuthError.invalidToken m))
  | Except.ok st1 =>
    let st2 := st1.withValidators v
    match c.jwtVerify st2.jwksUri with
    | Except.error m => (st2, Except.error (AuthError.invalidToken m))
    | Except.ok (payload, header) =>
      match validate c.clock payload header (st2.validators.getD []) with
      | Except.error m => (st2, Except.error (AuthError.invalidToken m))
      | Except.ok _ => (st2, Except.ok ⟨payload, header, jwt⟩)

/-- The closure variables after a sequence of verify calls. -/
def Verifier.run (v : Verifier) (st : VerifierState) : List (Call × String) → VerifierState
  | [] => st
  | (c, jwt) :: rest => Verifier.run v (v.verify st c jwt).1 rest

/-- The first part of the verify function: the closure variables after the discovery
step, or the message of the failed discovery. Without `issuerBaseURL` the step is
skipped. -/
def Verifier.afterDiscovery (v : Verifier) (st : VerifierState) (c : Call) :
    Except String VerifierState :=
  if strTruthy v.issuerBaseURL then
    match c.discovered with
    | Except.ok d => Except.ok (st.discoveredWith d)
    | Except.error m => Except.error m
  else Except.ok st

/-! ## Fields of the error classes (index.js 14-52) -/

/-- The field `status` (and `statusCode`) of an error. -/
def AuthError.status : AuthError → Nat
  | AuthError.unauthorized _ => 401
  | AuthError.invalidRequest _ => 400
  | AuthError.invalidToken _ => 401
  | AuthError.insufficientScope _ _ => 403

/-- The field `code` of an error; `UnauthorizedError` itself has none. -/
def AuthError.code : AuthError → Option String
  | AuthError.unauthorized _ => none
  | AuthError.invalidRequest _ => some "invalid_request"
  | AuthError.invalidToken _ => some "invalid_token"
  | AuthError.insufficientScope _ _ => some "insufficient_scope"

/-- The field `message` of an error. -/
def AuthError.message : AuthError → String
  | AuthError.unauthorized m => m
  | AuthError.invalidRequest m => m
  | AuthError.invalidToken m => m
  | AuthError.insufficientScope _ m => m

/-- The text `description.replace(/"/g, "'")`. -/
def escapeQuotes (description : String) : String :=
  String.mk (description.toList.map (fun c => if c == '"' then Char.ofNat 39 else c))

/-- The text `scopes.join(' ')`. -/
def joinScopes : List String → String
  | [] => ""
  | [a] => a
  | a :: b :: rest => a ++ " " ++ joinScopes (b :: rest)

/-- The `WWW-Authenticate` value built by `getHeaders(error, description, scopes)`. -/
def getHeaders (error description : String) (scopes : Option (List String)) : String :=
  "Bearer realm=\"api\", error=\"" ++ error ++ "\", error_description=\"" ++
    escapeQuotes description ++ "\"" ++
    (match scopes with
      | some l => ", scope=\"" ++ joinScopes l ++ "\""
      | none => "")

/-- The `WWW-Authenticate` header of an error (`headers['WWW-Authenticate']`). -/
def AuthError.wwwAuthenticate : AuthError → String
  | AuthError.unauthorized _ => "Bearer realm=\"api\""
  | AuthError.invalidRequest m => getHeaders "invalid_request" m none
  | AuthError.invalidToken m => getHeaders "invalid_token" m none
  | AuthError.insufficientScope scopes m => getHeaders "insufficient_scope" m scopes

/-- The error `new InvalidTokenError(message)`; the default message is taken when the
argument is `undefined`. -/
def InvalidTokenError.new (message : Option String) : AuthError :=
  AuthError.invalidToken (message.getD "Invalid Token")

/-- The error `new InsufficientScopeError(scopes, message)`. -/
def InsufficientScopeError.new (scopes : Option (List String)) (message : Option String) :
    AuthError :=
  AuthError.insufficientScope scopes (message.getD "Insufficient Scope")

/-! ## Authorization checks (index.js 305-396) -/

/-- A value thrown by a function: one of the errors of the library, or anything
else (a `TypeError`, an error of the caller). -/
inductive Thrown where
  | auth (e : AuthError)
  | other (message : String)
deriving DecidableEq, Repr

/-- The pieces of `cs.split(' ')` on the characters of a string. -/
def splitSpaces : List Char → List (List Char)
  | [] => [[]]
  | c :: cs =>
    if c == ' ' then [] :: splitSpaces cs
    else
      match splitSpaces cs with
      | [] => [[c]]
      | w :: ws => (c :: w) :: ws

/-- The array `s.split(' ')`. -/
def splitScopes (s : String) : List String :=
  (splitSpaces s.toList).map String.mk

/-- The elements of a claim read as a set: a string is split on spaces, an array is
taken as it is, any other value gives no set. -/
def claimSet : JsVal → Option (List JsVal)
  | JsVal.str s => some ((splitScopes s).map JsVal.str)
  | JsVal.arr items => some items
  | _ => none

/-- The test `Set.prototype.has.bind(actual)` on an expected value. -/
def setHas (actual : List JsVal) (expected : JsVal) : Bool :=
  actual.any (fun v => v.strictEq expected)

/-- The function `isClaimIncluded(claim, expected, matchAll)(payload)`. -/
def isClaimIncluded (claim : String) (expected : List JsVal) (matchAll : Bool)
    (payload : Obj) : Except Thrown Bool :=
  if !Obj.has payload claim then
    Except.error (Thrown.auth (InvalidTokenError.new (some ("Missing '" ++ claim ++ "' claim"))))
  else
    match claimSet (Obj.get payload claim) with
    | none => Except.ok false
    | some actual =>
      if matchAll then Except.ok (expected.all (setHas actual))
      else Except.ok (expected.any (setHas actual))

/-- The function `claimCheck$1(fn, errMsg)(payload)`; `payload` is `none` when the
argument is `undefined`. -/
def claimCheck (fn : Obj → Except Thrown Bool) (errMsg : Option String)
    (payload : Option Obj) : Except Thrown Unit :=
  match payload with
  | none => Except.error (Thrown.auth UnauthorizedError.default)
  | some p =>
    match fn p with
    | Except.error e => Except.error e
    | Except.ok b =>
      if !b then Except.error (Thrown.auth (InvalidTokenError.new errMsg))
      else Except.ok ()

/-- The argument `scopes` of `requiredScopes` and `scopeIncludesAny`: a string or
an array of strings. -/
inductive ScopesArg where
  | text (s : String)
  | list (l : List String)
deriving DecidableEq, Repr

/-- The array `scopes` after `if (typeof scopes === 'string') scopes = scopes.split(' ')`. -/
def ScopesArg.toList : ScopesArg → List String
  | ScopesArg.text s => splitScopes s
  | ScopesArg.list l => l

/-- The predicate both scope checks hand to `claimCheck$1`. -/
def scopePredicate (scopes : List String) (matchAll : Bool) (payload : Obj) :
    Except Thrown Bool :=
  if !Obj.has payload "scope" then
    Except.error
      (Thrown.auth (InsufficientScopeError.new (some scopes) (some "Missing 'scope' claim")))
  else
    match isClaimIncluded "scope" (scopes.map JsVal.str) matchAll payload with
    | Except.error e => Except.error e
    | Except.ok b =>
      if !b then Except.error (Thrown.auth (InsufficientScopeError.new (some scopes) none))
      else Except.ok true

/-- The check `requiredScopes$1(scopes)`. -/
def requiredScopes (scopes : ScopesArg) (payload : Option Obj) : Except Thrown Unit :=
  claimCheck (scopePredicate scopes.toList true) none payload

/-- The check `scopeIncludesAny$1(scopes)`. -/
def scopeIncludesAny (scopes : ScopesArg) (payload : Option Obj) : Except Thrown Unit :=
  claimCheck (scopePredicate scopes.toList false) none payload

/-! ## The request guard (index.js 398-415) -/

/-- The parts of an Express request the guard reads and writes: `urlencoded` is
`!!req.is('urlencoded')` and `auth` is `req.auth`. -/
structure Request where
  headers : Obj
  query : JsVal
  body : JsVal
  urlencoded : Bool
  auth : Option VerifyJwtResult

/-- The argument the guard passes to `next`: the catch branch of the handler. -/
def nextArg (authRequired : Option Bool) (e : AuthError) : Option AuthError :=
  if authRequired == some false then none else some e

/-- The handler returned by `auth(opts)` for a verifier built from `opts`: the
closure variables of the verifier and the request after the call, and the argument of
the one call of `next` (`none` for `next()`). -/
def authHandler (v : Verifier) (authRequired : Option Bool) (st : VerifierState) (c : Call)
    (req : Request) : VerifierState × Request × Option AuthError :=
  match getToken req.headers req.query req.body req.urlencoded with
  | Except.error e => (st, req, nextArg authRequired e)
  | Except.ok jwt =>
    match v.verify st c jwt with
    | (st1, Except.ok result) =>
      (st1, ⟨req.headers, req.query, req.body, req.urlencoded, some result⟩, none)
    | (st1, Except.error e) => (st1, req, nextArg authRequired e)

/-! ## The memoized metadata resolver (index.js 164-178) -/

/-- The state of one call of `discover`: still running, or settled. -/
inductive FetchStatus where
  | pending
  | fulfilled (d : Metadata)
  | rejected (message : String)

/-- Whether a fetch is still in flight. -/
def FetchStatus.isPending : FetchStatus → Bool
  | FetchStatus.pending => true
  | _ => false

/-- The resolver of one verifier: every call of `discover` made so far (oldest
first, a promise is named by its position), and the closure variables `discovery`
(the promise it holds, if any) and `timestamp`. -/
structure DiscoveryState where
  fetches : List FetchStatus
  discovery : Option Nat
  timestamp : Nat

/-- The closure variables when `discovery(opts)` returns: `discovery` is undefined
and `timestamp` is 0. -/
def DiscoveryState.initial : DiscoveryState := ⟨[], none, 0⟩

/-- The branch of the resolver that calls `discover`: `timestamp = now` and
`discovery` holds the new promise. -/
def DiscoveryState.startFetch (s : DiscoveryState) (now : Nat) : DiscoveryState :=
  ⟨s.fetches ++ [FetchStatus.pending], some s.fetches.length, now⟩

/-- The test `!discovery || now > timestamp + opts.cacheMaxAge`. -/
def DiscoveryState.mustFetch (cacheMaxAge : Nat) (s : DiscoveryState) (now : Nat) : Bool :=
  match s.discovery with
  | none => true
  | some _ => decide (now > s.timestamp + cacheMaxAge)

/-- The resolver `() => { ... return discovery }` called when `Date.now()` is `now`:
the state after the call and the promise it returns. -/
def getDiscovery (cacheMaxAge : Nat) (s : DiscoveryState) (now : Nat) :
    DiscoveryState × Nat :=
  match s.discovery with
  | none => (s.startFetch now, s.fetches.length)
  | some p =>
    if now > s.timestamp + cacheMaxAge then (s.startFetch now, s.fetches.length)
    else (s, p)

/-- The pending promise `p` is fulfilled with the metadata `d`. -/
def DiscoveryState.resolve (s : DiscoveryState) (p : Nat) (d : Metadata) : DiscoveryState :=
  match s.fetches[p]? with
  | some FetchStatus.pending => ⟨s.fetches.set p (FetchStatus.fulfilled d), s.discovery, s.timestamp⟩
  | _ => s

/-- The pending promise `p` is rejected: its `catch` handler runs
`discovery = undefined` and rethrows. -/
def DiscoveryState.fail (s : DiscoveryState) (p : Nat) (message : String) : DiscoveryState :=
  match s.fetches[p]? with
  | some FetchStatus.pending => ⟨s.fetches.set p (FetchStatus.rejected message), none, s.timestamp⟩
  | _ => s

/-- What can happen to a resolver: it is called, or a pending fetch settles. -/
inductive DiscoveryEvent where
  | call (now : Nat)
  | resolve (p : Nat) (d : Metadata)
  | fail (p : Nat) (message : String)

/-- One step of the resolver. -/
def DiscoveryState.step (cacheMaxAge : Nat) (s : DiscoveryState) :
    DiscoveryEvent → DiscoveryState
  | DiscoveryEvent.call now => (getDiscovery cacheMaxAge s now).1
  | DiscoveryEvent.resolve p d => s.resolve p d
  | DiscoveryEvent.fail p m => s.fail p m

/-- The state after a sequence of events. -/
def DiscoveryState.run (cacheMaxAge : Nat) (s : DiscoveryState) :
    List DiscoveryEvent → DiscoveryState
  | [] => s
  | e :: rest => DiscoveryState.run cacheMaxAge (s.step cacheMaxAge e) rest

/-- The promises returned by the calls of a sequence of events, in order. -/
def DiscoveryState.returned (cacheMaxAge : Nat) (s : DiscoveryState) :
    List DiscoveryEvent → List Nat
  | [] => []
  | DiscoveryEvent.call now :: rest =>
    (getDiscovery cacheMaxAge s now).2 ::
      DiscoveryState.returned cacheMaxAge (getDiscovery cacheMaxAge s now).1 rest
  | e :: rest => DiscoveryState.returned cacheMaxAge (s.step cacheMaxAge e) rest

/-- The number of fetches in flight. -/
def DiscoveryState.inFlight (s : DiscoveryState) : Nat :=
  s.fetches.countP FetchStatus.isPending

/-- Whether an event is the failure of a fetch. -/
def DiscoveryEvent.isFail : DiscoveryEvent → Bool
  | DiscoveryEvent.fail _ _ => true
  | _ => false

/-- Whether an event is a call of the resolver. -/
def DiscoveryEvent.isCall : DiscoveryEvent → Bool
  | DiscoveryEvent.call _ => true
  | _ => false

/-- Whether every call of a sequence of events that finds a fetch in flight comes no
later than `cacheMaxAge` after the start of the last fetch (`timestamp`). -/
def DiscoveryState.callsWithinWindow (cacheMaxAge : Nat) (s : DiscoveryState) :
    List DiscoveryEvent → Bool
  | [] => true
  | DiscoveryEvent.call now :: rest =>
    (decide (s.inFlight = 0) || decide (now ≤ s.timestamp + cacheMaxAge)) &&
      DiscoveryState.callsWithinWindow cacheMaxAge (getDiscovery cacheMaxAge s now).1 rest
  | DiscoveryEvent.resolve p d :: rest =>
    DiscoveryState.callsWithinWindow cacheMaxAge (s.resolve p d) rest
  | DiscoveryEvent.fail p m :: rest =>
    DiscoveryState.callsWithinWindow cacheMaxAge (s.fail p m) rest

/-- The invariant of a resolver: no fetch is in flight, or exactly one is and it is
the promise the resolver holds. -/
def DiscoveryState.singleFlight (s : DiscoveryState) : Prop :=
  s.inFlight = 0 ∨
    (s.inFlight = 1 ∧ ∃ p, s.discovery = some p ∧ s.fetches[p]? = some FetchStatus.pending)

/-! ## Metadata discovery (index.js 126-163) -/

/-- The constant `OIDC_DISCOVERY`. -/
def OIDC_DISCOVERY : String := "/.well-known/openid-configuration"

/-- The constant `OAUTH2_DISCOVERY`. -/
def OAUTH2_DISCOVERY : String := "/.well-known/oauth-authorization-server"

/-- The test `s.includes(pat)` on the characters of two strings. -/
def includesChars (pat : List Char) : List Char → Bool
  | [] => pat.isEmpty
  | c :: cs => pat.isPrefixOf (c :: cs) || includesChars pat cs

/-- The check `assertIssuer(data)`: reading `data.issuer` throws on `null`, and the
assertion throws unless the issuer is truthy. An error is the message thrown. -/
def assertIssuer (data : JsVal) : Except String Unit :=
  match data with
  | JsVal.null => Except.error "Cannot read properties of null (reading 'issuer')"
  | JsVal.undefined => Except.error "Cannot read properties of undefined (reading 'issuer')"
  | v =>
    if (v.prop "issuer").truthy then Except.ok ()
    else Except.error "'issuer' not found in authorization server metadata"

/-- The OIDC-configuration candidate: the first path pushed on `pathnames`. -/
def oidcCandidate (pathname : String) : String :=
  if pathname.toList.getLast? == some '/' then
    pathname ++ String.mk (OIDC_DISCOVERY.toList.drop 1)
  else pathname ++ OIDC_DISCOVERY

/-- The OAuth2-authorization-server candidate: the second path pushed on
`pathnames`. -/
def oauth2Candidate (pathname : String) : String :=
  if pathname == "/" then OAUTH2_DISCOVERY else OAUTH2_DISCOVERY ++ pathname

/-- The array `pathnames` that `discover` builds from the path of the base URL: the
OIDC candidate, then the OAuth2 candidate. -/
def discoveryPathnames (pathname : String) : List String :=
  [oidcCandidate pathname, oauth2Candidate pathname]

/-- The loop of `discover` over the candidates, `fetch` giving the outcome of the
fetch of a path (an error for a network, status or parse failure): the result and the
paths fetched, in order. An error on a candidate is swallowed. -/
def tryCandidates (fetch : String → Except String JsVal) :
    List String → Except String JsVal × List String
  | [] => (Except.error "Failed to fetch authorization server metadata", [])
  | path :: rest =>
    match fetch path with
    | Except.ok data =>
      match assertIssuer data with
      | Except.ok _ => (Except.ok data, [path])
      | Except.error _ => ((tryCandidates fetch rest).1, path :: (tryCandidates fetch rest).2)
    | Except.error _ => ((tryCandidates fetch rest).1, path :: (tryCandidates fetch rest).2)

/-- The function `discover` for a base URL that parses, given by its path: the result
and the paths fetched, in order. -/
def discover (fetch : String → Except String JsVal) (pathname : String) :
    Except String JsVal × List String :=
  if includesChars "/.well-known/".toList pathname.toList then
    match fetch pathname with
    | Except.ok data =>
      match assertIssuer data with
      | Except.ok _ => (Except.ok data, [pathname])
      | Except.error m => (Except.error m, [pathname])
    | Except.error m => (Except.error m, [pathname])
  else tryCandidates fetch (discoveryPathnames pathname)

/-- Whether the fetch of a path gives a document that passes `assertIssuer`. -/
def candidateOk (fetch : String → Except String JsVal) (path : String) : Bool :=
  match fetch path with
  | Except.ok data =>
    match assertIssuer data with
    | Except.ok _ => true
    | Except.error _ => false
  | Except.error _ => false

/-! ## The key provider (index.js 180-198) -/

/-- A key resolver returned by the key provider: the constant `() => secretKey`, or
a remote key set built by `jose.createRemoteJWKSet`, named by the order in which it
was built. -/
inductive KeyFn where
  | secret (key : String)
  | remote (id : Nat)
deriving DecidableEq, Repr

/-- The closure variables of one key provider: `getKeyFn` (the remote resolver it
holds, if any) and `prevjwksUri`, and the URIs of the remote resolvers built so far,
oldest first. -/
structure KeyState where
  getKeyFn : Option Nat
  prevjwksUri : Option String
  built : List String

/-- The closure variables when `getKeyFn(opts)` returns. -/
def KeyState.initial : KeyState := ⟨none, none, []⟩

/-- The branch of the key provider that builds a resolver: `prevjwksUri` is assigned
first, then `new URL(jwksUri)` throws unless the URI parses (`validUrl`). -/
def KeyState.build (validUrl : String → Bool) (s : KeyState) (jwksUri : Option String) :
    KeyState × Except String KeyFn :=
  match jwksUri with
  | some u =>
    if validUrl u then
      (⟨some s.built.length, jwksUri, s.built ++ [u]⟩, Except.ok (KeyFn.remote s.built.length))
    else (⟨s.getKeyFn, jwksUri, s.built⟩, Except.error "Invalid URL")
  | none => (⟨s.getKeyFn, jwksUri, s.built⟩, Except.error "Invalid URL")

/-- The function `(jwksUri) => ...` returned by `getKeyFn(opts)`: the closure
variables after the call and the resolver returned. -/
def getKeyFn (validUrl : String → Bool) (secret : Option String) (s : KeyState)
    (jwksUri : Option String) : KeyState × Except String KeyFn :=
  if strTruthy secret then (s, Except.ok (KeyFn.secret (secret.getD "")))
  else
    match s.getKeyFn with
    | none => s.build validUrl jwksUri
    | some id =>
      if s.prevjwksUri != jwksUri then s.build validUrl jwksUri
      else (s, Except.ok (KeyFn.remote id))

/-- The closure variables and the resolvers returned after a sequence of calls. -/
def KeyState.run (validUrl : String → Bool) (secret : Option String) (s : KeyState) :
    List (Option String) → KeyState × List (Except String KeyFn)
  | [] => (s, [])
  | u :: rest =>
    ((KeyState.run validUrl secret (OAuth2JwtBearer.getKeyFn validUrl secret s u).1 rest).1,
      (OAuth2JwtBearer.getKeyFn validUrl secret s u).2 ::
        (KeyState.run validUrl secret (OAuth2JwtBearer.getKeyFn validUrl secret s u).1 rest).2)

/-- The key-set URI the key provider is asked for in a verify call
(`getKeyFnGetter(jwksUri)`), when the call gets that far. -/
def Verifier.jwksUriAsked (v : Verifier) (st : VerifierState) (c : Call) :
    Option (Option String) :=
  match v.afterDiscovery st c with
  | Except.ok st1 => some (st1.withValidators v).jwksUri
  | Except.error _ => none

/-! ## The booking controller (server/controllers/userCntrl.js 31-97) -/

/-- An entry of `bookedVisits`, as `bookVisit` pushes it: `{ id, date }`, the id being
the residency id of the route. -/
structure Visit where
  id : String
  date : JsVal

/-- The answer of a handler: the HTTP status and the `message` of the body. -/
structure Response where
  status : Nat
  message : String
deriving DecidableEq, Repr

/-- The `prisma.user.update` a handler issues on `bookedVisits`, if it issues one. -/
inductive VisitsUpdate where
  | none
  | push (visit : Visit)
  | set (visits : List Visit)

/-- The stored `bookedVisits` after an update of a handler that read them. -/
def VisitsUpdate.apply (stored : List Visit) : VisitsUpdate → List Visit
  | VisitsUpdate.none => stored
  | VisitsUpdate.push visit => stored ++ [visit]
  | VisitsUpdate.set visits => visits

/-- The index `visits.findIndex(p)`; `none` stands for -1. -/
def findIndex (p : Visit → Bool) : List Visit → Option Nat
  | [] => none
  | visit :: rest => if p visit then some 0 else (findIndex p rest).map (fun k => k + 1)

/-- The handler `bookVisit`: `user` is what `findUnique` returns (`none` for `null`,
on which reading `bookedVisits` throws), `id` the route parameter and `date` the body
field. An error is the message of the error passed on. -/
def bookVisit (user : Option (List Visit)) (id : String) (date : JsVal) :
    Except String (VisitsUpdate × Response) :=
  match user with
  | none => Except.error "Cannot read properties of null (reading 'bookedVisits')"
  | some bookedVisits =>
    if bookedVisits.any (fun visit => visit.id == id) then
      Except.ok (VisitsUpdate.none, ⟨400, "Already booked"⟩)
    else
      Except.ok (VisitsUpdate.push ⟨id, date⟩, ⟨200, "Booked successfully"⟩)

/-- The handler `cancelBooking`: `splice(index, 1)` on the visits read, which are then
written back. -/
def cancelBooking (user : Option (List Visit)) (id : String) :
    Except String (VisitsUpdate × Response) :=
  match user with
  | none => Except.error "Cannot read properties of null (reading 'bookedVisits')"
  | some bookedVisits =>
    match findIndex (fun visit => visit.id == id) bookedVisits with
    | none => Except.ok (VisitsUpdate.none, ⟨400, "Not booked"⟩)
    | some index =>
      Except.ok (VisitsUpdate.set (bookedVisits.eraseIdx index), ⟨200, "Cancelled successfully"⟩)

/-! ## Theorems: token extraction -/

theorem getToken_cases (a b c : Option String) (t : String) :
    let src : List String := [a, b, c].filterMap
      (fun x => match x with
        | some s => if s != "" then some s else none
        | none => none)
    let r : Except AuthError String :=
      if !strTruthy b && !strTruthy a && !strTruthy c then
        Except.error UnauthorizedError.default
      else if boolNum b + boolNum c + boolNum a > 1 then
        Except.error ambiguousTokenError
      else
        match orElseFalsy (orElseFalsy b c) a with
        | some t => Except.ok t
        | none => Except.error UnauthorizedError.default
    (r = Except.ok t ↔ src = [t]) ∧
    (r = Except.error UnauthorizedError.default ↔ src = []) ∧
    (r = Except.error ambiguousTokenError ↔ 2 ≤ src.length) := by
  rcases a with _ | a <;> rcases b with _ | b <;> rcases c with _ | c
  all_goals
    (try by_cases ha : a = "") <;> (try by_cases hb : b = "") <;>
      (try by_cases hc : c = "") <;>
      simp_all [strTruthy, boolNum, orElseFalsy, UnauthorizedError.default,
        ambiguousTokenError]

theorem matchTokenRe_bearer (scheme tok : List Char)
    (hs : scheme.map Char.toLower = "bearer".toList) (hne : tok ≠ [])
    (hlt : ∀ c ∈ tok, isLineTerminator c = false) :
    matchTokenRe (scheme ++ ' ' :: tok) = some tok := by
  have hlen : scheme.length = 6 := by
    have := congrArg List.length hs
    simpa using this
  have h1 : (scheme ++ ' ' :: tok).take 6 = scheme := by
    rw [← hlen]; exact List.take_left' rfl
  have h2 : (scheme ++ ' ' :: tok).drop 6 = ' ' :: tok := by
    rw [← hlen]; exact List.drop_left' rfl
  have h3 : (scheme ++ ' ' :: tok).drop 7 = tok := by
    have : (scheme ++ ' ' :: tok).drop (6 + 1) = ((scheme ++ ' ' :: tok).drop 6).drop 1 := by
      rw [List.drop_drop]
    rw [this, h2]; rfl
  have h4 : tok.all (fun c => !isLineTerminator c) = true := by
    rw [List.all_eq_true]
    intro c hc
    simp [hlt c hc]
  have h5 : tok.isEmpty = false := by
    cases tok with
    | nil => exact absurd rfl hne
    | cons _ _ => rfl
  unfold matchTokenRe
  simp only [h1, h2, h3, h4, h5, hs]
  rfl

theorem matchTokenRe_some (cs m : List Char) (h : matchTokenRe cs = some m) :
    ∃ scheme : List Char, cs = scheme ++ ' ' :: m ∧
      scheme.map Char.toLower = "bearer".toList ∧ m ≠ [] ∧
      (∀ c ∈ m, isLineTerminator c = false) := by
  unfold matchTokenRe at h
  simp only [Bool.and_eq_true, beq_iff_eq, Bool.not_eq_true', List.all_eq_true,
    ite_eq_iff, Option.some.injEq, reduceCtorEq, and_false, or_false] at h
  obtain ⟨⟨⟨⟨hs, hsp⟩, hne⟩, hall⟩, hm⟩ := h
  refine ⟨cs.take 6, ?_, hs, ?_, ?_⟩
  · have hsplit : cs = cs.take 6 ++ cs.drop 6 := (List.take_append_drop 6 cs).symm
    have hd : cs.drop 6 = ' ' :: m := by
      cases hc : cs.drop 6 with
      | nil => rw [hc] at hsp; simp at hsp
      | cons a l =>
        rw [hc] at hsp
        simp only [List.head?_cons, Option.some.injEq] at hsp
        have h7 : cs.drop 7 = l := by
          have : cs.drop (6 + 1) = (cs.drop 6).drop 1 := by rw [List.drop_drop]
          rw [this, hc]; rfl
        rw [hsp, ← hm, h7]
    rw [← hd]; exact hsplit
  · intro hnil
    rw [← hm] at hnil
    rw [hnil] at hne
    simp at hne
  · intro c hc
    rw [← hm] at hc
    exact hall c hc

theorem getTokenFromHeader_iff (headers : Obj) (t : String) :
    getTokenFromHeader headers = some t ↔ IsHeaderSource headers t := by
  constructor
  · intro h
    unfold getTokenFromHeader at h
    cases hv : Obj.get headers "authorization" with
    | str s =>
      rw [hv] at h
      dsimp only at h
      cases hm : matchTokenRe s.toList with
      | none => rw [hm] at h; simp at h
      | some m =>
        rw [hm] at h
        simp only [Option.some.injEq] at h
        obtain ⟨scheme, hcs, hs, hne, hlt⟩ := matchTokenRe_some _ _ hm
        refine ⟨scheme, m, ?_, hs, hne, hlt, h.symm⟩
        rw [← hcs]
        exact hv
    | undefined => rw [hv] at h; simp at h
    | null => rw [hv] at h; simp at h
    | bool b => rw [hv] at h; simp at h
    | num n => rw [hv] at h; simp at h
    | arr a => rw [hv] at h; simp at h
    | obj o => rw [hv] at h; simp at h
  · rintro ⟨scheme, tok, hget, hs, hne, hlt, rfl⟩
    simp [getTokenFromHeader, hget, matchTokenRe_bearer scheme tok hs hne hlt]

theorem getTokenFromQuery_iff (query : JsVal) (t : String) :
    getTokenFromQuery query = some t ↔ IsQuerySource query t := by
  constructor
  · intro h
    cases query with
    | obj fields =>
      refine ⟨fields, rfl, ?_⟩
      simp only [getTokenFromQuery, accessTokenOf, JsVal.prop] at h
      cases hv : Obj.get fields "access_token" <;> rw [hv] at h <;> simp at h
      rw [h]
    | undefined => simp [getTokenFromQuery, accessTokenOf] at h
    | null => simp [getTokenFromQuery, accessTokenOf] at h
    | bool b => simp [getTokenFromQuery, accessTokenOf, JsVal.prop] at h
    | num n => simp [getTokenFromQuery, accessTokenOf, JsVal.prop] at h
    | str s => simp [getTokenFromQuery, accessTokenOf, JsVal.prop] at h
    | arr a => simp [getTokenFromQuery, accessTokenOf, JsVal.prop] at h
  · rintro ⟨fields, rfl, hget⟩
    simp [getTokenFromQuery, accessTokenOf, JsVal.prop, hget]

theorem getFromBody_iff (body : JsVal) (urlEncoded : Bool) (t : String) :
    getFromBody body urlEncoded = some t ↔ IsBodySource body urlEncoded t := by
  constructor
  · intro h
    cases body with
    | obj fields =>
      simp only [getFromBody, accessTokenOf, JsVal.prop] at h
      cases hv : Obj.get fields "access_token" <;> rw [hv] at h <;> simp at h
      exact ⟨h.1, fields, rfl, by rw [hv, h.2]⟩
    | undefined => simp [getFromBody, accessTokenOf] at h
    | null => simp [getFromBody, accessTokenOf] at h
    | bool b => simp [getFromBody, accessTokenOf, JsVal.prop] at h
    | num n => simp [getFromBody, accessTokenOf, JsVal.prop] at h
    | str s => simp [getFromBody, accessTokenOf, JsVal.prop] at h
    | arr a => simp [getFromBody, accessTokenOf, JsVal.prop] at h
  · rintro ⟨hu, fields, rfl, hget⟩
    simp [getFromBody, accessTokenOf, JsVal.prop, hget, hu]

theorem getToken_by_presence (a b c : Option String) (t : String) :
    let present : Option String → Prop := fun x => ∃ s, x = some s ∧ s ≠ ""
    let r : Except AuthError String :=
      if !strTruthy b && !strTruthy a && !strTruthy c then
        Except.error UnauthorizedError.default
      else if boolNum b + boolNum c + boolNum a > 1 then
        Except.error ambiguousTokenError
      else
        match orElseFalsy (orElseFalsy b c) a with
        | some t => Except.ok t
        | none => Except.error UnauthorizedError.default
    (r = Except.ok t ↔ t ≠ "" ∧
      ((a = some t ∧ ¬ present b ∧ ¬ present c) ∨
       (b = some t ∧ ¬ present a ∧ ¬ present c) ∨
       (c = some t ∧ ¬ present a ∧ ¬ present b))) ∧
    (r = Except.error UnauthorizedError.default ↔
      ¬ present a ∧ ¬ present b ∧ ¬ present c) ∧
    (r = Except.error ambiguousTokenError ↔
      (present a ∧ present b) ∨ (present a ∧ present c) ∨ (present b ∧ present c)) := by
  rcases a with _ | a <;> rcases b with _ | b <;> rcases c with _ | c
  all_goals
    (try by_cases ha : a = "") <;> (try by_cases hb : b = "") <;>
      (try by_cases hc : c = "") <;>
      simp_all [strTruthy, boolNum, orElseFalsy, UnauthorizedError.default,
        ambiguousTokenError]
  all_goals
    first
    | (intro h1 h2; exact h1 h2.symm)
    | (intro h1; rw [← h1]; assumption)

/-- C1. With the three token sources taken as the specification words them (the header
source: the text after the scheme and its space when `headers.authorization` is a
string matching the Bearer scheme, letter case of the scheme ignored; the query source:
`query.access_token` when it is a string; the body source: `body.access_token` when it
is a string and `urlEncoded` is true), `getToken` returns `t` iff exactly one source is
a non-empty string and `t` is that source's value; it fails with the missing-token
error iff no source is non-empty; it fails with the ambiguous-token error
(`InvalidRequestError`, "More than one method used for authentication") iff two or more
sources are non-empty. The last four parts say that the code's three readers compute
exactly these sources (so a header that is not a string or does not match, and an
`access_token` that is not a string, give no source) and that there is no body source
when `urlEncoded` is false. -/
theorem getToken_iff_exactly_one_source (headers : Obj) (query body : JsVal)
    (urlEncoded : Bool) (t : String) :
    (getToken headers query body urlEncoded = Except.ok t ↔
      t ≠ "" ∧
      ((IsHeaderSource headers t ∧ ¬ QueryPresent query ∧ ¬ BodyPresent body urlEncoded) ∨
       (IsQuerySource query t ∧ ¬ HeaderPresent headers ∧ ¬ BodyPresent body urlEncoded) ∨
       (IsBodySource body urlEncoded t ∧ ¬ HeaderPresent headers ∧ ¬ QueryPresent query))) ∧
    (getToken headers query body urlEncoded = Except.error UnauthorizedError.default ↔
      ¬ HeaderPresent headers ∧ ¬ QueryPresent query ∧ ¬ BodyPresent body urlEncoded) ∧
    (getToken headers query body urlEncoded = Except.error ambiguousTokenError ↔
      (HeaderPresent headers ∧ QueryPresent query) ∨
      (HeaderPresent headers ∧ BodyPresent body urlEncoded) ∨
      (QueryPresent query ∧ BodyPresent body urlEncoded)) ∧
    (getTokenFromHeader headers = some t ↔ IsHeaderSource headers t) ∧
    (getTokenFromQuery query = some t ↔ IsQuerySource query t) ∧
    (getFromBody body urlEncoded = some t ↔ IsBodySource body urlEncoded t) ∧
    ¬ BodyPresent body false ∧
    ambiguousTokenError =
      AuthError.invalidRequest "More than one method used for authentication" := by
  have h := getToken_by_presence (getTokenFromHeader headers) (getTokenFromQuery query)
    (getFromBody body urlEncoded) t
  simp only [getTokenFromHeader_iff, getTokenFromQuery_iff, getFromBody_iff] at h
  refine ⟨h.1, h.2.1, h.2.2, getTokenFromHeader_iff headers t,
    getTokenFromQuery_iff query t, getFromBody_iff body urlEncoded t, ?_, rfl⟩
  rintro ⟨s, ⟨hu, _⟩, _⟩
  exact absurd hu (by decide)

/-- C1 at a request with the header `bEaRer abc`, an empty query token and a body
token that is not url-encoded: the header is the only non-empty source and its token
is returned. -/
theorem getToken_iff_exactly_one_source_witness :
    getToken [("authorization", JsVal.str "bEaRer abc")]
      (JsVal.obj [("access_token", JsVal.str "")])
      (JsVal.obj [("access_token", JsVal.str "xyz")]) false = Except.ok "abc" :=
  (getToken_iff_exactly_one_source [("authorization", JsVal.str "bEaRer abc")]
      (JsVal.obj [("access_token", JsVal.str "")])
      (JsVal.obj [("access_token", JsVal.str "xyz")]) false "abc").1.mpr
    ⟨by decide, Or.inl
      ⟨⟨"bEaRer".toList, "abc".toList, rfl, by decide, by decide, by decide, rfl⟩,
       by
        rintro ⟨s, ⟨fields, hq, hget⟩, hne⟩
        cases hq
        have : s = "" := by
          have h2 : Obj.get [("access_token", JsVal.str "")] "access_token" = JsVal.str "" := rfl
          rw [h2] at hget
          cases hget
          rfl
        exact hne this,
       by
        rintro ⟨s, ⟨hu, _⟩, _⟩
        exact absurd hu (by decide)⟩⟩

/-! ## Theorems: objects and `Promise.all` -/

theorem get?_nil (k : String) : Validators.get? [] k = none := rfl

theorem get?_cons (e : String × Validator) (rest : Validators) (k : String) :
    Validators.get? (e :: rest) k =
      if e.1 = k then some e.2 else Validators.get? rest k := by
  unfold Validators.get?
  rw [List.find?_cons]
  by_cases h : e.1 = k
  · simp [h]
  · have hb : (e.1 == k) = false := by simpa using h
    simp [h, hb]

theorem get?_replaceEntry (key : String) (v : Validator) (vs : Validators) (k : String)
    (hmem : vs.any (fun e => e.1 == key) = true) :
    Validators.get? (replaceEntry key v vs) k =
      if key = k then some v else Validators.get? vs k := by
  induction vs with
  | nil => simp at hmem
  | cons e rest ih =>
    unfold replaceEntry
    by_cases he : e.1 = key
    · have hb : (e.1 == key) = true := by simpa using he
      rw [if_pos hb, get?_cons, get?_cons]
      by_cases h : key = k
      · simp [h]
      · have hek : ¬ e.1 = k := by rw [he]; exact h
        simp [h, hek]
    · have hb : ¬ (e.1 == key) = true := by simpa using he
      have hrest : rest.any (fun e => e.1 == key) = true := by
        rw [List.any_cons] at hmem
        simpa [he] using hmem
      rw [if_neg hb, get?_cons, get?_cons, ih hrest]
      by_cases hek : e.1 = k
      · have h : ¬ key = k := by rw [← hek]; exact fun h => he h.symm
        simp [hek, h]
      · simp [hek]

theorem get?_insertIndexed (n : Nat) (key : String) (v : Validator) (vs : Validators)
    (k : String) (hmem : vs.any (fun e => e.1 == key) = false) :
    Validators.get? (insertIndexed n key v vs) k =
      if key = k then some v else Validators.get? vs k := by
  induction vs with
  | nil =>
    show Validators.get? [(key, v)] k = _
    rw [get?_cons, get?_nil]
  | cons e rest ih =>
    rw [List.any_cons, Bool.or_eq_false_iff] at hmem
    have he : ¬ e.1 = key := by simpa using hmem.1
    have hnew : Validators.get? ((key, v) :: e :: rest) k =
        if key = k then some v else Validators.get? (e :: rest) k := by
      rw [get?_cons]
    unfold insertIndexed
    cases arrayIndex e.1 with
    | none => exact hnew
    | some m =>
      simp only
      by_cases hlt : m < n
      · rw [if_pos hlt, get?_cons, get?_cons, ih hmem.2]
        by_cases hek : e.1 = k
        · have h : ¬ key = k := by rw [← hek]; exact fun h => he h.symm
          simp [hek, h]
        · simp [hek]
      · rw [if_neg hlt]; exact hnew

theorem get?_append_singleton (vs : Validators) (key : String) (v : Validator) (k : String)
    (hmem : vs.any (fun e => e.1 == key) = false) :
    Validators.get? (vs ++ [(key, v)]) k =
      if key = k then some v else Validators.get? vs k := by
  induction vs with
  | nil =>
    show Validators.get? [(key, v)] k = _
    rw [get?_cons, get?_nil]
  | cons e rest ih =>
    rw [List.any_cons, Bool.or_eq_false_iff] at hmem
    have he : ¬ e.1 = key := by simpa using hmem.1
    rw [List.cons_append, get?_cons, get?_cons, ih hmem.2]
    by_cases hek : e.1 = k
    · have h : ¬ key = k := by rw [← hek]; exact fun h => he h.symm
      simp [hek, h]
    · simp [hek]

theorem get?_setEntry (key : String) (v : Validator) (vs : Validators) (k : String) :
    Validators.get? (setEntry key v vs) k =
      if key = k then some v else Validators.get? vs k := by
  unfold setEntry
  cases hmem : vs.any (fun e => e.1 == key) with
  | true =>
    rw [if_pos rfl]
    exact get?_replaceEntry key v vs k hmem
  | false =>
    simp only [Bool.false_eq_true, if_false]
    cases arrayIndex key with
    | some n => exact get?_insertIndexed n key v vs k hmem
    | none => exact get?_append_singleton vs key v k hmem

theorem get?_spread_of_not_mem (base extra : Validators) (k : String)
    (h : Validators.get? extra k = none) :
    Validators.get? (spread base extra) k = Validators.get? base k := by
  induction extra generalizing base with
  | nil => rfl
  | cons e rest ih =>
    rw [get?_cons] at h
    have hek : ¬ e.1 = k := by
      intro hek
      rw [if_pos hek] at h
      exact absurd h (by simp)
    rw [if_neg hek] at h
    show Validators.get? (spread (setEntry e.1 e.2 base) rest) k = _
    rw [ih _ h, get?_setEntry, if_neg hek]

theorem get?_mem (vs : Validators) (k : String) (v : Validator)
    (h : Validators.get? vs k = some v) : (k, v) ∈ vs := by
  induction vs with
  | nil => exact absurd h (by simp [get?_nil])
  | cons e rest ih =>
    rw [get?_cons] at h
    by_cases hek : e.1 = k
    · rw [if_pos hek] at h
      have hv : e.2 = v := by simpa using h
      have : e = (k, v) := by
        cases e; simp_all
      rw [this]; exact List.mem_cons_self _ _
    · rw [if_neg hek] at h
      exact List.mem_cons_of_mem _ (ih h)

theorem firstRejection_eq_none (ps : List Settled) :
    firstRejection ps = none ↔ ∀ s ∈ ps, s.result = Except.ok () := by
  induction ps with
  | nil => simp [firstRejection]
  | cons s rest ih =>
    rcases hs : s.result with m | u
    · constructor
      · intro h
        unfold firstRejection at h
        rw [hs] at h
        cases hr : firstRejection rest with
        | none => simp [hr] at h
        | some q =>
          obtain ⟨t, m'⟩ := q
          simp only [hr] at h
          split at h <;> exact absurd h (by simp)
      · intro h
        have := h s (List.mem_cons_self _ _)
        rw [hs] at this
        exact absurd this (by simp)
    · constructor
      · intro h s' hs'
        unfold firstRejection at h
        rw [hs] at h
        simp only at h
        rcases List.mem_cons.mp hs' with rfl | hmem
        · rw [hs]
        · exact ih.mp h s' hmem
      · intro h
        unfold firstRejection
        rw [hs]
        simp only
        exact ih.mpr (fun s' hs' => h s' (List.mem_cons_of_mem _ hs'))

theorem validate_ok_iff (clock : Nat) (payload header : Obj) (vs : Validators) :
    validate clock payload header vs = Except.ok () ↔
      ∀ e ∈ vs, (checkEntry clock payload header e.1 e.2).result = Except.ok () := by
  unfold validate promiseAll
  cases h : firstRejection (vs.map (fun e => checkEntry clock payload header e.1 e.2)) with
  | none =>
    have := (firstRejection_eq_none _).mp h
    simp only [true_iff]
    intro e he
    exact this _ (List.mem_map_of_mem _ he)
  | some q =>
    simp only [reduceCtorEq, false_iff]
    intro hall
    have : firstRejection (vs.map (fun e => checkEntry clock payload header e.1 e.2)) = none := by
      rw [firstRejection_eq_none]
      intro s hs
      obtain ⟨e, he, rfl⟩ := List.mem_map.mp hs
      exact hall e he
    rw [this] at h
    exact absurd h (by simp)

theorem validate_error_of_entry (clock : Nat) (payload header : Obj) (vs : Validators)
    (e : String × Validator) (he : e ∈ vs)
    (hf : (checkEntry clock payload header e.1 e.2).result ≠ Except.ok ()) :
    ∃ msg, validate clock payload header vs = Except.error msg := by
  cases h : validate clock payload header vs with
  | error m => exact ⟨m, rfl⟩
  | ok u =>
    cases u
    exact absurd ((validate_ok_iff clock payload header vs).mp h e he) hf

/-! ## Theorems: the default validators -/

theorem isStr_eq_true (v : JsVal) (a : String) :
    v.isStr a = true ↔ v = JsVal.str a := by
  cases v <;> simp [JsVal.isStr]

/-- C2. Whatever the issuer, audience, clock tolerance, token age, strict flag,
advertised algorithm list and pinned algorithm are, and whatever custom validators are
merged in as long as they leave the default `alg` validator in place, `validate`
fails on every header whose `alg` is "none", for every payload and clock. -/
theorem validate_rejects_alg_none (issuer : JsVal) (audience : Audience)
    (clockTolerance : Int) (maxTokenAge : Option Int) (strict : Bool)
    (allowedSigningAlgs : Option (List String)) (tokenSigningAlg : Option String)
    (custom : Validators) (clock : Nat) (payload header : Obj)
    (hcustom : Validators.get? custom "alg" = none)
    (halg : Obj.get header "alg" = JsVal.str "none") :
    ∃ msg, validate clock payload header
      (spread (defaultValidators issuer audience clockTolerance maxTokenAge strict
        allowedSigningAlgs tokenSigningAlg) custom) = Except.error msg := by
  have hget := get?_spread_of_not_mem
    (defaultValidators issuer audience clockTolerance maxTokenAge strict
      allowedSigningAlgs tokenSigningAlg) custom "alg" hcustom
  have hdef : Validators.get? (defaultValidators issuer audience clockTolerance maxTokenAge
      strict allowedSigningAlgs tokenSigningAlg) "alg" =
      some (Validator.fn (fun _ alg _ _ =>
        Completion.value (algCheck allowedSigningAlgs tokenSigningAlg alg))) := by
    rw [defaultValidators, get?_cons]
    rfl
  have hmem := get?_mem _ _ _ (hget.trans hdef)
  refine validate_error_of_entry clock payload header _ _ hmem ?_
  have hnone : algCheck allowedSigningAlgs tokenSigningAlg (JsVal.str "none") = false := by
    have : (toLowerCase "none" != "none") = false := by decide
    simp [algCheck, this]
  simp [checkEntry, claimValue, halg, hnone]

/-- C2 at a verifier with issuer `https://i/`, audience `api`, the default tolerance
and no custom validators: a header `alg: none` fails although the payload is empty. -/
theorem validate_rejects_alg_none_witness :
    ∃ msg, validate 0 [] [("alg", JsVal.str "none")]
      (spread (defaultValidators (JsVal.str "https://i/") (Audience.one "api") 5 none false
        none none) []) = Except.error msg :=
  validate_rejects_alg_none (JsVal.str "https://i/") (Audience.one "api") 5 none false
    none none [] 0 [] [("alg", JsVal.str "none")] rfl rfl

/-- C3. The default `aud` validator accepts a token iff its `aud` is a string equal to
one of the configured audiences, or a list sharing an element with them; an absent
`aud`, a scalar that is not a string and a disjoint list are rejected. -/
theorem aud_validator_accepts_iff (issuer : JsVal) (audience : Audience)
    (clockTolerance : Int) (maxTokenAge : Option Int) (strict : Bool)
    (allowedSigningAlgs : Option (List String)) (tokenSigningAlg : Option String)
    (clock : Nat) (payload header : Obj) :
    (checkEntry clock payload header "aud"
      (Validators.get (defaultValidators issuer audience clockTolerance maxTokenAge strict
        allowedSigningAlgs tokenSigningAlg) "aud")).result = Except.ok () ↔
    (∃ a, Obj.get payload "aud" = JsVal.str a ∧ a ∈ audience.toList) ∨
    (∃ items, Obj.get payload "aud" = JsVal.arr items ∧
      ∃ a ∈ audience.toList, JsVal.str a ∈ items) := by
  have hv : Validators.get (defaultValidators issuer audience clockTolerance maxTokenAge
      strict allowedSigningAlgs tokenSigningAlg) "aud" =
      Validator.fn (fun _ aud _ _ => Completion.value (audCheck audience aud)) := by
    simp [Validators.get, defaultValidators, get?_cons]
  have hval : claimValue payload header "aud" = Obj.get payload "aud" := by
    simp [claimValue]
  rw [hv]
  simp only [checkEntry, hval]
  have key : audCheck audience (Obj.get payload "aud") = true ↔
      (∃ a, Obj.get payload "aud" = JsVal.str a ∧ a ∈ audience.toList) ∨
      (∃ items, Obj.get payload "aud" = JsVal.arr items ∧
        ∃ a ∈ audience.toList, JsVal.str a ∈ items) := by
    cases h : Obj.get payload "aud" <;> simp [audCheck, isStr_eq_true]
  rw [← key]
  cases audCheck audience (Obj.get payload "aud") <;> simp

theorem excessBits_of_lt (fuel n : Nat) (h : n < 9007199254740992) :
    excessBits fuel n = 0 := by
  cases fuel with
  | zero => rfl
  | succ f => simp [excessBits, h]

theorem roundNat_of_lt (n : Nat) (h : n < 9007199254740992) : roundNat n = n := by
  unfold roundNat
  simp [excessBits_of_lt n n h, Nat.mod_one]

theorem excessBits_spec (fuel : Nat) :
    ∀ n : Nat, n ≤ fuel → 9007199254740992 ≤ n →
      1 ≤ excessBits fuel n ∧ 4503599627370496 ≤ n / 2 ^ excessBits fuel n := by
  induction fuel with
  | zero => intro n h1 h2; omega
  | succ f ih =>
    intro n h1 h2
    have hnot : ¬ n < 9007199254740992 := by omega
    simp only [excessBits, if_neg hnot]
    refine ⟨by omega, ?_⟩
    by_cases hhalf : n / 2 < 9007199254740992
    · rw [excessBits_of_lt f (n / 2) hhalf]
      simp only [Nat.zero_add, pow_one]
      omega
    · have hih := ih (n / 2) (by omega) (by omega)
      rw [pow_succ, Nat.mul_comm, ← Nat.div_div_eq_div_mul]
      exact hih.2

theorem roundNat_ge (n : Nat) (h : 9007199254740992 ≤ n) :
    9007199254740992 ≤ roundNat n := by
  obtain ⟨hk, hq⟩ := excessBits_spec n n (le_refl n) h
  have h2 : 2 ≤ 2 ^ excessBits n n := by
    calc 2 = 2 ^ 1 := rfl
      _ ≤ 2 ^ excessBits n n := Nat.pow_le_pow_right (by decide) hk
  have hmul : 9007199254740992 ≤ n / 2 ^ excessBits n n * 2 ^ excessBits n n := by
    calc 9007199254740992 = 4503599627370496 * 2 := rfl
      _ ≤ n / 2 ^ excessBits n n * 2 ^ excessBits n n := Nat.mul_le_mul hq h2
  unfold roundNat
  simp only
  split
  · calc 9007199254740992 ≤ n / 2 ^ excessBits n n * 2 ^ excessBits n n := hmul
      _ ≤ (n / 2 ^ excessBits n n + 1) * 2 ^ excessBits n n :=
        Nat.mul_le_mul_right _ (Nat.le_succ _)
  · exact hmul

theorem roundDouble_of_abs_lt (z : Int) (h1 : -9007199254740992 < z)
    (h2 : z < 9007199254740992) : roundDouble z = z := by
  unfold roundDouble
  rw [roundNat_of_lt z.natAbs (by omega)]
  split <;> omega

theorem roundDouble_ge (z : Int) (h : 9007199254740992 ≤ z) :
    9007199254740992 ≤ roundDouble z := by
  unfold roundDouble
  have := roundNat_ge z.natAbs (by omega)
  rw [if_neg (by omega)]
  omega

theorem roundDouble_le (z : Int) (h : z ≤ -9007199254740992) :
    roundDouble z ≤ -9007199254740992 := by
  unfold roundDouble
  have := roundNat_ge z.natAbs (by omega)
  rw [if_pos (by omega)]
  omega

theorem nowSeconds_nonneg (clock : Nat) : 0 ≤ nowSeconds clock := by
  unfold nowSeconds
  exact Int.ofNat_nonneg _

theorem nowSeconds_le (clock : Nat) : nowSeconds clock ≤ 8640000000000 := by
  unfold nowSeconds maxTimeValue
  have : min clock 8640000000000000 ≤ 8640000000000000 := Nat.min_le_right _ _
  omega

theorem nowSeconds_spec (clock : Nat) (h : clock ≤ maxTimeValue) :
    1000 * nowSeconds clock ≤ (clock : Int) ∧ (clock : Int) < 1000 * (nowSeconds clock + 1) := by
  unfold nowSeconds
  rw [Nat.min_eq_left h]
  omega

theorem expCheck_iff (now clockTolerance : Int) (exp : JsVal) :
    expCheck now clockTolerance exp = true ↔
      ∃ e, exp = JsVal.num e ∧ e ≥ roundDouble (now - clockTolerance) := by
  cases exp <;> simp [expCheck]

theorem roundNat_nearest (n : Nat) :
    2 ^ excessBits n n ∣ roundNat n ∧
    2 * (roundNat n - n) ≤ 2 ^ excessBits n n ∧
    2 * (n - roundNat n) ≤ 2 ^ excessBits n n := by
  have hdm : 2 ^ excessBits n n * (n / 2 ^ excessBits n n) + n % 2 ^ excessBits n n = n :=
    Nat.div_add_mod n (2 ^ excessBits n n)
  have hlt : n % 2 ^ excessBits n n < 2 ^ excessBits n n :=
    Nat.mod_lt _ (Nat.pos_pow_of_pos _ (by decide))
  have hcomm : n / 2 ^ excessBits n n * 2 ^ excessBits n n =
      2 ^ excessBits n n * (n / 2 ^ excessBits n n) := Nat.mul_comm _ _
  have hsucc : (n / 2 ^ excessBits n n + 1) * 2 ^ excessBits n n =
      2 ^ excessBits n n * (n / 2 ^ excessBits n n) + 2 ^ excessBits n n := by
    rw [Nat.succ_mul, hcomm]
  unfold roundNat
  simp only
  split
  · rename_i hup
    refine ⟨Dvd.intro_left _ rfl, ?_, ?_⟩
    · rw [hsucc]; omega
    · rw [hsucc]; omega
  · rename_i hdown
    refine ⟨Dvd.intro_left _ rfl, ?_, ?_⟩
    · rw [hcomm]; omega
    · rw [hcomm]; omega

theorem roundDouble_of_abs_le (z : Int) (h1 : -9007199254740992 ≤ z)
    (h2 : z ≤ 9007199254740992) : roundDouble z = z := by
  by_cases ha : z = -9007199254740992
  · rw [ha]; decide
  · by_cases hb : z = 9007199254740992
    · rw [hb]; decide
    · exact roundDouble_of_abs_lt z (by omega) (by omega)

theorem get_default_exp (issuer : JsVal) (audience : Audience)
    (clockTolerance : Int) (maxTokenAge : Option Int) (strict : Bool)
    (allowedSigningAlgs : Option (List String)) (tokenSigningAlg : Option String) :
    Validators.get (defaultValidators issuer audience clockTolerance maxTokenAge strict
      allowedSigningAlgs tokenSigningAlg) "exp" =
    Validator.fn (fun clock exp _ _ =>
      Completion.value (expCheck (nowSeconds clock) clockTolerance exp)) := by
  simp [Validators.get, defaultValidators, get?_cons]

theorem get_default_iat (issuer : JsVal) (audience : Audience)
    (clockTolerance : Int) (maxTokenAge : Option Int) (strict : Bool)
    (allowedSigningAlgs : Option (List String)) (tokenSigningAlg : Option String) :
    Validators.get (defaultValidators issuer audience clockTolerance maxTokenAge strict
      allowedSigningAlgs tokenSigningAlg) "iat" =
    Validator.fn (fun clock iat _ _ =>
      Completion.value (iatCheck (nowSeconds clock) clockTolerance maxTokenAge strict iat)) := by
  simp [Validators.get, defaultValidators, get?_cons]

theorem checkEntry_value_ok (clock : Nat) (payload header : Obj) (key : String)
    (g : Nat → JsVal → Bool) :
    (checkEntry clock payload header key
      (Validator.fn (fun c v _ _ => Completion.value (g c v)))).result = Except.ok () ↔
    g clock (claimValue payload header key) = true := by
  simp only [checkEntry]
  cases g clock (claimValue payload header key) <;> simp

/-- C4 (as stated) fails: at the clock 1700000001000 ms (`now = 1700000001`) with a clock
tolerance of `2 ^ 54`, the default `exp` validator accepts `exp = -18014396809481984`
although that is below `now − clockTolerance = -18014396809481983`: the difference has
no double of its own and is rounded to the even neighbour, the `exp` value itself. -/
theorem exp_below_difference_accepted :
    (checkEntry 1700000001000 [("exp", JsVal.num (-18014396809481984))] [] "exp"
      (Validators.get (defaultValidators JsVal.undefined (Audience.one "api")
        18014398509481984 none false none none) "exp")).result = Except.ok () ∧
    nowSeconds 1700000001000 = 1700000001 ∧
    nowSeconds 1700000001000 - 18014398509481984 = -18014396809481983 ∧
    ¬ ((-18014396809481984 : Int) ≥ nowSeconds 1700000001000 - 18014398509481984) := by
  decide

/-- C4 (amended). With `now` the clock in whole seconds and whole-number values, the
default `exp` validator accepts a token iff its `exp` is a number that is at least the
double nearest to `now − clockTolerance`; that double is `now − clockTolerance` itself
whenever the difference is at most `2 ^ 53` in magnitude, so in that range the
validator accepts iff `exp` is a number with `exp ≥ now − clockTolerance`. In
particular `exp = now + 3600` is accepted for every non-negative clock tolerance. -/
theorem exp_validator_accepts_iff (issuer : JsVal) (audience : Audience)
    (clockTolerance : Int) (maxTokenAge : Option Int) (strict : Bool)
    (allowedSigningAlgs : Option (List String)) (tokenSigningAlg : Option String)
    (clock : Nat) (payload header : Obj) :
    (clock ≤ maxTimeValue →
      1000 * nowSeconds clock ≤ (clock : Int) ∧
        (clock : Int) < 1000 * (nowSeconds clock + 1)) ∧
    ((checkEntry clock payload header "exp"
      (Validators.get (defaultValidators issuer audience clockTolerance maxTokenAge strict
        allowedSigningAlgs tokenSigningAlg) "exp")).result = Except.ok () ↔
      ∃ e, Obj.get payload "exp" = JsVal.num e ∧
        e ≥ roundDouble (nowSeconds clock - clockTolerance)) ∧
    (-9007199254740992 ≤ nowSeconds clock - clockTolerance →
      nowSeconds clock - clockTolerance ≤ 9007199254740992 →
      ((checkEntry clock payload header "exp"
        (Validators.get (defaultValidators issuer audience clockTolerance maxTokenAge strict
          allowedSigningAlgs tokenSigningAlg) "exp")).result = Except.ok () ↔
        ∃ e, Obj.get payload "exp" = JsVal.num e ∧
          e ≥ nowSeconds clock - clockTolerance)) ∧
    (0 ≤ clockTolerance → Obj.get payload "exp" = JsVal.num (nowSeconds clock + 3600) →
      (checkEntry clock payload header "exp"
        (Validators.get (defaultValidators issuer audience clockTolerance maxTokenAge strict
          allowedSigningAlgs tokenSigningAlg) "exp")).result = Except.ok ()) := by
  have hval : claimValue payload header "exp" = Obj.get payload "exp" := by
    simp [claimValue]
  have h1 : (checkEntry clock payload header "exp"
      (Validators.get (defaultValidators issuer audience clockTolerance maxTokenAge strict
        allowedSigningAlgs tokenSigningAlg) "exp")).result = Except.ok () ↔
      ∃ e, Obj.get payload "exp" = JsVal.num e ∧
        e ≥ roundDouble (nowSeconds clock - clockTolerance) := by
    rw [get_default_exp,
      checkEntry_value_ok clock payload header "exp"
        (fun c v => expCheck (nowSeconds c) clockTolerance v), hval, expCheck_iff]
  have hn := nowSeconds_nonneg clock
  have hle := nowSeconds_le clock
  refine ⟨nowSeconds_spec clock, h1, ?_, ?_⟩
  · intro hlo hhi
    rw [h1, roundDouble_of_abs_le _ hlo hhi]
  · intro htol hexp
    rw [h1]
    refine ⟨_, hexp, ?_⟩
    by_cases hlo : -9007199254740992 < nowSeconds clock - clockTolerance
    · rw [roundDouble_of_abs_lt _ hlo (by omega)]
      omega
    · have := roundDouble_le (nowSeconds clock - clockTolerance) (by omega)
      omega

/-- C4 (amended) at the clock 1700000000000 ms with the default tolerance of 5 seconds: a
token with `exp = now + 3600` is accepted. -/
theorem exp_validator_accepts_iff_witness :
    (checkEntry 1700000000000 [("exp", JsVal.num (nowSeconds 1700000000000 + 3600))] [] "exp"
      (Validators.get (defaultValidators JsVal.undefined (Audience.one "api") 5 none false
        none none) "exp")).result = Except.ok () :=
  (exp_validator_accepts_iff JsVal.undefined (Audience.one "api") 5 none false none none
    1700000000000 [("exp", JsVal.num (nowSeconds 1700000000000 + 3600))] []).2.2.2
    (by decide) rfl

/-- C5 (as stated) fails: with the default clock tolerance of 5 seconds a token whose
`exp` is `now − 1` passes the default `exp` validator. -/
theorem exp_now_minus_one_accepted_by_default :
    (checkEntry 1700000000000 [("exp", JsVal.num (nowSeconds 1700000000000 - 1))] [] "exp"
      (Validators.get (defaultValidators JsVal.undefined (Audience.one "api")
        defaultClockTolerance none false none none) "exp")).result = Except.ok () := by
  decide

/-- C5 (amended). A token whose `exp` equals `now − 1` fails the default `exp`
validator exactly when the clock tolerance is below one second; with a tolerance of
one second or more, such as the default of 5, it passes. -/
theorem exp_now_minus_one_rejected_iff (issuer : JsVal) (audience : Audience)
    (clockTolerance : Int) (maxTokenAge : Option Int) (strict : Bool)
    (allowedSigningAlgs : Option (List String)) (tokenSigningAlg : Option String)
    (clock : Nat) (payload header : Obj)
    (hexp : Obj.get payload "exp" = JsVal.num (nowSeconds clock - 1)) :
    (checkEntry clock payload header "exp"
      (Validators.get (defaultValidators issuer audience clockTolerance maxTokenAge strict
        allowedSigningAlgs tokenSigningAlg) "exp")).result =
      Except.error (unexpectedValue "exp") ↔ clockTolerance < 1 := by
  have hval : claimValue payload header "exp" = Obj.get payload "exp" := by
    simp [claimValue]
  have hn := nowSeconds_nonneg clock
  have hle := nowSeconds_le clock
  rw [get_default_exp]
  simp only [checkEntry, hval, hexp, expCheck]
  by_cases h : clockTolerance < 1
  · have : ¬ (nowSeconds clock - 1 ≥ roundDouble (nowSeconds clock - clockTolerance)) := by
      by_cases hhi : nowSeconds clock - clockTolerance < 9007199254740992
      · rw [roundDouble_of_abs_lt _ (by omega) hhi]
        omega
      · have := roundDouble_ge (nowSeconds clock - clockTolerance) (by omega)
        omega
    simp [this, h]
  · have : nowSeconds clock - 1 ≥ roundDouble (nowSeconds clock - clockTolerance) := by
      by_cases hlo : -9007199254740992 < nowSeconds clock - clockTolerance
      · rw [roundDouble_of_abs_lt _ hlo (by omega)]
        omega
      · have := roundDouble_le (nowSeconds clock - clockTolerance) (by omega)
        omega
    simp [this, h]

/-- C5 (amended) at the clock 1700000000000 ms with a clock tolerance of 0. -/
theorem exp_now_minus_one_rejected_iff_witness :
    (checkEntry 1700000000000 [("exp", JsVal.num (nowSeconds 1700000000000 - 1))] [] "exp"
      (Validators.get (defaultValidators JsVal.undefined (Audience.one "api") 0 none false
        none none) "exp")).result = Except.error (unexpectedValue "exp") :=
  (exp_now_minus_one_rejected_iff JsVal.undefined (Audience.one "api") 0 none false none
    none 1700000000000 [("exp", JsVal.num (nowSeconds 1700000000000 - 1))] [] rfl).mpr
    (by decide)

/-- C6 (as stated) fails: with `maxTokenAge = 3600` and a clock tolerance of 5 the
end point `iat = now + 5` of the closed interval is rejected by the default `iat`
validator, and so is the end point `iat = now − 5 − 3600`. -/
theorem iat_end_points_rejected :
    (checkEntry 1700000000000 [("iat", JsVal.num (nowSeconds 1700000000000 + 5))] [] "iat"
      (Validators.get (defaultValidators JsVal.undefined (Audience.one "api") 5 (some 3600)
        false none none) "iat")).result = Except.error (unexpectedValue "iat") ∧
    (checkEntry 1700000000000 [("iat", JsVal.num (nowSeconds 1700000000000 - 5 - 3600))] []
      "iat"
      (Validators.get (defaultValidators JsVal.undefined (Audience.one "api") 5 (some 3600)
        false none none) "iat")).result = Except.error (unexpectedValue "iat") ∧
    nowSeconds 1700000000000 - 5 - 3600 ≤ nowSeconds 1700000000000 + 5 := by
  decide

/-- C6 (amended). When `maxTokenAge` is configured with a non-zero value, the default
`iat` validator accepts a token iff its `iat` is a number lying strictly between
`now − clockTolerance − maxTokenAge` and `now + clockTolerance`: both end points are
excluded. -/
theorem iat_validator_accepts_iff (issuer : JsVal) (audience : Audience)
    (clockTolerance age : Int) (strict : Bool)
    (allowedSigningAlgs : Option (List String)) (tokenSigningAlg : Option String)
    (clock : Nat) (payload header : Obj) (hage : age ≠ 0) :
    (checkEntry clock payload header "iat"
      (Validators.get (defaultValidators issuer audience clockTolerance (some age) strict
        allowedSigningAlgs tokenSigningAlg) "iat")).result = Except.ok () ↔
    ∃ i, Obj.get payload "iat" = JsVal.num i ∧
      nowSeconds clock - clockTolerance - age < i ∧ i < nowSeconds clock + clockTolerance := by
  have hval : claimValue payload header "iat" = Obj.get payload "iat" := by
    simp [claimValue]
  rw [get_default_iat,
    checkEntry_value_ok clock payload header "iat"
      (fun c v => iatCheck (nowSeconds c) clockTolerance (some age) strict v), hval]
  cases h : Obj.get payload "iat" <;> simp [iatCheck, hage]
  exact And.comm

/-- C6 (amended) at the clock 1700000000000 ms, tolerance 5 and `maxTokenAge = 3600`:
a token issued 10 seconds ago is accepted. -/
theorem iat_validator_accepts_iff_witness :
    (checkEntry 1700000000000 [("iat", JsVal.num (nowSeconds 1700000000000 - 10))] [] "iat"
      (Validators.get (defaultValidators JsVal.undefined (Audience.one "api") 5 (some 3600)
        false none none) "iat")).result = Except.ok () :=
  (iat_validator_accepts_iff JsVal.undefined (Audience.one "api") 5 3600 false none none
    1700000000000 [("iat", JsVal.num (nowSeconds 1700000000000 - 10))] [] (by decide)).mpr
    ⟨nowSeconds 1700000000000 - 10, rfl, by decide, by decide⟩

/-! ## Theorems: which failure `validate` reports -/

theorem firstRejection_spec (ps : List Settled) (t : Nat) (m : String)
    (h : firstRejection ps = some (t, m)) :
    ∃ (i : Nat) (s : Settled), ps[i]? = some s ∧ s.result = Except.error m ∧ s.time = t ∧
      ∀ (j : Nat) (s' : Settled), ps[j]? = some s' → s'.result ≠ Except.ok () →
        t < s'.time ∨ (t = s'.time ∧ i ≤ j) := by
  induction ps generalizing t m with
  | nil => simp [firstRejection] at h
  | cons s rest ih =>
    unfold firstRejection at h
    rcases hs : s.result with m0 | u
    · rw [hs] at h
      cases hr : firstRejection rest with
      | none =>
        rw [hr] at h
        simp only [Option.some.injEq, Prod.mk.injEq] at h
        obtain ⟨rfl, rfl⟩ := h
        refine ⟨0, s, List.getElem?_cons_zero, hs, rfl, ?_⟩
        intro j s' hj hfail
        cases j with
        | zero =>
          simp only [List.getElem?_cons_zero, Option.some.injEq] at hj
          subst hj
          exact Or.inr ⟨rfl, le_refl _⟩
        | succ j =>
          exfalso
          simp only [List.getElem?_cons_succ] at hj
          exact hfail ((firstRejection_eq_none rest).mp hr s' (List.getElem?_mem hj))
      | some q =>
        obtain ⟨t', m'⟩ := q
        rw [hr] at h
        simp only at h
        obtain ⟨i', s1, hi', hres, htime, hmin⟩ := ih t' m' hr
        by_cases hle : s.time ≤ t'
        · rw [if_pos hle] at h
          simp only [Option.some.injEq, Prod.mk.injEq] at h
          obtain ⟨rfl, rfl⟩ := h
          refine ⟨0, s, List.getElem?_cons_zero, hs, rfl, ?_⟩
          intro j s' hj hfail
          cases j with
          | zero =>
            simp only [List.getElem?_cons_zero, Option.some.injEq] at hj
            subst hj
            exact Or.inr ⟨rfl, le_refl _⟩
          | succ j =>
            simp only [List.getElem?_cons_succ] at hj
            rcases hmin j s' hj hfail with h1 | ⟨h1, _⟩
            · exact Or.inl (lt_of_le_of_lt hle h1)
            · rcases Nat.lt_or_ge s.time s'.time with h2 | h2
              · exact Or.inl h2
              · exact Or.inr ⟨by omega, Nat.zero_le _⟩
        · rw [if_neg hle] at h
          simp only [Option.some.injEq, Prod.mk.injEq] at h
          obtain ⟨rfl, rfl⟩ := h
          refine ⟨i' + 1, s1, by rw [List.getElem?_cons_succ]; exact hi', hres, htime, ?_⟩
          intro j s' hj hfail
          cases j with
          | zero =>
            simp only [List.getElem?_cons_zero, Option.some.injEq] at hj
            subst hj
            exact Or.inl (by omega)
          | succ j =>
            simp only [List.getElem?_cons_succ] at hj
            rcases hmin j s' hj hfail with h1 | ⟨h1, h2⟩
            · exact Or.inl h1
            · exact Or.inr ⟨h1, by omega⟩
    · rw [hs] at h
      simp only at h
      obtain ⟨i', s1, hi', hres, htime, hmin⟩ := ih t m h
      refine ⟨i' + 1, s1, by rw [List.getElem?_cons_succ]; exact hi', hres, htime, ?_⟩
      intro j s' hj hfail
      cases j with
      | zero =>
        simp only [List.getElem?_cons_zero, Option.some.injEq] at hj
        subst hj
        exact absurd hs hfail
      | succ j =>
        simp only [List.getElem?_cons_succ] at hj
        rcases hmin j s' hj hfail with h1 | ⟨h1, h2⟩
        · exact Or.inl h1
        · exact Or.inr ⟨h1, by omega⟩

theorem validate_error_iff (clock : Nat) (payload header : Obj) (vs : Validators)
    (msg : String) :
    validate clock payload header vs = Except.error msg ↔
      ∃ (i : Nat) (e : String × Validator), vs[i]? = some e ∧
        (checkEntry clock payload header e.1 e.2).result = Except.error msg ∧
        ∀ (j : Nat) (e' : String × Validator), vs[j]? = some e' →
          (checkEntry clock payload header e'.1 e'.2).result ≠ Except.ok () →
          (checkEntry clock payload header e.1 e.2).time <
              (checkEntry clock payload header e'.1 e'.2).time ∨
            ((checkEntry clock payload header e.1 e.2).time =
              (checkEntry clock payload header e'.1 e'.2).time ∧ i ≤ j) := by
  have hmap : ∀ (j : Nat) (s : Settled),
      (vs.map (fun e => checkEntry clock payload header e.1 e.2))[j]? = some s ↔
      ∃ e, vs[j]? = some e ∧ s = checkEntry clock payload header e.1 e.2 := by
    intro j s
    rw [List.getElem?_map]
    cases vs[j]? with
    | none => simp
    | some e => simp [eq_comm]
  constructor
  · intro h
    unfold validate promiseAll at h
    cases hr : firstRejection (vs.map (fun e => checkEntry clock payload header e.1 e.2)) with
    | none => rw [hr] at h; exact absurd h (by simp)
    | some q =>
      obtain ⟨t, m⟩ := q
      rw [hr] at h
      simp only [Except.error.injEq] at h
      subst h
      obtain ⟨i, s, hi, hres, htime, hmin⟩ := firstRejection_spec _ t m hr
      obtain ⟨e, hie, rfl⟩ := (hmap i s).mp hi
      refine ⟨i, e, hie, hres, ?_⟩
      intro j e' hj hfail
      have := hmin j _ ((hmap j _).mpr ⟨e', hj, rfl⟩) hfail
      rw [htime]
      exact this
  · rintro ⟨i, e, hie, hres, hmin⟩
    unfold validate promiseAll
    cases hr : firstRejection (vs.map (fun e => checkEntry clock payload header e.1 e.2)) with
    | none =>
      exfalso
      have := (firstRejection_eq_none _).mp hr _
        (List.getElem?_mem ((hmap i _).mpr ⟨e, hie, rfl⟩))
      rw [hres] at this
      exact absurd this (by simp)
    | some q =>
      obtain ⟨t, m⟩ := q
      obtain ⟨i', s, hi', hres', htime', hmin'⟩ := firstRejection_spec _ t m hr
      obtain ⟨e1, hie1, rfl⟩ := (hmap i' s).mp hi'
      have hfail : (checkEntry clock payload header e.1 e.2).result ≠ Except.ok () := by
        rw [hres]; simp
      have hfail1 : (checkEntry clock payload header e1.1 e1.2).result ≠ Except.ok () := by
        rw [hres']; simp
      have h1 := hmin i' e1 hie1 hfail1
      have h2 := hmin' i _ ((hmap i _).mpr ⟨e, hie, rfl⟩) hfail
      rw [← htime'] at h2
      have hii : i = i' := by omega
      subst hii
      rw [hie] at hie1
      simp only [Option.some.injEq] at hie1
      subst hie1
      rw [hres] at hres'
      simp only [Except.error.injEq] at hres'
      simp [hres']

theorem checkEntry_error_cases (clock : Nat) (payload header : Obj) (key : String)
    (v : Validator) (msg : String)
    (h : (checkEntry clock payload header key v).result = Except.error msg) :
    msg = unexpectedValue key ∨
      ∃ f, v = Validator.fn f ∧
        (f clock (claimValue payload header key) payload header = Completion.throws msg ∨
          ∃ d, f clock (claimValue payload header key) payload header =
            Completion.promise d (Except.error msg)) := by
  cases v with
  | skip => simp [checkEntry] at h
  | undef =>
    simp only [checkEntry, Except.error.injEq] at h
    exact Or.inl h.symm
  | str s =>
    simp only [checkEntry] at h
    split at h
    · simp at h
    · simp only [Except.error.injEq] at h
      exact Or.inl h.symm
  | fn f =>
    simp only [checkEntry] at h
    cases hf : f clock (claimValue payload header key) payload header with
    | value b =>
      rw [hf] at h
      cases b
      · simp only [Bool.false_eq_true, if_false, Except.error.injEq] at h
        exact Or.inl h.symm
      · simp at h
    | throws m =>
      rw [hf] at h
      simp only [Except.error.injEq] at h
      subst h
      exact Or.inr ⟨f, rfl, Or.inl hf⟩
    | promise d r =>
      rw [hf] at h
      cases r with
      | error m =>
        simp only [Except.error.injEq] at h
        subst h
        exact Or.inr ⟨f, rfl, Or.inr ⟨d, hf⟩⟩
      | ok b =>
        cases b
        · simp only [Bool.false_eq_true, if_false, Except.error.injEq] at h
          exact Or.inl h.symm
        · simp at h

/-- C7 (as stated) fails: a predicate entry that throws makes `validate` fail with
what the predicate threw, which names no claim. -/
theorem validate_reports_thrown_error :
    validate 0 [] [] [("sub", Validator.fn (fun _ _ _ _ => Completion.throws "boom"))] =
      Except.error "boom" ∧
    ∀ key, "boom" ≠ unexpectedValue key := by
  refine ⟨by decide, ?_⟩
  intro key h
  have := congrArg String.data h
  simp [unexpectedValue] at this

/-- C7 (amended). `validate` checks the entry for key `k` against `header[k]` when `k`
is `alg` or `typ` and against `payload[k]` otherwise; a `false` entry passes for every
value, a string entry passes iff the claim value is that string, a function entry
passes iff it returns true (directly or through its promise); `validate` succeeds iff
every entry passes. Otherwise it fails with the error of a failing entry, which is
"Unexpected '<key>' value" for that entry unless the entry is a predicate that threw
(or whose promise rejected), in which case it is the predicate's own error. -/
theorem validate_succeeds_iff_all_pass (clock : Nat) (payload header : Obj)
    (vs : Validators) :
    (∀ key, claimValue payload header key =
      if key = "alg" ∨ key = "typ" then Obj.get header key else Obj.get payload key) ∧
    (∀ key, (checkEntry clock payload header key Validator.skip).result = Except.ok ()) ∧
    (∀ key s, (checkEntry clock payload header key (Validator.str s)).result = Except.ok () ↔
      claimValue payload header key = JsVal.str s) ∧
    (∀ key f, (checkEntry clock payload header key (Validator.fn f)).result = Except.ok () ↔
      (f clock (claimValue payload header key) payload header = Completion.value true ∨
        ∃ d, f clock (claimValue payload header key) payload header =
          Completion.promise d (Except.ok true))) ∧
    (validate clock payload header vs = Except.ok () ↔
      ∀ e ∈ vs, (checkEntry clock payload header e.1 e.2).result = Except.ok ()) ∧
    (∀ msg, validate clock payload header vs = Except.error msg →
      ∃ e ∈ vs, (checkEntry clock payload header e.1 e.2).result = Except.error msg ∧
        (msg = unexpectedValue e.1 ∨
          ∃ f, e.2 = Validator.fn f ∧
            (f clock (claimValue payload header e.1) payload header = Completion.throws msg ∨
              ∃ d, f clock (claimValue payload header e.1) payload header =
                Completion.promise d (Except.error msg)))) := by
  refine ⟨?_, ?_, ?_, ?_, validate_ok_iff clock payload header vs, ?_⟩
  · intro key
    unfold claimValue
    by_cases h1 : key = "alg"
    · simp [h1]
    · by_cases h2 : key = "typ"
      · simp [h2]
      · simp [h1, h2]
  · intro key
    rfl
  · intro key s
    simp only [checkEntry]
    rw [← isStr_eq_true]
    cases (claimValue payload header key).isStr s <;> simp
  · intro key f
    simp only [checkEntry]
    cases hf : f clock (claimValue payload header key) payload header with
    | value b => cases b <;> simp
    | throws m => simp
    | promise d r =>
      cases r with
      | error m => simp
      | ok b => cases b <;> simp
  · intro msg h
    obtain ⟨i, e, hie, hres, _⟩ := (validate_error_iff clock payload header vs msg).mp h
    exact ⟨e, List.getElem?_mem hie, hres,
      checkEntry_error_cases clock payload header e.1 e.2 msg hres⟩

/-- C7 (amended) at a validator set that pins `iss` to a string and skips `sub`: a
token with another issuer fails with the error naming `iss`. -/
theorem validate_succeeds_iff_all_pass_witness :
    ∃ e ∈ [("iss", Validator.str "https://i/"), ("sub", Validator.skip)],
      (checkEntry 0 [("iss", JsVal.str "https://evil/")] [] e.1 e.2).result =
        Except.error "Unexpected 'iss' value" ∧
      ("Unexpected 'iss' value" = unexpectedValue e.1 ∨
        ∃ f, e.2 = Validator.fn f ∧
          (f 0 (claimValue [("iss", JsVal.str "https://evil/")] [] e.1)
              [("iss", JsVal.str "https://evil/")] [] =
              Completion.throws "Unexpected 'iss' value" ∨
            ∃ d, f 0 (claimValue [("iss", JsVal.str "https://evil/")] [] e.1)
              [("iss", JsVal.str "https://evil/")] [] =
              Completion.promise d (Except.error "Unexpected 'iss' value"))) :=
  (validate_succeeds_iff_all_pass 0 [("iss", JsVal.str "https://evil/")] []
    [("iss", Validator.str "https://i/"), ("sub", Validator.skip)]).2.2.2.2.2
    "Unexpected 'iss' value" (by decide)

theorem keys_replaceEntry {α : Type} (key : String) (v : α) (o : List (String × α)) :
    (replaceEntry key v o).map Prod.fst = o.map Prod.fst := by
  induction o with
  | nil => rfl
  | cons e rest ih =>
    unfold replaceEntry
    by_cases he : e.1 = key
    · have hb : (e.1 == key) = true := by simpa using he
      rw [if_pos hb, List.map_cons, List.map_cons, he]
    · have hb : ¬ (e.1 == key) = true := by simpa using he
      rw [if_neg hb, List.map_cons, List.map_cons, ih]

theorem any_key_iff {α : Type} (key : String) (o : List (String × α)) :
    o.any (fun e => e.1 == key) = true ↔ key ∈ o.map Prod.fst := by
  simp only [List.any_eq_true, beq_iff_eq, List.mem_map]

theorem keys_insertIndexed {α : Type} (n : Nat) (key : String) (v : α)
    (hkey : arrayIndex key = some n) :
    ∀ (idx : List String) (o : List (String × α)) (d : String) (r : List String),
      o.map Prod.fst = idx ++ d :: r →
      (∀ k ∈ idx, (arrayIndex k).isSome = true) → arrayIndex d = none →
      idx.Pairwise (fun a b => (arrayIndex a).getD 0 ≤ (arrayIndex b).getD 0) →
      ∃ idx' : List String,
        (insertIndexed n key v o).map Prod.fst = idx' ++ d :: r ∧
        idx'.Perm (key :: idx) ∧
        idx'.Pairwise (fun a b => (arrayIndex a).getD 0 ≤ (arrayIndex b).getD 0) := by
  intro idx
  induction idx with
  | nil =>
    intro o d r hK _ hd _
    cases o with
    | nil => simp at hK
    | cons e rest =>
      simp only [List.map_cons, List.nil_append, List.cons.injEq] at hK
      refine ⟨[key], ?_, List.Perm.refl _, List.pairwise_singleton _ _⟩
      unfold insertIndexed
      rw [hK.1, hd]
      simp [hK.1, hK.2]
  | cons i idx2 ih =>
    intro o d r hK hall hd hsorted
    cases o with
    | nil => simp at hK
    | cons e rest =>
      simp only [List.map_cons, List.cons_append, List.cons.injEq] at hK
      have hi : (arrayIndex i).isSome = true := hall i (List.mem_cons_self _ _)
      obtain ⟨m, hm⟩ := Option.isSome_iff_exists.mp hi
      rw [List.pairwise_cons] at hsorted
      unfold insertIndexed
      rw [hK.1, hm]
      simp only
      by_cases hlt : m < n
      · rw [if_pos hlt]
        obtain ⟨idx3, h3, hperm, hs3⟩ := ih rest d r hK.2
          (fun k hk => hall k (List.mem_cons_of_mem _ hk)) hd hsorted.2
        refine ⟨i :: idx3, ?_, ?_, ?_⟩
        · simp [hK.1, h3]
        · exact (List.Perm.cons i hperm).trans (List.Perm.swap key i idx2)
        · rw [List.pairwise_cons]
          refine ⟨?_, hs3⟩
          intro x hx
          have hx2 : x ∈ key :: idx2 := hperm.subset hx
          rcases List.mem_cons.mp hx2 with rfl | hx3
          · rw [hm, hkey]; simp only [Option.getD_some]; omega
          · exact hsorted.1 x hx3
      · rw [if_neg hlt]
        refine ⟨key :: i :: idx2, ?_, List.Perm.refl _, ?_⟩
        · simp [hK.1, hK.2]
        · rw [List.pairwise_cons]
          refine ⟨?_, List.pairwise_cons.mpr hsorted⟩
          intro x hx
          rcases List.mem_cons.mp hx with rfl | hx3
          · rw [hm, hkey]; simp only [Option.getD_some]; omega
          · have := hsorted.1 x hx3
            rw [hm] at this
            rw [hkey]
            simp only [Option.getD_some] at this ⊢
            omega

theorem spread_append_singleton {α : Type} (base l : List (String × α)) (a : String × α) :
    spread base (l ++ [a]) = setEntry a.1 a.2 (spread base l) := by
  simp [spread, List.foldl_append]

/-- The enumeration order of `{ ...base, ...extra }` when no key of `base` is an array
index: the array-index keys of `extra` in ascending order, the keys of `base`, then
the remaining new keys of `extra` in their order. -/
theorem keys_spread {α : Type} (base extra : List (String × α)) (d : String)
    (r : List String) (hbase : base.map Prod.fst = d :: r)
    (hD : ∀ k ∈ d :: r, arrayIndex k = none)
    (hnodup : (extra.map Prod.fst).Nodup) :
    ∃ idx others : List String,
      (spread base extra).map Prod.fst = idx ++ (d :: r) ++ others ∧
      idx.Perm ((extra.map Prod.fst).filter (fun k => (arrayIndex k).isSome)) ∧
      idx.Pairwise (fun a b => (arrayIndex a).getD 0 ≤ (arrayIndex b).getD 0) ∧
      others = (extra.map Prod.fst).filter
        (fun k => (arrayIndex k).isNone && !(d :: r).contains k) := by
  induction extra using List.reverseRecOn with
  | nil => exact ⟨[], [], by simpa [spread] using hbase, List.Perm.refl _, List.Pairwise.nil, rfl⟩
  | append_singleton l a ih =>
    rw [List.map_append, List.nodup_append] at hnodup
    obtain ⟨hl, _, hdisj⟩ := hnodup
    have hal : a.1 ∉ l.map Prod.fst := fun h => hdisj h (by simp)
    obtain ⟨idx, others, hK, hperm, hsorted, hothers⟩ := ih hl
    rw [spread_append_singleton]
    have hidx_sub : ∀ k ∈ idx, k ∈ l.map Prod.fst ∧ (arrayIndex k).isSome = true := by
      intro k hk
      have := hperm.subset hk
      rw [List.mem_filter] at this
      exact this
    have hoth_sub : ∀ k ∈ others, k ∈ l.map Prod.fst := by
      intro k hk
      rw [hothers, List.mem_filter] at hk
      exact hk.1
    by_cases hmem : a.1 ∈ d :: r
    · -- an override of a key of `base`
      have hany : (spread base l).any (fun e => e.1 == a.1) = true := by
        rw [any_key_iff, hK]
        simp only [List.mem_append]
        exact Or.inl (Or.inr hmem)
      have hnone : arrayIndex a.1 = none := hD _ hmem
      refine ⟨idx, others, ?_, ?_, hsorted, ?_⟩
      · unfold setEntry
        rw [if_pos hany, keys_replaceEntry, hK]
      · simpa [List.filter_append, hnone] using hperm
      · have hc : (d :: r).contains a.1 = true := by simpa using hmem
        have hf : List.filter (fun k => (arrayIndex k).isNone && !(d :: r).contains k)
            [a.1] = [] := by
          simp only [List.filter_cons, List.filter_nil, hnone, hc, Option.isNone_none,
            Bool.not_true, Bool.and_false, Bool.false_eq_true, if_false]
        simp only [List.map_append, List.map_cons, List.map_nil, List.filter_append]
        rw [← hothers, hf, List.append_nil]
    · have hnot : a.1 ∉ (spread base l).map Prod.fst := by
        rw [hK]
        simp only [List.mem_append, not_or]
        exact ⟨⟨fun h => hal (hidx_sub _ h).1, hmem⟩, fun h => hal (hoth_sub _ h)⟩
      have hany : ¬ (spread base l).any (fun e => e.1 == a.1) = true := by
        rw [any_key_iff]; exact hnot
      have hc : (d :: r).contains a.1 = false := by simpa using hmem
      unfold setEntry
      rw [if_neg hany]
      cases hidx : arrayIndex a.1 with
      | some n =>
        simp only
        have hK2 : (spread base l).map Prod.fst = idx ++ d :: (r ++ others) := by
          rw [hK]; simp
        obtain ⟨idx2, h2, hperm2, hs2⟩ := keys_insertIndexed n a.1 a.2 hidx idx
          (spread base l) d (r ++ others) hK2 (fun k hk => (hidx_sub k hk).2)
          (hD d (List.mem_cons_self _ _)) hsorted
        refine ⟨idx2, others, ?_, ?_, hs2, ?_⟩
        · rw [h2]; simp
        · refine hperm2.trans ?_
          simp only [List.map_append, List.map_cons, List.map_nil, List.filter_append]
          have : List.filter (fun k => (arrayIndex k).isSome) [a.1] = [a.1] := by
            simp [List.filter, hidx]
          rw [this]
          exact (List.Perm.cons a.1 hperm).trans (List.perm_append_singleton a.1 _).symm
        · have hf : List.filter (fun k => (arrayIndex k).isNone && !(d :: r).contains k)
              [a.1] = [] := by
            simp only [List.filter_cons, List.filter_nil, hidx, Option.isNone_some,
              Bool.false_and, Bool.false_eq_true, if_false]
          simp only [List.map_append, List.map_cons, List.map_nil, List.filter_append]
          rw [← hothers, hf, List.append_nil]
      | none =>
        simp only
        refine ⟨idx, others ++ [a.1], ?_, ?_, hsorted, ?_⟩
        · rw [List.map_append, hK]; simp
        · simpa [List.filter_append, hidx] using hperm
        · have hf : List.filter (fun k => (arrayIndex k).isNone && !(d :: r).contains k)
              [a.1] = [a.1] := by
            simp only [List.filter_cons, List.filter_nil, hidx, hc, Option.isNone_none,
              Bool.not_false, Bool.and_true, if_true]
          simp only [List.map_append, List.map_cons, List.map_nil, List.filter_append]
          rw [← hothers, hf]

/-- C8 (as stated) fails, in two ways. With the defaults and the override
`iss: "https://i/"`, a token with header `alg: none` and another issuer fails both the
`alg` entry (first in the declared order) and the `iss` entry (third), and `validate`
reports `iss`: the string entry rejects before the awaited predicate of `alg` resumes.
With the defaults and the custom key `1` whose predicate returns `false`, the same
token fails `alg` and `1` in the same turn, and `validate` reports `1`: a key that is
an array index is enumerated ahead of the nine defaults, not after them. -/
theorem validate_reports_later_entry :
    (spread (defaultValidators (JsVal.str "https://i/") (Audience.one "api") 5 none false
        none none) [("iss", Validator.str "https://i/")]).map Prod.fst =
      ["alg", "typ", "iss", "aud", "exp", "iat", "sub", "client_id", "jti"] ∧
    (checkEntry 1700000000000
      [("iss", JsVal.str "https://evil/"), ("aud", JsVal.str "api"),
        ("exp", JsVal.num 1700003600)]
      [("alg", JsVal.str "none")] "alg"
      (Validators.get (spread (defaultValidators (JsVal.str "https://i/") (Audience.one "api")
        5 none false none none) [("iss", Validator.str "https://i/")]) "alg")).result =
      Except.error (unexpectedValue "alg") ∧
    validate 1700000000000
      [("iss", JsVal.str "https://evil/"), ("aud", JsVal.str "api"),
        ("exp", JsVal.num 1700003600)]
      [("alg", JsVal.str "none")]
      (spread (defaultValidators (JsVal.str "https://i/") (Audience.one "api") 5 none false
        none none) [("iss", Validator.str "https://i/")]) =
      Except.error (unexpectedValue "iss") ∧
    (checkEntry 1700000000000
      [("iss", JsVal.str "https://i/"), ("aud", JsVal.str "api"),
        ("exp", JsVal.num 1700003600)]
      [("alg", JsVal.str "none")] "alg"
      (Validators.get (spread (defaultValidators (JsVal.str "https://i/") (Audience.one "api")
        5 none false none none)
        [("1", Validator.fn (fun _ _ _ _ => Completion.value false))]) "alg")).result =
      Except.error (unexpectedValue "alg") ∧
    (checkEntry 1700000000000
      [("iss", JsVal.str "https://i/"), ("aud", JsVal.str "api"),
        ("exp", JsVal.num 1700003600)]
      [("alg", JsVal.str "none")] "1"
      (Validators.get (spread (defaultValidators (JsVal.str "https://i/") (Audience.one "api")
        5 none false none none)
        [("1", Validator.fn (fun _ _ _ _ => Completion.value false))]) "1")).time =
      (checkEntry 1700000000000
        [("iss", JsVal.str "https://i/"), ("aud", JsVal.str "api"),
          ("exp", JsVal.num 1700003600)]
        [("alg", JsVal.str "none")] "alg"
        (Validators.get (spread (defaultValidators (JsVal.str "https://i/")
          (Audience.one "api") 5 none false none none)
          [("1", Validator.fn (fun _ _ _ _ => Completion.value false))]) "alg")).time ∧
    validate 1700000000000
      [("iss", JsVal.str "https://i/"), ("aud", JsVal.str "api"),
        ("exp", JsVal.num 1700003600)]
      [("alg", JsVal.str "none")]
      (spread (defaultValidators (JsVal.str "https://i/") (Audience.one "api") 5 none false
        none none) [("1", Validator.fn (fun _ _ _ _ => Completion.value false))]) =
      Except.error (unexpectedValue "1") := by
  decide

/-- C8 (amended). The error `validate` reports is that of the failing entry whose
promise settles first, the earlier entry in the enumeration order of the validator set
when several settle in the same turn. An entry that is `false`, an exact string or
`undefined`, and a predicate that throws, settle when the callback returns (turn 0); a
predicate that returns a boolean settles one turn later, and one that returns a promise
one turn after that promise settles. Hence when all failing entries settle in the same
turn, as they do when every entry is a predicate returning a boolean like the nine
defaults, the reported claim is the first failing entry in enumeration order. The
enumeration order of the set a verifier builds is: the custom keys that are array
indices (such as `1`) in ascending numeric order, then `alg`, `typ`, `iss`, `aud`,
`exp`, `iat`, `sub`, `client_id`, `jti`, then the other custom keys in their order. -/
theorem validate_reports_first_settled (clock : Nat) (payload header : Obj)
    (vs : Validators) (msg : String) :
    (validate clock payload header vs = Except.error msg ↔
      ∃ (i : Nat) (e : String × Validator), vs[i]? = some e ∧
        (checkEntry clock payload header e.1 e.2).result = Except.error msg ∧
        ∀ (j : Nat) (e' : String × Validator), vs[j]? = some e' →
          (checkEntry clock payload header e'.1 e'.2).result ≠ Except.ok () →
          (checkEntry clock payload header e.1 e.2).time <
              (checkEntry clock payload header e'.1 e'.2).time ∨
            ((checkEntry clock payload header e.1 e.2).time =
              (checkEntry clock payload header e'.1 e'.2).time ∧ i ≤ j)) ∧
    ((∀ e ∈ vs, ∀ e' ∈ vs,
        (checkEntry clock payload header e.1 e.2).result ≠ Except.ok () →
        (checkEntry clock payload header e'.1 e'.2).result ≠ Except.ok () →
        (checkEntry clock payload header e.1 e.2).time =
          (checkEntry clock payload header e'.1 e'.2).time) →
      (validate clock payload header vs = Except.error msg ↔
        ∃ (i : Nat) (e : String × Validator), vs[i]? = some e ∧
          (checkEntry clock payload header e.1 e.2).result = Except.error msg ∧
          ∀ (j : Nat) (e' : String × Validator), j < i → vs[j]? = some e' →
            (checkEntry clock payload header e'.1 e'.2).result = Except.ok ())) ∧
    (∀ key : String,
      checkEntry clock payload header key Validator.skip = ⟨0, Except.ok ()⟩) ∧
    (∀ key s : String,
      checkEntry clock payload header key (Validator.str s) =
        ⟨0, if (claimValue payload header key).isStr s then Except.ok ()
            else Except.error (unexpectedValue key)⟩) ∧
    (∀ key : String,
      checkEntry clock payload header key Validator.undef =
        ⟨0, Except.error (unexpectedValue key)⟩) ∧
    (∀ (key : String) (f : FunctionValidator) (m : String),
      f clock (claimValue payload header key) payload header = Completion.throws m →
      checkEntry clock payload header key (Validator.fn f) = ⟨0, Except.error m⟩) ∧
    (∀ (key : String) (f : FunctionValidator) (b : Bool),
      f clock (claimValue payload header key) payload header = Completion.value b →
      checkEntry clock payload header key (Validator.fn f) =
        ⟨1, if b then Except.ok () else Except.error (unexpectedValue key)⟩) ∧
    (∀ (key : String) (f : FunctionValidator) (d : Nat) (r : Except String Bool),
      f clock (claimValue payload header key) payload header = Completion.promise d r →
      (checkEntry clock payload header key (Validator.fn f)).time = d + 1) ∧
    (∀ (v : Verifier) (issuer : Option String) (algs : Option (List String)),
      (v.customValidators.map Prod.fst).Nodup →
      ∃ idx others : List String,
        (v.buildValidators issuer algs).map Prod.fst =
          idx ++ ["alg", "typ", "iss", "aud", "exp", "iat", "sub", "client_id", "jti"] ++
            others ∧
        idx.Perm ((v.customValidators.map Prod.fst).filter
          (fun k => (arrayIndex k).isSome)) ∧
        idx.Pairwise (fun a b => (arrayIndex a).getD 0 ≤ (arrayIndex b).getD 0) ∧
        others = (v.customValidators.map Prod.fst).filter
          (fun k => (arrayIndex k).isNone &&
            not (List.contains
              ["alg", "typ", "iss", "aud", "exp", "iat", "sub", "client_id", "jti"] k))) := by
  refine ⟨validate_error_iff clock payload header vs msg, ?_, ?_, ?_, ?_, ?_, ?_, ?_, ?_⟩
  · intro hsame
    rw [validate_error_iff]
    constructor
    · rintro ⟨i, e, hie, hres, hmin⟩
      refine ⟨i, e, hie, hres, ?_⟩
      intro j e' hji hj
      by_contra hfail
      have hfail' : (checkEntry clock payload header e'.1 e'.2).result ≠ Except.ok () := hfail
      rcases hmin j e' hj hfail' with h | ⟨_, h⟩
      · have hfe : (checkEntry clock payload header e.1 e.2).result ≠ Except.ok () := by
          rw [hres]; simp
        have := hsame e (List.getElem?_mem hie) e' (List.getElem?_mem hj) hfe hfail'
        omega
      · omega
    · rintro ⟨i, e, hie, hres, hbefore⟩
      refine ⟨i, e, hie, hres, ?_⟩
      intro j e' hj hfail
      have hfe : (checkEntry clock payload header e.1 e.2).result ≠ Except.ok () := by
        rw [hres]; simp
      refine Or.inr ⟨hsame e (List.getElem?_mem hie) e' (List.getElem?_mem hj) hfe hfail, ?_⟩
      by_contra hlt
      exact hfail (hbefore j e' (by omega) hj)
  · intro key
    rfl
  · intro key s
    simp only [checkEntry]
    split <;> rfl
  · intro key
    rfl
  · intro key f m hf
    simp only [checkEntry, hf]
  · intro key f b hf
    simp only [checkEntry, hf]
    cases b <;> rfl
  · intro key f d r hf
    simp only [checkEntry, hf]
    rcases r with m | b
    · rfl
    · cases b <;> rfl
  · intro v issuer algs hnodup
    exact keys_spread
      (defaultValidators (optStr issuer) v.audience v.clockTolerance v.maxTokenAge v.strict
        algs v.tokenSigningAlg)
      v.customValidators "alg" ["typ", "iss", "aud", "exp", "iat", "sub", "client_id", "jti"]
      rfl (by decide) hnodup

/-- C8 (amended) at a verifier whose overrides add the key `1` with a predicate that
returns `false`: the key is enumerated ahead of the nine defaults, every entry settles
in the same turn, and a token with header `alg: none` fails with the error naming `1`,
the first failing entry in enumeration order. -/
theorem validate_reports_first_settled_witness :
    (spread (defaultValidators (JsVal.str "https://i/") (Audience.one "api") 5 none false
        none none) [("1", Validator.fn (fun _ _ _ _ => Completion.value false))]).map
      Prod.fst =
      ["1", "alg", "typ", "iss", "aud", "exp", "iat", "sub", "client_id", "jti"] ∧
    validate 1700000000000
      [("iss", JsVal.str "https://evil/"), ("aud", JsVal.str "api"),
        ("exp", JsVal.num 1700003600)]
      [("alg", JsVal.str "none")]
      (spread (defaultValidators (JsVal.str "https://i/") (Audience.one "api") 5 none false
        none none) [("1", Validator.fn (fun _ _ _ _ => Completion.value false))]) =
      Except.error (unexpectedValue "1") :=
  ⟨by decide,
   ((validate_reports_first_settled 1700000000000
      [("iss", JsVal.str "https://evil/"), ("aud", JsVal.str "api"),
        ("exp", JsVal.num 1700003600)]
      [("alg", JsVal.str "none")]
      (spread (defaultValidators (JsVal.str "https://i/") (Audience.one "api") 5 none false
        none none) [("1", Validator.fn (fun _ _ _ _ => Completion.value false))])
      (unexpectedValue "1")).2.1
    (by
      intro e he e' he' _ _
      have htime : ∀ x ∈ spread (defaultValidators (JsVal.str "https://i/")
          (Audience.one "api") 5 none false none none)
          [("1", Validator.fn (fun _ _ _ _ => Completion.value false))],
          (checkEntry 1700000000000
            [("iss", JsVal.str "https://evil/"), ("aud", JsVal.str "api"),
              ("exp", JsVal.num 1700003600)]
            [("alg", JsVal.str "none")] x.1 x.2).time = 1 := by
        decide
      rw [htime e he, htime e' he'])).mpr
    ⟨0, _, rfl, by decide, fun j e' hj => absurd hj (Nat.not_lt_zero j)⟩⟩

/-! ## Theorems: the validator set of a verifier -/

theorem get?_eq_none_of_not_mem (vs : Validators) (k : String)
    (h : k ∉ vs.map Prod.fst) : Validators.get? vs k = none := by
  induction vs with
  | nil => rfl
  | cons e rest ih =>
    rw [List.map_cons, List.mem_cons, not_or] at h
    rw [get?_cons, if_neg (fun he => h.1 he.symm)]
    exact ih h.2

theorem get?_spread (base extra : Validators) (k : String)
    (hnodup : (extra.map Prod.fst).Nodup) :
    Validators.get? (spread base extra) k =
      match Validators.get? extra k with
      | some c => some c
      | none => Validators.get? base k := by
  induction extra generalizing base with
  | nil => rfl
  | cons e rest ih =>
    rw [List.map_cons, List.nodup_cons] at hnodup
    show Validators.get? (spread (setEntry e.1 e.2 base) rest) k = _
    rw [ih _ hnodup.2, get?_cons, get?_setEntry]
    by_cases hek : e.1 = k
    · have hnone : Validators.get? rest k = none :=
        get?_eq_none_of_not_mem rest k (by rw [← hek]; exact hnodup.1)
      simp [hek, hnone]
    · simp [hek]

theorem get?_spread_isSome (base extra : Validators) (k : String)
    (h : (Validators.get? base k).isSome = true) :
    (Validators.get? (spread base extra) k).isSome = true := by
  induction extra generalizing base with
  | nil => exact h
  | cons e rest ih =>
    show (Validators.get? (spread (setEntry e.1 e.2 base) rest) k).isSome = true
    apply ih
    rw [get?_setEntry]
    by_cases hek : e.1 = k
    · simp [hek]
    · simp [hek, h]

theorem withValidators_of_some (v : Verifier) (st : VerifierState) (vs : Validators)
    (h : st.validators = some vs) : st.withValidators v = st := by
  unfold VerifierState.withValidators
  rw [h]

theorem verify_validators_of_some (v : Verifier) (st : VerifierState) (c : Call)
    (jwt : String) (vs : Validators) (h : st.validators = some vs) :
    (v.verify st c jwt).1.validators = some vs := by
  unfold Verifier.verify
  by_cases hb : strTruthy v.issuerBaseURL = true
  · simp only [hb, if_true]
    cases c.discovered with
    | error m => exact h
    | ok d =>
      have hd : (st.discoveredWith d).validators = some vs := h
      simp only [withValidators_of_some v _ vs hd]
      cases c.jwtVerify (st.discoveredWith d).jwksUri with
      | error m => exact hd
      | ok r =>
        obtain ⟨payload, header⟩ := r
        simp only
        cases validate c.clock payload header ((st.discoveredWith d).validators.getD []) <;>
          exact hd
  · simp only [hb, if_false, Bool.false_eq_true]
    simp only [withValidators_of_some v _ vs h]
    cases c.jwtVerify st.jwksUri with
    | error m => exact h
    | ok r =>
      obtain ⟨payload, header⟩ := r
      simp only
      cases validate c.clock payload header (st.validators.getD []) <;> exact h

theorem run_validators_of_some (v : Verifier) (st : VerifierState)
    (calls : List (Call × String)) (vs : Validators) (h : st.validators = some vs) :
    (v.run st calls).validators = some vs := by
  induction calls generalizing st with
  | nil => exact h
  | cons x rest ih =>
    obtain ⟨c, jwt⟩ := x
    exact ih _ (verify_validators_of_some v st c jwt vs h)

theorem withValidators_jwksUri (v : Verifier) (st : VerifierState) :
    (st.withValidators v).jwksUri = st.jwksUri := by
  unfold VerifierState.withValidators
  cases st.validators <;> rfl

theorem withValidators_of_none (v : Verifier) (st : VerifierState)
    (h : st.validators = none) :
    (st.withValidators v).validators =
      some (v.buildValidators st.issuer st.allowedSigningAlgs) := by
  unfold VerifierState.withValidators
  rw [h]

theorem afterDiscovery_validators (v : Verifier) (st st1 : VerifierState) (c : Call)
    (h : v.afterDiscovery st c = Except.ok st1) : st1.validators = st.validators := by
  unfold Verifier.afterDiscovery at h
  by_cases hb : strTruthy v.issuerBaseURL = true
  · simp only [hb, if_true] at h
    cases hd : c.discovered with
    | error m => rw [hd] at h; simp at h
    | ok d =>
      rw [hd] at h
      simp only [Except.ok.injEq] at h
      rw [← h]; rfl
  · simp only [hb, if_false, Bool.false_eq_true, Except.ok.injEq] at h
    rw [← h]

theorem verify_eq_afterDiscovery (v : Verifier) (st : VerifierState) (c : Call)
    (jwt : String) :
    v.verify st c jwt =
      match v.afterDiscovery st c with
      | Except.error m => (st, Except.error (AuthError.invalidToken m))
      | Except.ok st1 =>
        match c.jwtVerify (st1.withValidators v).jwksUri with
        | Except.error m => (st1.withValidators v, Except.error (AuthError.invalidToken m))
        | Except.ok (payload, header) =>
          match validate c.clock payload header ((st1.withValidators v).validators.getD []) with
          | Except.error m => (st1.withValidators v, Except.error (AuthError.invalidToken m))
          | Except.ok _ => (st1.withValidators v, Except.ok ⟨payload, header, jwt⟩) := rfl

theorem verify_uses_set (v : Verifier) (st st1 : VerifierState) (c : Call) (jwt : String)
    (vs : Validators) (h1 : v.afterDiscovery st c = Except.ok st1)
    (hvs : (st1.withValidators v).validators = some vs) :
    (v.verify st c jwt).1.validators = some vs ∧
    ∀ payload header, c.jwtVerify st1.jwksUri = Except.ok (payload, header) →
      (v.verify st c jwt).2 =
        match validate c.clock payload header vs with
        | Except.error m => Except.error (AuthError.invalidToken m)
        | Except.ok _ => Except.ok ⟨payload, header, jwt⟩ := by
  rw [verify_eq_afterDiscovery, h1]
  simp only [withValidators_jwksUri, hvs, Option.getD_some]
  constructor
  · cases c.jwtVerify st1.jwksUri with
    | error m => exact hvs
    | ok r =>
      obtain ⟨payload, header⟩ := r
      simp only
      cases validate c.clock payload header vs <;> exact hvs
  · intro payload header hj
    rw [hj]
    simp only
    cases validate c.clock payload header vs <;> rfl

/-- C9. The validator set of a verifier is `{ ...defaults, ...overrides }`: for every
claim name it holds the caller's entry when the overrides contain the name (whatever
the entry is, `false` included) and the default entry otherwise, and each of the nine
default names is present. It is built once per verifier: no set exists when the
verifier is constructed; a verify call that finds none and whose discovery step fails
changes nothing; a verify call that finds none and passes the discovery step stores
exactly the merge for the issuer and algorithm list resolved by that step and validates
the token against it; a verify call that finds a stored set keeps it and validates the
token against it; and a stored set is the same after every later sequence of calls. -/
theorem validators_merge_defaults_with_overrides (v : Verifier) (issuer : Option String)
    (algs : Option (List String)) (hnodup : (v.customValidators.map Prod.fst).Nodup) :
    (∀ k, Validators.get? (v.buildValidators issuer algs) k =
      match Validators.get? v.customValidators k with
      | some c => some c
      | none =>
        Validators.get? (defaultValidators (optStr issuer) v.audience v.clockTolerance
          v.maxTokenAge v.strict algs v.tokenSigningAlg) k) ∧
    (∀ k ∈ ["alg", "typ", "iss", "aud", "exp", "iat", "sub", "client_id", "jti"],
      (Validators.get? (v.buildValidators issuer algs) k).isSome = true) ∧
    v.initialState.validators = none ∧
    (∀ (st : VerifierState) (c : Call) (jwt : String) (m : String),
      v.afterDiscovery st c = Except.error m →
      v.verify st c jwt = (st, Except.error (AuthError.invalidToken m))) ∧
    (∀ (st st1 : VerifierState) (c : Call) (jwt : String), st.validators = none →
      v.afterDiscovery st c = Except.ok st1 →
      (v.verify st c jwt).1.validators =
        some (v.buildValidators st1.issuer st1.allowedSigningAlgs) ∧
      ∀ payload header, c.jwtVerify st1.jwksUri = Except.ok (payload, header) →
        (v.verify st c jwt).2 =
          match validate c.clock payload header
            (v.buildValidators st1.issuer st1.allowedSigningAlgs) with
          | Except.error m => Except.error (AuthError.invalidToken m)
          | Except.ok _ => Except.ok ⟨payload, header, jwt⟩) ∧
    (∀ (st st1 : VerifierState) (vs : Validators) (c : Call) (jwt : String),
      st.validators = some vs → v.afterDiscovery st c = Except.ok st1 →
      (v.verify st c jwt).1.validators = some vs ∧
      ∀ payload header, c.jwtVerify st1.jwksUri = Except.ok (payload, header) →
        (v.verify st c jwt).2 =
          match validate c.clock payload header vs with
          | Except.error m => Except.error (AuthError.invalidToken m)
          | Except.ok _ => Except.ok ⟨payload, header, jwt⟩) ∧
    (∀ (st : VerifierState) (vs : Validators) (calls : List (Call × String)),
      st.validators = some vs → (v.run st calls).validators = some vs) := by
  refine ⟨fun k => get?_spread _ _ k hnodup, ?_, rfl, ?_, ?_, ?_,
    fun st vs calls h => run_validators_of_some v st calls vs h⟩
  · intro k hk
    apply get?_spread_isSome
    simp only [List.mem_cons, List.mem_singleton, List.not_mem_nil, or_false] at hk
    rcases hk with rfl | rfl | rfl | rfl | rfl | rfl | rfl | rfl | rfl <;> rfl
  · intro st c jwt m hm
    rw [verify_eq_afterDiscovery, hm]
  · intro st st1 c jwt hnone h1
    have hv : st1.validators = none := by
      rw [afterDiscovery_validators v st st1 c h1]; exact hnone
    exact verify_uses_set v st st1 c jwt _ h1 (withValidators_of_none v st1 hv)
  · intro st st1 vs c jwt hsome h1
    have hv : st1.validators = some vs := by
      rw [afterDiscovery_validators v st st1 c h1]; exact hsome
    have hw : (st1.withValidators v).validators = some vs := by
      rw [withValidators_of_some v st1 vs hv]; exact hv
    exact verify_uses_set v st st1 c jwt vs h1 hw

/-- C9 at a verifier whose overrides set `iss` to `false`, on its first verify call:
the call stores the merged set, in which `iss` is `false`. -/
theorem validators_merge_defaults_with_overrides_witness :
    (Verifier.verify
       ⟨none, some "https://i/keys", some "https://i/", Audience.one "api", none,
         some "RS256", 30000, 5000, 600000, 5, none, false, [("iss", Validator.skip)]⟩
       ⟨some "https://i/keys", some "https://i/", none, none⟩
       ⟨1700000000000, Except.error "unused", fun _ => Except.error "bad signature"⟩
       "jwt").1.validators =
      some (Verifier.buildValidators
        ⟨none, some "https://i/keys", some "https://i/", Audience.one "api", none,
          some "RS256", 30000, 5000, 600000, 5, none, false, [("iss", Validator.skip)]⟩
        (some "https://i/") none) ∧
    Validators.get?
      (Verifier.buildValidators
        ⟨none, some "https://i/keys", some "https://i/", Audience.one "api", none,
          some "RS256", 30000, 5000, 600000, 5, none, false, [("iss", Validator.skip)]⟩
        (some "https://i/") none)
      "iss" = some Validator.skip :=
  ⟨((validators_merge_defaults_with_overrides
      ⟨none, some "https://i/keys", some "https://i/", Audience.one "api", none,
        some "RS256", 30000, 5000, 600000, 5, none, false, [("iss", Validator.skip)]⟩
      (some "https://i/") none (by decide)).2.2.2.2.1
      ⟨some "https://i/keys", some "https://i/", none, none⟩
      ⟨some "https://i/keys", some "https://i/", none, none⟩
      ⟨1700000000000, Except.error "unused", fun _ => Except.error "bad signature"⟩
      "jwt" rfl rfl).1,
   (validators_merge_defaults_with_overrides
      ⟨none, some "https://i/keys", some "https://i/", Audience.one "api", none,
        some "RS256", 30000, 5000, 600000, 5, none, false, [("iss", Validator.skip)]⟩
      (some "https://i/") none (by decide)).1 "iss"⟩

/-! ## Theorems: verifier construction -/

theorem orDefault_none {α : Type} (x : Option α) : orDefault x none = x := by
  cases x <;> rfl

theorem includesAlg_iff (algs : List String) (alg : Option String) :
    includesAlg algs alg = true ↔ ∃ a, alg = some a ∧ a ∈ algs := by
  cases alg <;> simp [includesAlg]

theorem strTruthy_of_includes_symmetric (alg : Option String)
    (h : includesAlg SYMMETRIC_ALGS alg = true) : strTruthy alg = true := by
  obtain ⟨a, rfl, ha⟩ := (includesAlg_iff _ _).mp h
  simp only [SYMMETRIC_ALGS, List.mem_cons, List.mem_singleton, List.not_mem_nil,
    or_false] at ha
  rcases ha with rfl | rfl | rfl <;> decide

/-- C10. With explicit options and no environment defaults, `jwtVerifier` throws
before returning a verify function whenever a secret and a `jwksUri` are both set, or
the audience is missing, or a secret is set without a `tokenSigningAlg`; and it
returns a verify function exactly when `issuerBaseURL`, or `issuer` with `jwksUri`, or
`issuer` with `secret` is given, not both `secret` and `jwksUri` are, the audience is
given, with a secret `tokenSigningAlg` is one of HS256/HS384/HS512, and without a
secret it is absent or one of the asymmetric algorithms. An option is given when it is
truthy. -/
theorem jwtVerifier_succeeds_iff (opts : JwtVerifierOptions) :
    ((strTruthy opts.secret = true ∧ strTruthy opts.jwksUri = true) ∨
        audTruthy opts.audience = false ∨
        (strTruthy opts.secret = true ∧ strTruthy opts.tokenSigningAlg = false) →
      ∃ msg, jwtVerifier Env.empty opts = Except.error msg) ∧
    ((∃ v, jwtVerifier Env.empty opts = Except.ok v) ↔
      (strTruthy opts.issuerBaseURL = true ∨
        (strTruthy opts.issuer = true ∧ strTruthy opts.jwksUri = true) ∨
        (strTruthy opts.issuer = true ∧ strTruthy opts.secret = true)) ∧
      ¬ (strTruthy opts.secret = true ∧ strTruthy opts.jwksUri = true) ∧
      audTruthy opts.audience = true ∧
      (strTruthy opts.secret = true →
        ∃ a, opts.tokenSigningAlg = some a ∧ a ∈ SYMMETRIC_ALGS) ∧
      (strTruthy opts.secret = false →
        strTruthy opts.tokenSigningAlg = false ∨
          ∃ a, opts.tokenSigningAlg = some a ∧ a ∈ ASYMMETRIC_ALGS)) := by
  have hsym := strTruthy_of_includes_symmetric opts.tokenSigningAlg
  have hmain : (∃ v, jwtVerifier Env.empty opts = Except.ok v) ↔
      (strTruthy opts.issuerBaseURL = true ∨
        (strTruthy opts.issuer = true ∧ strTruthy opts.jwksUri = true) ∨
        (strTruthy opts.issuer = true ∧ strTruthy opts.secret = true)) ∧
      ¬ (strTruthy opts.secret = true ∧ strTruthy opts.jwksUri = true) ∧
      audTruthy opts.audience = true ∧
      (strTruthy opts.secret = true → includesAlg SYMMETRIC_ALGS opts.tokenSigningAlg = true) ∧
      (strTruthy opts.secret = false →
        strTruthy opts.tokenSigningAlg = false ∨
          includesAlg ASYMMETRIC_ALGS opts.tokenSigningAlg = true) := by
    unfold jwtVerifier
    simp only [Env.empty, orDefault_none, Option.map_none']
    cases haud : opts.audience with
    | none =>
      simp only [audTruthy]
      constructor
      · rintro ⟨x, hx⟩
        split at hx
        · exact absurd hx (by simp)
        · split at hx
          · exact absurd hx (by simp)
          · simp at hx
      · intro h
        exact absurd h.2.2.1 (by simp)
    | some aud =>
      cases h1 : strTruthy opts.issuerBaseURL <;> cases h2 : strTruthy opts.issuer <;>
        cases h3 : strTruthy opts.jwksUri <;> cases h4 : strTruthy opts.secret <;>
        cases h5 : strTruthy opts.tokenSigningAlg <;>
        cases h6 : includesAlg ASYMMETRIC_ALGS opts.tokenSigningAlg <;>
        cases h7 : includesAlg SYMMETRIC_ALGS opts.tokenSigningAlg <;>
        cases h8 : audTruthy (some aud) <;>
        simp_all
  constructor
  · intro h
    cases hr : jwtVerifier Env.empty opts with
    | error m => exact ⟨m, rfl⟩
    | ok v =>
      exfalso
      obtain ⟨_, h2, h3, h4, _⟩ := hmain.mp ⟨v, hr⟩
      rcases h with h | h | h
      · exact h2 h
      · rw [h3] at h; exact absurd h (by simp)
      · have := hsym (h4 h.1)
        rw [h.2] at this
        exact absurd this (by simp)
  · rw [hmain, includesAlg_iff, includesAlg_iff]

/-- C10 at a configuration with a secret and no `tokenSigningAlg`: construction
fails. -/
theorem jwtVerifier_succeeds_iff_witness :
    ∃ msg, jwtVerifier Env.empty
      ⟨none, none, some "https://i/", some (Audience.one "api"), some "shh", none, none,
        none, none, none, none, none, none⟩ = Except.error msg :=
  (jwtVerifier_succeeds_iff
    ⟨none, none, some "https://i/", some (Audience.one "api"), some "shh", none, none,
      none, none, none, none, none, none⟩).1
    (Or.inr (Or.inr ⟨by decide, by decide⟩))

/-! ## Theorems: the verify function -/

theorem verify_eq (v : Verifier) (st : VerifierState) (c : Call) (jwt : String) :
    v.verify st c jwt =
      match v.afterDiscovery st c with
      | Except.error m => (st, Except.error (AuthError.invalidToken m))
      | Except.ok st1 =>
        match c.jwtVerify (st1.withValidators v).jwksUri with
        | Except.error m => (st1.withValidators v, Except.error (AuthError.invalidToken m))
        | Except.ok (payload, header) =>
          match validate c.clock payload header ((st1.withValidators v).validators.getD []) with
          | Except.error m => (st1.withValidators v, Except.error (AuthError.invalidToken m))
          | Except.ok _ => (st1.withValidators v, Except.ok ⟨payload, header, jwt⟩) := by
  rfl

/-- C11. Whatever stage of a verify call fails (metadata discovery; key resolution
and the signature check, both the outcome of `jose.jwtVerify` with the key function;
claim validation), the call fails with an `InvalidTokenError` (status 401, code
`invalid_token`) carrying the message of that failure, and when no stage fails it
returns `{payload, header, token}` with the input token. -/
theorem verify_wraps_every_failure (v : Verifier) (st : VerifierState) (c : Call)
    (jwt : String) :
    (∀ m, v.afterDiscovery st c = Except.error m ↔
      strTruthy v.issuerBaseURL = true ∧ c.discovered = Except.error m) ∧
    (∀ m, v.afterDiscovery st c = Except.error m →
      (v.verify st c jwt).2 = Except.error (AuthError.invalidToken m)) ∧
    (∀ st1 m, v.afterDiscovery st c = Except.ok st1 →
      c.jwtVerify (st1.withValidators v).jwksUri = Except.error m →
      (v.verify st c jwt).2 = Except.error (AuthError.invalidToken m)) ∧
    (∀ st1 payload header m, v.afterDiscovery st c = Except.ok st1 →
      c.jwtVerify (st1.withValidators v).jwksUri = Except.ok (payload, header) →
      validate c.clock payload header ((st1.withValidators v).validators.getD []) =
        Except.error m →
      (v.verify st c jwt).2 = Except.error (AuthError.invalidToken m)) ∧
    (∀ st1 payload header, v.afterDiscovery st c = Except.ok st1 →
      c.jwtVerify (st1.withValidators v).jwksUri = Except.ok (payload, header) →
      validate c.clock payload header ((st1.withValidators v).validators.getD []) =
        Except.ok () →
      (v.verify st c jwt).2 = Except.ok ⟨payload, header, jwt⟩) ∧
    (∀ e, (v.verify st c jwt).2 = Except.error e →
      e.status = 401 ∧ e.code = some "invalid_token" ∧
        e = AuthError.invalidToken e.message) := by
  refine ⟨?_, ?_, ?_, ?_, ?_, ?_⟩
  · intro m
    unfold Verifier.afterDiscovery
    by_cases hb : strTruthy v.issuerBaseURL = true
    · simp only [hb, if_true, true_and]
      cases c.discovered <;> simp
    · simp [hb]
  · intro m h
    rw [verify_eq, h]
  · intro st1 m h hk
    rw [verify_eq, h]
    simp only [hk]
  · intro st1 payload header m h hk hv
    rw [verify_eq, h]
    simp only [hk, hv]
  · intro st1 payload header h hk hv
    rw [verify_eq, h]
    simp only [hk, hv]
  · intro e h
    rw [verify_eq] at h
    have key : ∃ m, e = AuthError.invalidToken m := by
      cases h1 : v.afterDiscovery st c with
      | error m =>
        rw [h1] at h
        simp only [Except.error.injEq] at h
        exact ⟨m, h.symm⟩
      | ok st1 =>
        rw [h1] at h
        simp only at h
        cases h2 : c.jwtVerify (st1.withValidators v).jwksUri with
        | error m =>
          rw [h2] at h
          simp only [Except.error.injEq] at h
          exact ⟨m, h.symm⟩
        | ok r =>
          obtain ⟨payload, header⟩ := r
          rw [h2] at h
          simp only at h
          cases h3 : validate c.clock payload header
              ((st1.withValidators v).validators.getD []) with
          | error m =>
            rw [h3] at h
            simp only [Except.error.injEq] at h
            exact ⟨m, h.symm⟩
          | ok u =>
            rw [h3] at h
            simp at h
    obtain ⟨m, rfl⟩ := key
    exact ⟨rfl, rfl, rfl⟩

/-- C11 at a verifier with an `issuerBaseURL` whose discovery fails: the call fails
with `InvalidTokenError` carrying the message of the discovery failure. -/
theorem verify_wraps_every_failure_witness :
    (Verifier.verify
      ⟨some "https://i/", none, none, Audience.one "api", none, some "RS256", 30000, 5000,
        600000, 5, none, false, []⟩
      ⟨none, none, none, none⟩
      ⟨0, Except.error "Failed to fetch authorization server metadata",
        fun _ => Except.error "unused"⟩ "a.b.c").2 =
      Except.error (AuthError.invalidToken "Failed to fetch authorization server metadata") :=
  (verify_wraps_every_failure
    ⟨some "https://i/", none, none, Audience.one "api", none, some "RS256", 30000, 5000,
      600000, 5, none, false, []⟩
    ⟨none, none, none, none⟩
    ⟨0, Except.error "Failed to fetch authorization server metadata",
      fun _ => Except.error "unused"⟩ "a.b.c").2.1
    "Failed to fetch authorization server metadata" rfl

/-! ## Theorems: the authorization checks -/

theorem strictEq_str_iff (v : JsVal) (r : String) :
    v.strictEq (JsVal.str r) = true ↔ v = JsVal.str r := by
  cases v <;> simp [JsVal.strictEq]

theorem setHas_str_iff (actual : List JsVal) (r : String) :
    setHas actual (JsVal.str r) = true ↔ JsVal.str r ∈ actual := by
  unfold setHas
  rw [List.any_eq_true]
  constructor
  · rintro ⟨x, hx, hs⟩
    rw [(strictEq_str_iff x r).mp hs] at hx
    exact hx
  · intro h
    exact ⟨_, h, (strictEq_str_iff _ r).mpr rfl⟩

theorem has_false_get (p : Obj) (key : String) (h : Obj.has p key = false) :
    Obj.get p key = JsVal.undefined := by
  unfold Obj.has at h
  unfold Obj.get
  have : p.find? (fun e => e.1 == key) = none := by
    rw [List.find?_eq_none]
    intro x hx
    have := List.any_eq_false.mp h x hx
    simpa using this
  rw [this]

/-- The outcome of either scope check on a payload, by cases. -/
theorem scopeCheck_cases (scopes : List String) (matchAll : Bool) (p : Obj) :
    claimCheck (scopePredicate scopes matchAll) none (some p) =
      if Obj.has p "scope" = false then
        Except.error (Thrown.auth
          (AuthError.insufficientScope (some scopes) "Missing 'scope' claim"))
      else
        match claimSet (Obj.get p "scope") with
        | none =>
          Except.error (Thrown.auth
            (AuthError.insufficientScope (some scopes) "Insufficient Scope"))
        | some actual =>
          if (if matchAll then (scopes.map JsVal.str).all (setHas actual)
              else (scopes.map JsVal.str).any (setHas actual)) = true then Except.ok ()
          else
            Except.error (Thrown.auth
              (AuthError.insufficientScope (some scopes) "Insufficient Scope")) := by
  unfold claimCheck scopePredicate isClaimIncluded
  cases hh : Obj.has p "scope"
  · simp [hh, InsufficientScopeError.new]
  · cases hs : claimSet (Obj.get p "scope") with
    | none => simp [hh, hs, InsufficientScopeError.new]
    | some actual =>
      cases matchAll
      · cases hb : (scopes.map JsVal.str).any (setHas actual) <;>
          simp [hh, hs, hb, InsufficientScopeError.new]
      · cases hb : (scopes.map JsVal.str).all (setHas actual) <;>
          simp [hh, hs, hb, InsufficientScopeError.new]

theorem getHeaders_some (code message : String) (scopes : List String) :
    getHeaders code message (some scopes) =
      getHeaders code message none ++ ", scope=\"" ++ joinScopes scopes ++ "\"" := by
  simp only [getHeaders, String.append_assoc, String.append_empty]

theorem all_setHas_iff (scopes : List String) (actual : List JsVal) :
    (scopes.map JsVal.str).all (setHas actual) = true ↔
      ∀ r ∈ scopes, JsVal.str r ∈ actual := by
  simp [List.all_eq_true, setHas_str_iff]

theorem any_setHas_iff (scopes : List String) (actual : List JsVal) :
    (scopes.map JsVal.str).any (setHas actual) = true ↔
      ∃ r ∈ scopes, JsVal.str r ∈ actual := by
  simp [List.any_eq_true, setHas_str_iff]

/-- C12. For a required scope list `R` (a list, or a space-delimited string that is
split on spaces) and a verified payload `p`, the `requiredScopes(R)` check passes iff
`p` has a `scope` claim whose value, read as a set, contains every element of `R`;
otherwise it fails with `InsufficientScopeError` (status 403, code
`insufficient_scope`) whose header ends in the scope list `R`. For
`R = ["read:x", "write:x"]`, scope `"read:x"` fails and `"read:x write:x"` passes. -/
theorem requiredScopes_passes_iff (scopes : ScopesArg) (p : Obj) :
    (requiredScopes scopes (some p) = Except.ok () ↔
      Obj.has p "scope" = true ∧
      ∃ actual, claimSet (Obj.get p "scope") = some actual ∧
        ∀ r ∈ scopes.toList, JsVal.str r ∈ actual) ∧
    (requiredScopes scopes (some p) ≠ Except.ok () →
      ∃ m, requiredScopes scopes (some p) =
          Except.error (Thrown.auth (AuthError.insufficientScope (some scopes.toList) m)) ∧
        (AuthError.insufficientScope (some scopes.toList) m).status = 403 ∧
        (AuthError.insufficientScope (some scopes.toList) m).code =
          some "insufficient_scope" ∧
        (AuthError.insufficientScope (some scopes.toList) m).wwwAuthenticate =
          getHeaders "insufficient_scope" m none ++ ", scope=\"" ++
            joinScopes scopes.toList ++ "\"") ∧
    ScopesArg.toList (ScopesArg.text "read:x write:x") = ["read:x", "write:x"] ∧
    requiredScopes (ScopesArg.list ["read:x", "write:x"])
        (some [("scope", JsVal.str "read:x")]) =
      Except.error (Thrown.auth
        (AuthError.insufficientScope (some ["read:x", "write:x"]) "Insufficient Scope")) ∧
    requiredScopes (ScopesArg.list ["read:x", "write:x"])
        (some [("scope", JsVal.str "read:x write:x")]) = Except.ok () := by
  refine ⟨?_, ?_, by decide, by decide, by decide⟩
  · unfold requiredScopes
    rw [scopeCheck_cases]
    cases hh : Obj.has p "scope"
    · simp
    · cases hs : claimSet (Obj.get p "scope") with
      | none => simp
      | some actual =>
        simp only [Bool.true_eq_false, if_false, if_true, true_and, Option.some.injEq,
          exists_eq_left']
        rw [← all_setHas_iff]
        cases (scopes.toList.map JsVal.str).all (setHas actual) <;> simp
  · intro hfail
    unfold requiredScopes at hfail ⊢
    rw [scopeCheck_cases] at hfail ⊢
    have hh : ∀ m, (AuthError.insufficientScope (some scopes.toList) m).wwwAuthenticate =
        getHeaders "insufficient_scope" m none ++ ", scope=\"" ++
          joinScopes scopes.toList ++ "\"" := fun m => getHeaders_some _ m _
    cases hhas : Obj.has p "scope"
    · exact ⟨"Missing 'scope' claim", by simp [hhas], rfl, rfl, hh _⟩
    · cases hs : claimSet (Obj.get p "scope") with
      | none => exact ⟨"Insufficient Scope", by simp [hhas, hs], rfl, rfl, hh _⟩
      | some actual =>
        cases hb : (scopes.toList.map JsVal.str).all (setHas actual)
        · exact ⟨"Insufficient Scope", by simp [hhas, hs, hb], rfl, rfl, hh _⟩
        · simp [hhas, hs, hb] at hfail

/-- C12 at the payload `scope: "read:x"` and `R = ["read:x", "write:x"]`: the check
fails with `InsufficientScopeError` listing `R`. -/
theorem requiredScopes_passes_iff_witness :
    ∃ m, requiredScopes (ScopesArg.list ["read:x", "write:x"])
        (some [("scope", JsVal.str "read:x")]) =
          Except.error (Thrown.auth
            (AuthError.insufficientScope (some ["read:x", "write:x"]) m)) ∧
      (AuthError.insufficientScope (some ["read:x", "write:x"]) m).status = 403 ∧
      (AuthError.insufficientScope (some ["read:x", "write:x"]) m).code =
        some "insufficient_scope" ∧
      (AuthError.insufficientScope (some ["read:x", "write:x"]) m).wwwAuthenticate =
        getHeaders "insufficient_scope" m none ++ ", scope=\"" ++
          joinScopes ["read:x", "write:x"] ++ "\"" :=
  (requiredScopes_passes_iff (ScopesArg.list ["read:x", "write:x"])
    [("scope", JsVal.str "read:x")]).2.1 (by decide)

/-- C13. For a scope list `R` and a verified payload `p`, the `scopeIncludesAny(R)`
check passes iff `p` has a `scope` claim whose value, read as a set, contains at
least one element of `R`; in every other case, a payload without a `scope` claim
included, it fails with `InsufficientScopeError` and never with `InvalidTokenError`. -/
theorem scopeIncludesAny_passes_iff (scopes : ScopesArg) (p : Obj) :
    (scopeIncludesAny scopes (some p) = Except.ok () ↔
      Obj.has p "scope" = true ∧
      ∃ actual, claimSet (Obj.get p "scope") = some actual ∧
        ∃ r ∈ scopes.toList, JsVal.str r ∈ actual) ∧
    (scopeIncludesAny scopes (some p) ≠ Except.ok () →
      ∃ m, scopeIncludesAny scopes (some p) =
        Except.error (Thrown.auth (AuthError.insufficientScope (some scopes.toList) m))) ∧
    (∀ m, scopeIncludesAny scopes (some p) ≠
      Except.error (Thrown.auth (AuthError.invalidToken m))) ∧
    (Obj.has p "scope" = false →
      scopeIncludesAny scopes (some p) =
        Except.error (Thrown.auth
          (AuthError.insufficientScope (some scopes.toList) "Missing 'scope' claim"))) := by
  have hcases := scopeCheck_cases scopes.toList false p
  have hfail : scopeIncludesAny scopes (some p) ≠ Except.ok () →
      ∃ m, scopeIncludesAny scopes (some p) =
        Except.error (Thrown.auth (AuthError.insufficientScope (some scopes.toList) m)) := by
    intro hfail
    unfold scopeIncludesAny at hfail ⊢
    rw [hcases] at hfail ⊢
    cases hhas : Obj.has p "scope"
    · exact ⟨"Missing 'scope' claim", by simp [hhas]⟩
    · cases hs : claimSet (Obj.get p "scope") with
      | none => exact ⟨"Insufficient Scope", by simp [hhas, hs]⟩
      | some actual =>
        cases hb : (scopes.toList.map JsVal.str).any (setHas actual)
        · exact ⟨"Insufficient Scope", by simp [hhas, hs, hb]⟩
        · simp [hhas, hs, hb] at hfail
  refine ⟨?_, hfail, ?_, ?_⟩
  · unfold scopeIncludesAny
    rw [hcases]
    cases hh : Obj.has p "scope"
    · simp
    · cases hs : claimSet (Obj.get p "scope") with
      | none => simp
      | some actual =>
        simp only [Bool.true_eq_false, Bool.false_eq_true, if_false, true_and,
          Option.some.injEq, exists_eq_left']
        rw [← any_setHas_iff]
        cases (scopes.toList.map JsVal.str).any (setHas actual) <;> simp
  · intro m h
    obtain ⟨m', h'⟩ := hfail (by rw [h]; simp)
    rw [h] at h'
    simp at h'
  · intro hhas
    unfold scopeIncludesAny
    rw [hcases]
    simp [hhas]

/-- C13 at a payload that has no `scope` claim: the check fails with
`InsufficientScopeError`. -/
theorem scopeIncludesAny_passes_iff_witness :
    scopeIncludesAny (ScopesArg.list ["read:x"]) (some [("sub", JsVal.str "u1")]) =
      Except.error (Thrown.auth
        (AuthError.insufficientScope (some ["read:x"]) "Missing 'scope' claim")) :=
  (scopeIncludesAny_passes_iff (ScopesArg.list ["read:x"]) [("sub", JsVal.str "u1")]).2.2.2
    (by decide)

/-- C14 (as stated) fails: when the predicate throws, the check built by `claimCheck`
fails with what the predicate threw (here an `InsufficientScopeError`, as the scope
checks of the library do; or any other value), not with `InvalidTokenError(m)`. -/
theorem claimCheck_rethrows :
    claimCheck
        (fun _ => Except.error (Thrown.auth (AuthError.insufficientScope none "no")))
        (some "m") (some []) =
      Except.error (Thrown.auth (AuthError.insufficientScope none "no")) ∧
    claimCheck (fun _ => Except.error (Thrown.other "boom")) (some "m") (some []) =
      Except.error (Thrown.other "boom") ∧
    claimCheck (fun _ => Except.error (Thrown.other "boom")) (some "m") (some []) ≠
      Except.error (Thrown.auth (AuthError.invalidToken "m")) := by
  decide

/-- C14 (amended). The check built by `claimCheck(fn, m)` fails with
`UnauthorizedError` when no verified payload is present; with a payload present it
fails with `InvalidTokenError` carrying the message `m` when `fn` returns false, it
fails with what `fn` threw, unchanged, when `fn` throws, and it passes only when `fn`
returns true. -/
theorem claimCheck_outcomes (fn : Obj → Except Thrown Bool) (m : String) (p : Obj) :
    claimCheck fn (some m) none = Except.error (Thrown.auth UnauthorizedError.default) ∧
    (fn p = Except.ok false →
      claimCheck fn (some m) (some p) = Except.error (Thrown.auth (AuthError.invalidToken m)) ∧
      (AuthError.invalidToken m).status = 401 ∧
      (AuthError.invalidToken m).code = some "invalid_token") ∧
    (∀ e, fn p = Except.error e → claimCheck fn (some m) (some p) = Except.error e) ∧
    (claimCheck fn (some m) (some p) = Except.ok () ↔ fn p = Except.ok true) := by
  refine ⟨rfl, ?_, ?_, ?_⟩
  · intro h
    refine ⟨?_, rfl, rfl⟩
    simp [claimCheck, h, InvalidTokenError.new]
  · intro e h
    simp [claimCheck, h]
  · unfold claimCheck
    cases h : fn p with
    | error e => simp [h]
    | ok b => cases b <;> simp [h]

/-- C14 (amended) at a predicate that returns false on the empty payload. -/
theorem claimCheck_outcomes_witness :
    claimCheck (fun _ => Except.ok false) (some "not allowed") (some []) =
      Except.error (Thrown.auth (AuthError.invalidToken "not allowed")) :=
  ((claimCheck_outcomes (fun _ => Except.ok false) "not allowed" []).2.1 rfl).1

/-! ## Theorems: the request guard -/

theorem getToken_missing_of_no_source (headers : Obj) (query body : JsVal)
    (urlEncoded : Bool) (h : nonEmptySources headers query body urlEncoded = []) :
    getToken headers query body urlEncoded = Except.error UnauthorizedError.default :=
  (getToken_cases (getTokenFromHeader headers) (getTokenFromQuery query)
    (getFromBody body urlEncoded) "").2.1.mpr h

theorem getToken_ambiguous_of_sources (headers : Obj) (query body : JsVal)
    (urlEncoded : Bool) (h : 2 ≤ (nonEmptySources headers query body urlEncoded).length) :
    getToken headers query body urlEncoded = Except.error ambiguousTokenError :=
  (getToken_cases (getTokenFromHeader headers) (getTokenFromQuery query)
    (getFromBody body urlEncoded) "").2.2.mpr h

/-- C15. When token extraction or verification fails, the guard built by `auth(opts)`
with `authRequired = false` calls `next` with no error and leaves the request as it
was (no verified result is attached), and with `authRequired` unset or true it calls
`next` with the error; in particular a request carrying no token and no `req.auth`
passes with `authRequired = false` and still has no `req.auth`. On success the guard
sets `req.auth` to the verified result and calls `next` with no error. -/
theorem authHandler_policy (v : Verifier) (authRequired : Option Bool)
    (st : VerifierState) (c : Call) (req : Request) :
    (∀ e, (getToken req.headers req.query req.body req.urlencoded = Except.error e ∨
        ∃ jwt, getToken req.headers req.query req.body req.urlencoded = Except.ok jwt ∧
          (v.verify st c jwt).2 = Except.error e) →
      (authRequired = some false →
        (authHandler v authRequired st c req).2.1 = req ∧
        (authHandler v authRequired st c req).2.2 = none) ∧
      (authRequired = none ∨ authRequired = some true →
        (authHandler v authRequired st c req).2.1 = req ∧
        (authHandler v authRequired st c req).2.2 = some e)) ∧
    (nonEmptySources req.headers req.query req.body req.urlencoded = [] →
      authRequired = some false → req.auth = none →
      (authHandler v authRequired st c req).2.1.auth = none ∧
      (authHandler v authRequired st c req).2.2 = none) ∧
    (∀ jwt result, getToken req.headers req.query req.body req.urlencoded = Except.ok jwt →
      (v.verify st c jwt).2 = Except.ok result →
      (authHandler v authRequired st c req).2.1.auth = some result ∧
      (authHandler v authRequired st c req).2.2 = none) := by
  have hfail : ∀ e, (getToken req.headers req.query req.body req.urlencoded = Except.error e ∨
        ∃ jwt, getToken req.headers req.query req.body req.urlencoded = Except.ok jwt ∧
          (v.verify st c jwt).2 = Except.error e) →
      (authHandler v authRequired st c req).2.1 = req ∧
      (authHandler v authRequired st c req).2.2 = nextArg authRequired e := by
    intro e h
    unfold authHandler
    rcases h with h | ⟨jwt, h, hv⟩
    · rw [h]
      exact ⟨rfl, rfl⟩
    · rw [h]
      simp only
      cases hr : v.verify st c jwt with
      | mk st1 r =>
        rw [hr] at hv
        simp only at hv
        subst hv
        exact ⟨rfl, rfl⟩
  refine ⟨?_, ?_, ?_⟩
  · intro e h
    obtain ⟨h1, h2⟩ := hfail e h
    constructor
    · intro ha
      refine ⟨h1, ?_⟩
      rw [h2, ha]
      rfl
    · intro ha
      refine ⟨h1, ?_⟩
      rw [h2]
      rcases ha with ha | ha <;> rw [ha] <;> rfl
  · intro hnone ha hauth
    obtain ⟨h1, h2⟩ := hfail _ (Or.inl (getToken_missing_of_no_source _ _ _ _ hnone))
    rw [h1, h2, ha]
    exact ⟨hauth, rfl⟩
  · intro jwt result h hv
    unfold authHandler
    rw [h]
    simp only
    cases hr : v.verify st c jwt with
    | mk st1 r =>
      rw [hr] at hv
      simp only at hv
      subst hv
      exact ⟨rfl, rfl⟩

/-- C15 at a request without any token, `authRequired = false`: `next()` is called
and `req.auth` stays unset. -/
theorem authHandler_policy_witness :
    (authHandler
      ⟨some "https://i/", none, none, Audience.one "api", none, some "RS256", 30000, 5000,
        600000, 5, none, false, []⟩ (some false) ⟨none, none, none, none⟩
      ⟨0, Except.error "unused", fun _ => Except.error "unused"⟩
      ⟨[], JsVal.undefined, JsVal.undefined, false, none⟩).2.1.auth = none ∧
    (authHandler
      ⟨some "https://i/", none, none, Audience.one "api", none, some "RS256", 30000, 5000,
        600000, 5, none, false, []⟩ (some false) ⟨none, none, none, none⟩
      ⟨0, Except.error "unused", fun _ => Except.error "unused"⟩
      ⟨[], JsVal.undefined, JsVal.undefined, false, none⟩).2.2 = none :=
  (authHandler_policy
    ⟨some "https://i/", none, none, Audience.one "api", none, some "RS256", 30000, 5000,
      600000, 5, none, false, []⟩ (some false) ⟨none, none, none, none⟩
    ⟨0, Except.error "unused", fun _ => Except.error "unused"⟩
    ⟨[], JsVal.undefined, JsVal.undefined, false, none⟩).2.1 rfl rfl rfl

/-! ## Theorems: the errors and their headers -/

/-- C16 (as stated) fails: on a request with no token source `getToken` raises the
plain `UnauthorizedError`, whose status is 401 and which has no code, not a 400
`invalid_request` error. -/
theorem getToken_missing_is_401 :
    nonEmptySources [] JsVal.undefined JsVal.undefined false = [] ∧
    getToken [] JsVal.undefined JsVal.undefined false =
      Except.error (AuthError.unauthorized "Unauthorized") ∧
    (AuthError.unauthorized "Unauthorized").status = 401 ∧
    (AuthError.unauthorized "Unauthorized").code = none := by
  decide

/-- C16 (amended). For every request with no token source the error `getToken` raises
is the plain `UnauthorizedError`: status 401, no code, and the bare challenge
`Bearer realm="api"`; for every request with two or more token sources the error has
status 400 and code `invalid_request`. -/
theorem getToken_error_status (headers : Obj) (query body : JsVal) (urlEncoded : Bool) :
    (nonEmptySources headers query body urlEncoded = [] →
      ∃ e, getToken headers query body urlEncoded = Except.error e ∧
        e.status = 401 ∧ e.code = none ∧ e.wwwAuthenticate = "Bearer realm=\"api\"") ∧
    (2 ≤ (nonEmptySources headers query body urlEncoded).length →
      ∃ e, getToken headers query body urlEncoded = Except.error e ∧
        e.status = 400 ∧ e.code = some "invalid_request") :=
  ⟨fun h => ⟨_, getToken_missing_of_no_source headers query body urlEncoded h, rfl, rfl, rfl⟩,
   fun h => ⟨_, getToken_ambiguous_of_sources headers query body urlEncoded h, rfl, rfl⟩⟩

/-- C16 (amended) at a request that carries a token both in the header and in the
query: status 400 and code `invalid_request`. -/
theorem getToken_error_status_witness :
    ∃ e, getToken [("authorization", JsVal.str "Bearer abc")]
        (JsVal.obj [("access_token", JsVal.str "xyz")]) JsVal.undefined false =
        Except.error e ∧
      e.status = 400 ∧ e.code = some "invalid_request" :=
  (getToken_error_status [("authorization", JsVal.str "Bearer abc")]
    (JsVal.obj [("access_token", JsVal.str "xyz")]) JsVal.undefined false).2 (by decide)

theorem intercalate_go_eq (acc b : String) (rest : List String) :
    String.intercalate.go acc " " (b :: rest) = acc ++ " " ++ joinScopes (b :: rest) := by
  induction rest generalizing acc b with
  | nil => rfl
  | cons c r ih =>
    show String.intercalate.go (acc ++ " " ++ b) " " (c :: r) = _
    rw [ih]
    show acc ++ " " ++ b ++ " " ++ joinScopes (c :: r) =
      acc ++ " " ++ (b ++ " " ++ joinScopes (c :: r))
    simp only [String.append_assoc]

theorem joinScopes_eq_intercalate (scopes : List String) :
    joinScopes scopes = " ".intercalate scopes := by
  cases scopes with
  | nil => rfl
  | cons a rest =>
    cases rest with
    | nil => rfl
    | cons b r =>
      show a ++ " " ++ joinScopes (b :: r) = String.intercalate.go a " " (b :: r)
      rw [intercalate_go_eq]

theorem escapeQuotes_no_quote (m : String) : '"' ∉ (escapeQuotes m).toList := by
  unfold escapeQuotes
  show '"' ∉ m.toList.map (fun c => if c == '"' then Char.ofNat 39 else c)
  intro h
  obtain ⟨c, _, hc⟩ := List.mem_map.mp h
  by_cases hq : c = '"'
  · subst hq
    revert hc
    decide
  · have : (c == '"') = false := by simpa using hq
    rw [this] at hc
    exact hq hc

/-- C17. The `WWW-Authenticate` header of every error has the stated form: the
generic `UnauthorizedError` has exactly `Bearer realm="api"`; an error with code `c`
and message `m` has `Bearer realm="api", error="c", error_description="m*"`, where
`m*` is `m` with every double quote replaced by a single quote, so that it contains
no double quote; and an `InsufficientScopeError` built with a scope list has the same
followed by `, scope="..."` with the scopes joined by single spaces, the scope part
being present exactly when a scope list is given. -/
theorem wwwAuthenticate_form (m : String) (scopes : List String) :
    (AuthError.unauthorized m).wwwAuthenticate = "Bearer realm=\"api\"" ∧
    (AuthError.invalidRequest m).wwwAuthenticate =
      "Bearer realm=\"api\", error=\"invalid_request\", error_description=\"" ++
        escapeQuotes m ++ "\"" ∧
    (AuthError.invalidToken m).wwwAuthenticate =
      "Bearer realm=\"api\", error=\"invalid_token\", error_description=\"" ++
        escapeQuotes m ++ "\"" ∧
    (AuthError.insufficientScope none m).wwwAuthenticate =
      "Bearer realm=\"api\", error=\"insufficient_scope\", error_description=\"" ++
        escapeQuotes m ++ "\"" ∧
    (AuthError.insufficientScope (some scopes) m).wwwAuthenticate =
      "Bearer realm=\"api\", error=\"insufficient_scope\", error_description=\"" ++
        escapeQuotes m ++ "\"" ++ ", scope=\"" ++ " ".intercalate scopes ++ "\"" ∧
    (AuthError.invalidRequest m).code = some "invalid_request" ∧
    (AuthError.invalidToken m).code = some "invalid_token" ∧
    (AuthError.insufficientScope (some scopes) m).code = some "insufficient_scope" ∧
    (escapeQuotes m).toList =
      m.toList.map (fun c => if c = '"' then Char.ofNat 39 else c) ∧
    '"' ∉ (escapeQuotes m).toList := by
  refine ⟨rfl, ?_, ?_, ?_, ?_, rfl, rfl, rfl, ?_, escapeQuotes_no_quote m⟩
  · simp only [AuthError.wwwAuthenticate, getHeaders, String.append_assoc,
      String.append_empty]
    rfl
  · simp only [AuthError.wwwAuthenticate, getHeaders, String.append_assoc,
      String.append_empty]
    rfl
  · simp only [AuthError.wwwAuthenticate, getHeaders, String.append_assoc,
      String.append_empty]
    rfl
  · rw [← joinScopes_eq_intercalate]
    simp only [AuthError.wwwAuthenticate, getHeaders, String.append_assoc,
      String.append_empty]
    rfl
  · unfold escapeQuotes
    show m.toList.map _ = m.toList.map _
    apply List.map_congr_left
    intro c _
    by_cases hq : c = '"' <;> simp [hq]

/-! ## Theorems: the memoized metadata resolver -/

theorem resolve_discovery (s : DiscoveryState) (p : Nat) (d : Metadata) :
    (s.resolve p d).discovery = s.discovery ∧ (s.resolve p d).timestamp = s.timestamp ∧
      (s.resolve p d).fetches.length = s.fetches.length := by
  unfold DiscoveryState.resolve
  split
  · exact ⟨rfl, rfl, by simp⟩
  · exact ⟨rfl, rfl, rfl⟩

theorem fail_length (s : DiscoveryState) (p : Nat) (m : String) :
    (s.fail p m).fetches.length = s.fetches.length ∧ (s.fail p m).timestamp = s.timestamp := by
  unfold DiscoveryState.fail
  split
  · exact ⟨by simp, rfl⟩
  · exact ⟨rfl, rfl⟩

theorem fail_discovery_of_none (s : DiscoveryState) (p : Nat) (m : String)
    (h : s.discovery = none) : (s.fail p m).discovery = none := by
  unfold DiscoveryState.fail
  split
  · rfl
  · exact h

theorem getDiscovery_fetch (cacheMaxAge : Nat) (s : DiscoveryState) (t : Nat)
    (h : s.discovery = none ∨ t > s.timestamp + cacheMaxAge) :
    getDiscovery cacheMaxAge s t = (s.startFetch t, s.fetches.length) := by
  unfold getDiscovery
  cases hd : s.discovery with
  | none => rfl
  | some p =>
    rcases h with h | h
    · rw [hd] at h; exact absurd h (by simp)
    · simp only [h, if_true]

theorem getDiscovery_cached (cacheMaxAge : Nat) (s : DiscoveryState) (t p : Nat)
    (hd : s.discovery = some p) (h : t ≤ s.timestamp + cacheMaxAge) :
    getDiscovery cacheMaxAge s t = (s, p) := by
  unfold getDiscovery
  rw [hd]
  have : ¬ t > s.timestamp + cacheMaxAge := by omega
  simp only [this, if_false]

/-- Events that settle fetches only (no call of the resolver, no failure). -/
theorem run_resolves (cacheMaxAge : Nat) (s : DiscoveryState) (es : List DiscoveryEvent)
    (h : ∀ e ∈ es, e.isCall = false ∧ e.isFail = false) :
    (DiscoveryState.run cacheMaxAge s es).discovery = s.discovery ∧
    (DiscoveryState.run cacheMaxAge s es).timestamp = s.timestamp ∧
    (DiscoveryState.run cacheMaxAge s es).fetches.length = s.fetches.length := by
  induction es generalizing s with
  | nil => exact ⟨rfl, rfl, rfl⟩
  | cons e rest ih =>
    have he := h e (List.mem_cons_self _ _)
    have hrest := ih (s.step cacheMaxAge e) (fun x hx => h x (List.mem_cons_of_mem _ hx))
    cases e with
    | call t => exact absurd he.1 (by simp [DiscoveryEvent.isCall])
    | fail p m => exact absurd he.2 (by simp [DiscoveryEvent.isFail])
    | resolve p d =>
      obtain ⟨h1, h2, h3⟩ := resolve_discovery s p d
      show (DiscoveryState.run cacheMaxAge (s.resolve p d) rest).discovery = _ ∧ _
      have hrest' : (DiscoveryState.run cacheMaxAge (s.resolve p d) rest).discovery =
          (s.resolve p d).discovery ∧
          (DiscoveryState.run cacheMaxAge (s.resolve p d) rest).timestamp =
            (s.resolve p d).timestamp ∧
          (DiscoveryState.run cacheMaxAge (s.resolve p d) rest).fetches.length =
            (s.resolve p d).fetches.length := hrest
      rw [h1, h2, h3] at hrest'
      exact hrest'

/-- C18. A call of the resolver at time `t` starts a new `discover` fetch iff there
is no cached outcome or `t > timestamp + cacheMaxAge`. Hence, when no fetch fails, a
call at `t1` that starts a fetch (the first call of a verifier, or the first call
after expiry) followed by a call at `t2` with `t1 ≤ t2 ≤ t1 + cacheMaxAge` cause
exactly one fetch between them, and both return the same promise. -/
theorem getDiscovery_fetches_iff (cacheMaxAge : Nat) (s : DiscoveryState) (t1 t2 : Nat)
    (es : List DiscoveryEvent) :
    ((getDiscovery cacheMaxAge s t1).1.fetches = s.fetches ++ [FetchStatus.pending] ↔
      (s.discovery = none ∨ t1 > s.timestamp + cacheMaxAge)) ∧
    (¬ (s.discovery = none ∨ t1 > s.timestamp + cacheMaxAge) →
      (getDiscovery cacheMaxAge s t1).1 = s ∧
      s.discovery = some (getDiscovery cacheMaxAge s t1).2) ∧
    ((s.discovery = none ∨ t1 > s.timestamp + cacheMaxAge) →
      (∀ e ∈ es, e.isCall = false ∧ e.isFail = false) → t1 ≤ t2 → t2 ≤ t1 + cacheMaxAge →
      (getDiscovery cacheMaxAge
          (DiscoveryState.run cacheMaxAge (getDiscovery cacheMaxAge s t1).1 es) t2).2 =
        (getDiscovery cacheMaxAge s t1).2 ∧
      (getDiscovery cacheMaxAge
          (DiscoveryState.run cacheMaxAge (getDiscovery cacheMaxAge s t1).1 es) t2).1 =
        DiscoveryState.run cacheMaxAge (getDiscovery cacheMaxAge s t1).1 es ∧
      (getDiscovery cacheMaxAge
          (DiscoveryState.run cacheMaxAge (getDiscovery cacheMaxAge s t1).1 es)
          t2).1.fetches.length = s.fetches.length + 1) := by
  have hcached : ¬ (s.discovery = none ∨ t1 > s.timestamp + cacheMaxAge) →
      (getDiscovery cacheMaxAge s t1).1 = s ∧
      s.discovery = some (getDiscovery cacheMaxAge s t1).2 := by
    intro h
    rw [not_or] at h
    cases hd : s.discovery with
    | none => exact absurd hd h.1
    | some p =>
      rw [getDiscovery_cached cacheMaxAge s t1 p hd (by omega)]
      exact ⟨rfl, rfl⟩
  refine ⟨?_, hcached, ?_⟩
  · constructor
    · intro h
      by_contra hn
      rw [(hcached hn).1] at h
      have := congrArg List.length h
      simp at this
    · intro h
      rw [getDiscovery_fetch cacheMaxAge s t1 h]
      rfl
  · intro h hes _ h2
    rw [getDiscovery_fetch cacheMaxAge s t1 h]
    obtain ⟨hd, hts, hlen⟩ := run_resolves cacheMaxAge (s.startFetch t1) es hes
    have hd' : (DiscoveryState.run cacheMaxAge (s.startFetch t1) es).discovery =
        some s.fetches.length := hd
    have hts' : (DiscoveryState.run cacheMaxAge (s.startFetch t1) es).timestamp = t1 := hts
    rw [getDiscovery_cached cacheMaxAge _ t2 s.fetches.length hd' (by rw [hts']; exact h2)]
    refine ⟨rfl, rfl, ?_⟩
    rw [hlen]
    simp [DiscoveryState.startFetch]

/-- C18 at a new resolver with the default `cacheMaxAge`: a call at 1000 ms, the fetch
resolving, and a call at 2000 ms return the same promise, with one fetch made. -/
theorem getDiscovery_fetches_iff_witness :
    (getDiscovery 600000
        (DiscoveryState.run 600000 (getDiscovery 600000 DiscoveryState.initial 1000).1
          [DiscoveryEvent.resolve 0 ⟨"https://i/", some "https://i/jwks", none⟩]) 2000).2 =
      (getDiscovery 600000 DiscoveryState.initial 1000).2 ∧
    (getDiscovery 600000
        (DiscoveryState.run 600000 (getDiscovery 600000 DiscoveryState.initial 1000).1
          [DiscoveryEvent.resolve 0 ⟨"https://i/", some "https://i/jwks", none⟩]) 2000).1 =
      DiscoveryState.run 600000 (getDiscovery 600000 DiscoveryState.initial 1000).1
        [DiscoveryEvent.resolve 0 ⟨"https://i/", some "https://i/jwks", none⟩] ∧
    (getDiscovery 600000
        (DiscoveryState.run 600000 (getDiscovery 600000 DiscoveryState.initial 1000).1
          [DiscoveryEvent.resolve 0 ⟨"https://i/", some "https://i/jwks", none⟩])
        2000).1.fetches.length = DiscoveryState.initial.fetches.length + 1 :=
  (getDiscovery_fetches_iff 600000 DiscoveryState.initial 1000 2000
    [DiscoveryEvent.resolve 0 ⟨"https://i/", some "https://i/jwks", none⟩]).2.2
    (Or.inl rfl)
    (by
      intro e he
      rw [List.mem_singleton] at he
      subst he
      exact ⟨rfl, rfl⟩)
    (by decide) (by decide)

theorem countP_set_pending (l : List FetchStatus) (p : Nat) (x : FetchStatus)
    (hp : l[p]? = some FetchStatus.pending) (hx : x.isPending = false) :
    (l.set p x).countP FetchStatus.isPending + 1 = l.countP FetchStatus.isPending := by
  induction l generalizing p with
  | nil => simp at hp
  | cons a rest ih =>
    cases p with
    | zero =>
      simp only [List.getElem?_cons_zero, Option.some.injEq] at hp
      subst hp
      rw [List.set_cons_zero, List.countP_cons, List.countP_cons, hx]
      simp [FetchStatus.isPending]
    | succ q =>
      simp only [List.getElem?_cons_succ] at hp
      simp only [List.set_cons_succ, List.countP_cons]
      have := ih q hp
      omega

theorem inFlight_startFetch (s : DiscoveryState) (t : Nat) :
    (s.startFetch t).inFlight = s.inFlight + 1 ∧
    (s.startFetch t).discovery = some s.fetches.length ∧
    (s.startFetch t).fetches[s.fetches.length]? = some FetchStatus.pending := by
  refine ⟨?_, rfl, ?_⟩
  · simp [DiscoveryState.inFlight, DiscoveryState.startFetch, List.countP_append,
      FetchStatus.isPending]
  · simp [DiscoveryState.startFetch]

theorem singleFlight_call (cacheMaxAge : Nat) (s : DiscoveryState) (t : Nat)
    (hinv : s.singleFlight)
    (hc : s.inFlight = 0 ∨ t ≤ s.timestamp + cacheMaxAge) :
    (getDiscovery cacheMaxAge s t).1.singleFlight := by
  by_cases hf : s.discovery = none ∨ t > s.timestamp + cacheMaxAge
  · rw [getDiscovery_fetch cacheMaxAge s t hf]
    obtain ⟨h1, h2, h3⟩ := inFlight_startFetch s t
    have h0 : s.inFlight = 0 := by
      rcases hinv with h0 | ⟨_, p, hd, _⟩
      · exact h0
      · rcases hf with hf | hf
        · rw [hd] at hf; exact absurd hf (by simp)
        · rcases hc with hc | hc
          · exact hc
          · omega
    exact Or.inr ⟨by rw [h1, h0], _, h2, h3⟩
  · rw [not_or] at hf
    cases hd : s.discovery with
    | none => exact absurd hd hf.1
    | some p =>
      rw [getDiscovery_cached cacheMaxAge s t p hd (by omega)]
      exact hinv

theorem singleFlight_resolve (s : DiscoveryState) (p : Nat) (d : Metadata)
    (hinv : s.singleFlight) : (s.resolve p d).singleFlight := by
  unfold DiscoveryState.resolve
  split
  · rename_i hp
    left
    have := countP_set_pending s.fetches p (FetchStatus.fulfilled d) hp rfl
    have hs : s.inFlight = s.fetches.countP FetchStatus.isPending := rfl
    show (s.fetches.set p (FetchStatus.fulfilled d)).countP FetchStatus.isPending = 0
    rcases hinv with h0 | ⟨h1, _⟩ <;> omega
  · exact hinv

theorem singleFlight_fail (s : DiscoveryState) (p : Nat) (m : String)
    (hinv : s.singleFlight) : (s.fail p m).singleFlight := by
  unfold DiscoveryState.fail
  split
  · rename_i hp
    left
    have := countP_set_pending s.fetches p (FetchStatus.rejected m) hp rfl
    have hs : s.inFlight = s.fetches.countP FetchStatus.isPending := rfl
    show (s.fetches.set p (FetchStatus.rejected m)).countP FetchStatus.isPending = 0
    rcases hinv with h0 | ⟨h1, _⟩ <;> omega
  · exact hinv

theorem singleFlight_run (cacheMaxAge : Nat) (s : DiscoveryState)
    (es : List DiscoveryEvent) (hinv : s.singleFlight)
    (hw : DiscoveryState.callsWithinWindow cacheMaxAge s es = true) :
    (DiscoveryState.run cacheMaxAge s es).singleFlight := by
  induction es generalizing s with
  | nil => exact hinv
  | cons e rest ih =>
    cases e with
    | call t =>
      simp only [DiscoveryState.callsWithinWindow, Bool.and_eq_true, Bool.or_eq_true,
        decide_eq_true_eq] at hw
      exact ih _ (singleFlight_call cacheMaxAge s t hinv hw.1) hw.2
    | resolve p d =>
      simp only [DiscoveryState.callsWithinWindow] at hw
      exact ih _ (singleFlight_resolve s p d hinv) hw
    | fail p m =>
      simp only [DiscoveryState.callsWithinWindow] at hw
      exact ih _ (singleFlight_fail s p m hinv) hw

theorem run_calls_within_window (cacheMaxAge : Nat) (s : DiscoveryState) (p : Nat)
    (ts : List Nat) (hd : s.discovery = some p)
    (hts : ∀ t ∈ ts, t ≤ s.timestamp + cacheMaxAge) :
    DiscoveryState.run cacheMaxAge s (ts.map DiscoveryEvent.call) = s ∧
    DiscoveryState.returned cacheMaxAge s (ts.map DiscoveryEvent.call) =
      List.replicate ts.length p := by
  induction ts with
  | nil => exact ⟨rfl, rfl⟩
  | cons t rest ih =>
    have ht := getDiscovery_cached cacheMaxAge s t p hd (hts t (List.mem_cons_self _ _))
    obtain ⟨h1, h2⟩ := ih (fun x hx => hts x (List.mem_cons_of_mem _ hx))
    constructor
    · show DiscoveryState.run cacheMaxAge (getDiscovery cacheMaxAge s t).1
        (rest.map DiscoveryEvent.call) = s
      rw [ht]
      exact h1
    · show (getDiscovery cacheMaxAge s t).2 ::
        DiscoveryState.returned cacheMaxAge (getDiscovery cacheMaxAge s t).1
          (rest.map DiscoveryEvent.call) = p :: List.replicate rest.length p
      rw [ht]
      simp only [h2]

/-- C19 (as stated) fails: with `cacheMaxAge = 0` a call at 1 ms starts a fetch and a
call at 2 ms, made while that fetch is still pending, starts a second one and gets
another promise; the same happens with the default `cacheMaxAge` of 600000 ms for a
call 600001 ms after a fetch that is still pending. Two fetches are in flight. -/
theorem discovery_two_fetches_in_flight :
    (DiscoveryState.run 0 DiscoveryState.initial
      [DiscoveryEvent.call 1, DiscoveryEvent.call 2]).inFlight = 2 ∧
    DiscoveryState.returned 0 DiscoveryState.initial
      [DiscoveryEvent.call 1, DiscoveryEvent.call 2] = [0, 1] ∧
    (DiscoveryState.run 600000 DiscoveryState.initial
      [DiscoveryEvent.call 1000, DiscoveryEvent.call 601001]).inFlight = 2 := by
  decide

/-- C19 (amended). While the resolver holds a pending fetch, `N` calls made no later
than `cacheMaxAge` after the start of that fetch start no further fetch and all
receive the promise of that one fetch. And in every state reached from a new resolver
by calls, fetches resolving and fetches failing, in which every call that finds a
fetch in flight comes no later than `cacheMaxAge` after its start, at most one fetch
is in flight. -/
theorem discovery_shares_pending_fetch (cacheMaxAge : Nat) (s : DiscoveryState) (p : Nat)
    (ts : List Nat) (es : List DiscoveryEvent) :
    (s.discovery = some p → s.fetches[p]? = some FetchStatus.pending →
      (∀ t ∈ ts, t ≤ s.timestamp + cacheMaxAge) →
      DiscoveryState.run cacheMaxAge s (ts.map DiscoveryEvent.call) = s ∧
      DiscoveryState.returned cacheMaxAge s (ts.map DiscoveryEvent.call) =
        List.replicate ts.length p ∧
      (DiscoveryState.run cacheMaxAge s (ts.map DiscoveryEvent.call)).fetches[p]? =
        some FetchStatus.pending) ∧
    (DiscoveryState.callsWithinWindow cacheMaxAge DiscoveryState.initial es = true →
      (DiscoveryState.run cacheMaxAge DiscoveryState.initial es).inFlight ≤ 1) := by
  constructor
  · intro hd hp hts
    obtain ⟨h1, h2⟩ := run_calls_within_window cacheMaxAge s p ts hd hts
    refine ⟨h1, h2, ?_⟩
    rw [h1]
    exact hp
  · intro hw
    have hinit : DiscoveryState.initial.singleFlight := Or.inl rfl
    have := singleFlight_run cacheMaxAge DiscoveryState.initial es hinit hw
    rcases this with h | ⟨h, _⟩ <;> omega

/-- C19 (amended) at a resolver with the default `cacheMaxAge` whose fetch started at
1000 ms is pending: three calls at 1000, 2000 and 3000 ms all get that promise. -/
theorem discovery_shares_pending_fetch_witness :
    DiscoveryState.returned 600000 ⟨[FetchStatus.pending], some 0, 1000⟩
      ([1000, 2000, 3000].map DiscoveryEvent.call) = [0, 0, 0] ∧
    (DiscoveryState.run 600000 DiscoveryState.initial
      [DiscoveryEvent.call 1000, DiscoveryEvent.call 2000,
        DiscoveryEvent.fail 0 "Failed to fetch authorization server metadata",
        DiscoveryEvent.call 3000]).inFlight ≤ 1 :=
  ⟨((discovery_shares_pending_fetch 600000 ⟨[FetchStatus.pending], some 0, 1000⟩ 0
      [1000, 2000, 3000] []).1 rfl rfl (by decide)).2.1,
   (discovery_shares_pending_fetch 600000 ⟨[FetchStatus.pending], some 0, 1000⟩ 0 []
      [DiscoveryEvent.call 1000, DiscoveryEvent.call 2000,
        DiscoveryEvent.fail 0 "Failed to fetch authorization server metadata",
        DiscoveryEvent.call 3000]).2 (by decide)⟩

theorem run_settles_discovery_none (cacheMaxAge : Nat) (s : DiscoveryState)
    (es : List DiscoveryEvent) (hd : s.discovery = none)
    (hes : ∀ e ∈ es, e.isCall = false) :
    (DiscoveryState.run cacheMaxAge s es).discovery = none ∧
    s.fetches.length = (DiscoveryState.run cacheMaxAge s es).fetches.length := by
  induction es generalizing s with
  | nil => exact ⟨hd, rfl⟩
  | cons e rest ih =>
    have he := hes e (List.mem_cons_self _ _)
    have hrest : ∀ x ∈ rest, x.isCall = false := fun x hx => hes x (List.mem_cons_of_mem _ hx)
    cases e with
    | call t => exact absurd he (by simp [DiscoveryEvent.isCall])
    | resolve p d =>
      obtain ⟨h1, _, h3⟩ := resolve_discovery s p d
      obtain ⟨g1, g2⟩ := ih (s.resolve p d) (by rw [h1]; exact hd) hrest
      exact ⟨g1, by rw [← h3]; exact g2⟩
    | fail p m =>
      obtain ⟨g1, g2⟩ := ih (s.fail p m) (fail_discovery_of_none s p m hd) hrest
      exact ⟨g1, by rw [← (fail_length s p m).1]; exact g2⟩

/-- C20. A failed metadata fetch is never cached: once a pending fetch `p` has
failed, the resolver holds no promise, and the next call, at any time (also inside
the `cacheMaxAge` window of the failed fetch) and whatever other fetches settle in
between, starts a new fetch and returns its pending promise, not the failed one. -/
theorem failed_fetch_not_cached (cacheMaxAge : Nat) (s : DiscoveryState) (p : Nat)
    (m : String) (es : List DiscoveryEvent) (t : Nat)
    (hp : s.fetches[p]? = some FetchStatus.pending)
    (hes : ∀ e ∈ es, e.isCall = false) :
    (s.fail p m).discovery = none ∧
    (s.fail p m).fetches[p]? = some (FetchStatus.rejected m) ∧
    getDiscovery cacheMaxAge (DiscoveryState.run cacheMaxAge (s.fail p m) es) t =
      ((DiscoveryState.run cacheMaxAge (s.fail p m) es).startFetch t,
        (DiscoveryState.run cacheMaxAge (s.fail p m) es).fetches.length) ∧
    (getDiscovery cacheMaxAge (DiscoveryState.run cacheMaxAge (s.fail p m) es) t).2 ≠ p ∧
    (getDiscovery cacheMaxAge (DiscoveryState.run cacheMaxAge (s.fail p m) es) t).1.fetches[
      (getDiscovery cacheMaxAge (DiscoveryState.run cacheMaxAge (s.fail p m) es) t).2]? =
      some FetchStatus.pending := by
  have hlt : p < s.fetches.length := by
    by_contra hn
    rw [List.getElem?_eq_none (by omega)] at hp
    exact absurd hp (by simp)
  have hfd : (s.fail p m).discovery = none := by
    unfold DiscoveryState.fail
    rw [hp]
  have hfp : (s.fail p m).fetches[p]? = some (FetchStatus.rejected m) := by
    unfold DiscoveryState.fail
    rw [hp]
    simp [hlt]
  obtain ⟨hnone, hlen⟩ := run_settles_discovery_none cacheMaxAge (s.fail p m) es hfd hes
  have hcall := getDiscovery_fetch cacheMaxAge
    (DiscoveryState.run cacheMaxAge (s.fail p m) es) t (Or.inl hnone)
  refine ⟨hfd, hfp, hcall, ?_, ?_⟩
  · rw [hcall]
    show (DiscoveryState.run cacheMaxAge (s.fail p m) es).fetches.length ≠ p
    rw [← hlen, (fail_length s p m).1]
    omega
  · rw [hcall]
    exact (inFlight_startFetch _ t).2.2

/-- C20 at a resolver with the default `cacheMaxAge` whose fetch of 1000 ms fails: a
call at 1001 ms, well inside the window, starts the fetch number 1. -/
theorem failed_fetch_not_cached_witness :
    getDiscovery 600000
        (DiscoveryState.run 600000
          (DiscoveryState.fail ⟨[FetchStatus.pending], some 0, 1000⟩ 0 "timeout") []) 1001 =
      (DiscoveryState.startFetch
        (DiscoveryState.run 600000
          (DiscoveryState.fail ⟨[FetchStatus.pending], some 0, 1000⟩ 0 "timeout") []) 1001,
        1) :=
  (failed_fetch_not_cached 600000 ⟨[FetchStatus.pending], some 0, 1000⟩ 0 "timeout" [] 1001
    rfl (by simp)).2.2.1

/-! ## Theorems: metadata discovery -/

theorem candidateOk_iff (fetch : String → Except String JsVal) (path : String) :
    candidateOk fetch path = true ↔
      ∃ d, fetch path = Except.ok d ∧ assertIssuer d = Except.ok () := by
  unfold candidateOk
  cases hf : fetch path with
  | error m => simp
  | ok d =>
    cases ha : assertIssuer d with
    | error m => simp [ha]
    | ok u => simp [ha]

theorem tryCandidates_two (fetch : String → Except String JsVal) (c1 c2 : String) :
    tryCandidates fetch [c1, c2] =
      if candidateOk fetch c1 then (fetch c1, [c1])
      else if candidateOk fetch c2 then (fetch c2, [c1, c2])
      else (Except.error "Failed to fetch authorization server metadata", [c1, c2]) := by
  unfold candidateOk
  simp only [tryCandidates]
  cases h1 : fetch c1 with
  | ok d1 =>
    cases a1 : assertIssuer d1 with
    | ok u => simp [a1]
    | error m =>
      cases h2 : fetch c2 with
      | ok d2 =>
        cases a2 : assertIssuer d2 with
        | ok u => simp [a1, a2]
        | error m2 => simp [a1, a2]
      | error m2 => simp [a1]
  | error m =>
    cases h2 : fetch c2 with
    | ok d2 =>
      cases a2 : assertIssuer d2 with
      | ok u => simp [a2]
      | error m2 => simp [a2]
    | error m2 => simp

theorem assertIssuer_ok_iff (d : JsVal) :
    assertIssuer d = Except.ok () ↔ (d.prop "issuer").truthy = true := by
  cases d <;> simp [assertIssuer, JsVal.prop, JsVal.truthy]

/-- C21. For a base URL whose path holds no well-known segment and every behaviour
of the fetch collaborator, `discover` tries the OIDC-configuration candidate first and
the OAuth2-authorization-server candidate second. It returns the first candidate's
document iff that fetch succeeds with a document whose issuer is truthy, and then
fetches nothing else; otherwise (whatever fails on the first) it returns the second
candidate's document iff that one succeeds with an issuer; it fails with "Failed to
fetch authorization server metadata" iff both candidates fail. -/
theorem discover_tries_oidc_then_oauth2 (fetch : String → Except String JsVal)
    (pathname : String)
    (hwk : includesChars "/.well-known/".toList pathname.toList = false) :
    (candidateOk fetch (oidcCandidate pathname) = true →
      discover fetch pathname = (fetch (oidcCandidate pathname), [oidcCandidate pathname])) ∧
    (candidateOk fetch (oidcCandidate pathname) = false →
      candidateOk fetch (oauth2Candidate pathname) = true →
      discover fetch pathname =
        (fetch (oauth2Candidate pathname), [oidcCandidate pathname, oauth2Candidate pathname])) ∧
    (∀ d, ((discover fetch pathname).1 = Except.ok d ∧
        (discover fetch pathname).2 = [oidcCandidate pathname]) ↔
      (fetch (oidcCandidate pathname) = Except.ok d ∧ (d.prop "issuer").truthy = true)) ∧
    (∀ d, ((discover fetch pathname).1 = Except.ok d ∧
        (discover fetch pathname).2 = [oidcCandidate pathname, oauth2Candidate pathname]) ↔
      (candidateOk fetch (oidcCandidate pathname) = false ∧
        fetch (oauth2Candidate pathname) = Except.ok d ∧ (d.prop "issuer").truthy = true)) ∧
    ((discover fetch pathname).1 =
        Except.error "Failed to fetch authorization server metadata" ↔
      (candidateOk fetch (oidcCandidate pathname) = false ∧
        candidateOk fetch (oauth2Candidate pathname) = false)) ∧
    (∀ path, candidateOk fetch path = true ↔
      ∃ d, fetch path = Except.ok d ∧ (d.prop "issuer").truthy = true) := by
  have hd : discover fetch pathname =
      if candidateOk fetch (oidcCandidate pathname) then
        (fetch (oidcCandidate pathname), [oidcCandidate pathname])
      else if candidateOk fetch (oauth2Candidate pathname) then
        (fetch (oauth2Candidate pathname), [oidcCandidate pathname, oauth2Candidate pathname])
      else (Except.error "Failed to fetch authorization server metadata",
        [oidcCandidate pathname, oauth2Candidate pathname]) := by
    unfold discover
    rw [hwk]
    simp only [Bool.false_eq_true, if_false, discoveryPathnames]
    exact tryCandidates_two fetch _ _
  have hok : ∀ path, candidateOk fetch path = true ↔
      ∃ d, fetch path = Except.ok d ∧ (d.prop "issuer").truthy = true := by
    intro path
    rw [candidateOk_iff]
    constructor
    · rintro ⟨d, h1, h2⟩
      exact ⟨d, h1, (assertIssuer_ok_iff d).mp h2⟩
    · rintro ⟨d, h1, h2⟩
      exact ⟨d, h1, (assertIssuer_ok_iff d).mpr h2⟩
  refine ⟨?_, ?_, ?_, ?_, ?_, hok⟩
  · intro h1
    rw [hd, if_pos h1]
  · intro h1 h2
    rw [hd, h1, if_pos h2]
    simp
  · intro d
    rw [hd]
    cases h1 : candidateOk fetch (oidcCandidate pathname)
    · have hne : ¬ ∃ d, fetch (oidcCandidate pathname) = Except.ok d ∧
          (d.prop "issuer").truthy = true := by
        rw [← hok, h1]; simp
      cases h2 : candidateOk fetch (oauth2Candidate pathname)
      · simp only [Bool.false_eq_true, if_false]
        constructor
        · rintro ⟨h, _⟩
          simp at h
        · intro h
          exact absurd ⟨d, h⟩ hne
      · simp only [Bool.false_eq_true, if_false, if_true]
        constructor
        · rintro ⟨_, h⟩
          simp at h
        · intro h
          exact absurd ⟨d, h⟩ hne
    · simp only [if_true]
      obtain ⟨d', hf, ht⟩ := (hok _).mp h1
      constructor
      · rintro ⟨h, _⟩
        rw [hf] at h
        simp only [Except.ok.injEq] at h
        subst h
        exact ⟨hf, ht⟩
      · rintro ⟨h, _⟩
        exact ⟨h, trivial⟩
  · intro d
    rw [hd]
    cases h1 : candidateOk fetch (oidcCandidate pathname)
    · cases h2 : candidateOk fetch (oauth2Candidate pathname)
      · have hne : ¬ ∃ d, fetch (oauth2Candidate pathname) = Except.ok d ∧
            (d.prop "issuer").truthy = true := by
          rw [← hok, h2]; simp
        simp only [Bool.false_eq_true, if_false, true_and]
        constructor
        · rintro ⟨h, _⟩
          simp at h
        · intro h
          exact absurd ⟨d, h⟩ hne
      · simp only [Bool.false_eq_true, if_false, if_true, true_and, and_true]
        obtain ⟨d', hf, ht⟩ := (hok _).mp h2
        constructor
        · intro h
          rw [hf] at h
          simp only [Except.ok.injEq] at h
          subst h
          exact ⟨hf, ht⟩
        · rintro ⟨h, _⟩
          exact h
    · simp only [if_true, Bool.true_eq_false, false_and, iff_false, not_and]
      intro _ h
      simp at h
  · rw [hd]
    cases h1 : candidateOk fetch (oidcCandidate pathname)
    · cases h2 : candidateOk fetch (oauth2Candidate pathname)
      · simp
      · obtain ⟨d', hf, _⟩ := (hok _).mp h2
        simp [hf]
    · obtain ⟨d', hf, _⟩ := (hok _).mp h1
      simp [hf]

/-- C21 at the base path `/` with a server that answers 404 on the OIDC path and
serves a document with an issuer on the OAuth2 path: the second document is returned
after both paths were fetched, in that order. -/
theorem discover_tries_oidc_then_oauth2_witness :
    discover
      (fun path =>
        if path == "/.well-known/oauth-authorization-server" then
          Except.ok (JsVal.obj [("issuer", JsVal.str "https://i/")])
        else Except.error "Failed to fetch, responded with 404") "/" =
      (Except.ok (JsVal.obj [("issuer", JsVal.str "https://i/")]),
        ["/.well-known/openid-configuration", "/.well-known/oauth-authorization-server"]) :=
  (discover_tries_oidc_then_oauth2
    (fun path =>
      if path == "/.well-known/oauth-authorization-server" then
        Except.ok (JsVal.obj [("issuer", JsVal.str "https://i/")])
      else Except.error "Failed to fetch, responded with 404") "/" (by decide)).2.1
    (by decide) (by decide)

/-! ## Theorems: the key provider -/

theorem run_secret (validUrl : String → Bool) (secret : Option String) (s : KeyState)
    (uris : List (Option String)) (hs : strTruthy secret = true) :
    KeyState.run validUrl secret s uris =
      (s, uris.map (fun _ => Except.ok (KeyFn.secret (secret.getD "")))) := by
  induction uris with
  | nil => rfl
  | cons u rest ih =>
    have hcall : getKeyFn validUrl secret s u =
        (s, Except.ok (KeyFn.secret (secret.getD ""))) := by
      simp [getKeyFn, hs]
    show ((KeyState.run validUrl secret (getKeyFn validUrl secret s u).1 rest).1,
      (getKeyFn validUrl secret s u).2 ::
        (KeyState.run validUrl secret (getKeyFn validUrl secret s u).1 rest).2) = _
    rw [hcall]
    simp only [ih, List.map_cons]

theorem getKeyFn_valid (validUrl : String → Bool) (secret : Option String) (s : KeyState)
    (u : String) (hs : strTruthy secret = false) (hu : validUrl u = true) :
    (getKeyFn validUrl secret s (some u) =
        (⟨some s.built.length, some u, s.built ++ [u]⟩,
          Except.ok (KeyFn.remote s.built.length)) ∧
      (s.getKeyFn = none ∨ s.prevjwksUri ≠ some u)) ∨
    (∃ id, getKeyFn validUrl secret s (some u) = (s, Except.ok (KeyFn.remote id)) ∧
      s.getKeyFn = some id ∧ s.prevjwksUri = some u) := by
  unfold getKeyFn
  simp only [hs, Bool.false_eq_true, if_false]
  cases hg : s.getKeyFn with
  | none =>
    left
    simp [KeyState.build, hu]
  | some id =>
    by_cases hp : s.prevjwksUri = some u
    · right
      exact ⟨id, by simp [hp], rfl, hp⟩
    · left
      have : (s.prevjwksUri != some u) = true := by simpa using hp
      simp [this, KeyState.build, hu, hp]

/-- After a non-empty sequence of calls with URIs that parse, the provider holds the
resolver its last call returned and remembers the last URI. -/
theorem run_valid_last (validUrl : String → Bool) (secret : Option String)
    (hs : strTruthy secret = false) (u : String) (us : List String) (s : KeyState)
    (hv : ∀ x ∈ u :: us, validUrl x = true) :
    ∃ id, (KeyState.run validUrl secret s ((u :: us).map some)).1.getKeyFn = some id ∧
      (KeyState.run validUrl secret s ((u :: us).map some)).1.prevjwksUri =
        (u :: us).getLast? ∧
      (KeyState.run validUrl secret s ((u :: us).map some)).2.getLast? =
        some (Except.ok (KeyFn.remote id)) := by
  induction us generalizing s u with
  | nil =>
    show ∃ id, (getKeyFn validUrl secret s (some u)).1.getKeyFn = some id ∧
      (getKeyFn validUrl secret s (some u)).1.prevjwksUri = some u ∧
      [(getKeyFn validUrl secret s (some u)).2].getLast? = some (Except.ok (KeyFn.remote id))
    rcases getKeyFn_valid validUrl secret s u hs (hv u (List.mem_cons_self _ _)) with
      ⟨h, _⟩ | ⟨id, h, hg, hp⟩
    · rw [h]
      exact ⟨_, rfl, rfl, rfl⟩
    · rw [h]
      exact ⟨id, hg, hp, rfl⟩
  | cons u' rest ih =>
    obtain ⟨id, h1, h2, h3⟩ := ih u' (getKeyFn validUrl secret s (some u)).1
      (fun x hx => hv x (List.mem_cons_of_mem _ hx))
    refine ⟨id, h1, ?_, ?_⟩
    · rw [List.getLast?_cons_cons]
      exact h2
    · show ((getKeyFn validUrl secret s (some u)).2 ::
        (KeyState.run validUrl secret (getKeyFn validUrl secret s (some u)).1
          ((u' :: rest).map some)).2).getLast? = _
      have hne : (KeyState.run validUrl secret (getKeyFn validUrl secret s (some u)).1
          ((u' :: rest).map some)).2 ≠ [] := by
        intro hnil
        rw [hnil] at h3
        simp at h3
      obtain ⟨a, l, hl⟩ := List.exists_cons_of_ne_nil hne
      rw [hl] at h3 ⊢
      rw [List.getLast?_cons_cons]
      exact h3

/-- C22. For every sequence of key-set URIs passed to one key provider: with a
shared secret configured every call returns the constant resolver of the same secret
key and leaves the provider as it was, so no remote resolver is ever built; without
one (the URIs being URLs that parse) a new remote resolver is built on a call iff it
is the first call or its URI differs from the URI of the previous call, and a call
with the same URI as the previous call returns the resolver that call returned. -/
theorem getKeyFn_rebuilds_iff_uri_changes (validUrl : String → Bool)
    (secret : Option String) (s : KeyState) (uris : List (Option String))
    (us : List String) (u : String) :
    (strTruthy secret = true →
      KeyState.run validUrl secret s uris =
        (s, uris.map (fun _ => Except.ok (KeyFn.secret (secret.getD ""))))) ∧
    (strTruthy secret = false → (∀ x ∈ us, validUrl x = true) → validUrl u = true →
      (getKeyFn validUrl secret
          (KeyState.run validUrl secret KeyState.initial (us.map some)).1 (some u) =
        (⟨some (KeyState.run validUrl secret KeyState.initial (us.map some)).1.built.length,
            some u,
            (KeyState.run validUrl secret KeyState.initial (us.map some)).1.built ++ [u]⟩,
          Except.ok (KeyFn.remote
            (KeyState.run validUrl secret KeyState.initial (us.map some)).1.built.length)) ↔
        (us = [] ∨ us.getLast? ≠ some u)) ∧
      (us.getLast? = some u →
        (getKeyFn validUrl secret
            (KeyState.run validUrl secret KeyState.initial (us.map some)).1 (some u)).1 =
          (KeyState.run validUrl secret KeyState.initial (us.map some)).1 ∧
        some (getKeyFn validUrl secret
            (KeyState.run validUrl secret KeyState.initial (us.map some)).1 (some u)).2 =
          (KeyState.run validUrl secret KeyState.initial (us.map some)).2.getLast?)) := by
  refine ⟨fun hs => run_secret validUrl secret s uris hs, ?_⟩
  intro hs hv hu
  have hcall := getKeyFn_valid validUrl secret
    (KeyState.run validUrl secret KeyState.initial (us.map some)).1 u hs hu
  have hsame : us.getLast? = some u →
      ∃ id, getKeyFn validUrl secret
          (KeyState.run validUrl secret KeyState.initial (us.map some)).1 (some u) =
          ((KeyState.run validUrl secret KeyState.initial (us.map some)).1,
            Except.ok (KeyFn.remote id)) ∧
        (KeyState.run validUrl secret KeyState.initial (us.map some)).2.getLast? =
          some (Except.ok (KeyFn.remote id)) := by
    intro hlast
    cases us with
    | nil => simp at hlast
    | cons a rest =>
      obtain ⟨id, h1, h2, h3⟩ := run_valid_last validUrl secret hs a rest KeyState.initial hv
      rcases hcall with ⟨_, hb⟩ | ⟨id', h, hg, _⟩
      · rcases hb with hb | hb
        · rw [h1] at hb; exact absurd hb (by simp)
        · rw [h2, hlast] at hb; exact absurd rfl hb
      · rw [h1] at hg
        simp only [Option.some.injEq] at hg
        subst hg
        exact ⟨id, h, h3⟩
  constructor
  · constructor
    · intro hbuild
      by_contra hn
      rw [not_or, not_not] at hn
      obtain ⟨id, h, _⟩ := hsame hn.2
      rw [h] at hbuild
      have := congrArg (fun r => r.1.built.length) hbuild
      simp at this
    · intro hfirst
      rcases hcall with ⟨h, _⟩ | ⟨id, _, hg, hp⟩
      · exact h
      · exfalso
        cases us with
        | nil =>
          have : (KeyState.run validUrl secret KeyState.initial ([].map some)).1.getKeyFn =
              none := rfl
          rw [this] at hg
          exact absurd hg (by simp)
        | cons a rest =>
          obtain ⟨_, _, h2, _⟩ :=
            run_valid_last validUrl secret hs a rest KeyState.initial hv
          rcases hfirst with hfirst | hfirst
          · exact absurd hfirst (by simp)
          · rw [h2] at hp
            exact hfirst hp
  · intro hlast
    obtain ⟨id, h, h3⟩ := hsame hlast
    rw [h, h3]
    exact ⟨rfl, rfl⟩

/-- C22 at a provider without a secret called twice with the same URI: the second
call builds nothing and returns the resolver of the first. -/
theorem getKeyFn_rebuilds_iff_uri_changes_witness :
    (getKeyFn (fun _ => true) none
        (KeyState.run (fun _ => true) none KeyState.initial
          (["https://i/jwks"].map some)).1 (some "https://i/jwks")).1 =
      (KeyState.run (fun _ => true) none KeyState.initial (["https://i/jwks"].map some)).1 ∧
    some (getKeyFn (fun _ => true) none
        (KeyState.run (fun _ => true) none KeyState.initial
          (["https://i/jwks"].map some)).1 (some "https://i/jwks")).2 =
      (KeyState.run (fun _ => true) none KeyState.initial
        (["https://i/jwks"].map some)).2.getLast? :=
  ((getKeyFn_rebuilds_iff_uri_changes (fun _ => true) none KeyState.initial []
    ["https://i/jwks"] "https://i/jwks").2 rfl (fun _ _ => rfl) rfl).2 rfl

/-! ## Theorems: what the first discovery fixes -/

theorem orElseFalsy_of_truthy (a b : Option String) (h : strTruthy a = true) :
    orElseFalsy a b = a := by
  simp [orElseFalsy, h]

theorem withValidators_fields (v : Verifier) (st : VerifierState) :
    (st.withValidators v).jwksUri = st.jwksUri ∧ (st.withValidators v).issuer = st.issuer := by
  unfold VerifierState.withValidators
  cases st.validators <;> exact ⟨rfl, rfl⟩

theorem verify_state_cases (v : Verifier) (st : VerifierState) (c : Call) (jwt : String) :
    (v.verify st c jwt).1 = st ∨
      (v.verify st c jwt).1 = st.withValidators v ∨
      ∃ d, (v.verify st c jwt).1 = (st.discoveredWith d).withValidators v := by
  have hstate : ∀ st1, v.afterDiscovery st c = Except.ok st1 →
      (v.verify st c jwt).1 = st1.withValidators v := by
    intro st1 h
    rw [verify_eq, h]
    simp only
    cases c.jwtVerify (st1.withValidators v).jwksUri with
    | error m => rfl
    | ok r =>
      obtain ⟨payload, header⟩ := r
      simp only
      cases validate c.clock payload header ((st1.withValidators v).validators.getD []) <;> rfl
  cases h : v.afterDiscovery st c with
  | error m =>
    left
    rw [verify_eq, h]
  | ok st1 =>
    rw [hstate st1 h]
    unfold Verifier.afterDiscovery at h
    by_cases hb : strTruthy v.issuerBaseURL = true
    · simp only [hb, if_true] at h
      cases hd : c.discovered with
      | error m => rw [hd] at h; exact absurd h (by simp)
      | ok d =>
        rw [hd] at h
        simp only [Except.ok.injEq] at h
        subst h
        exact Or.inr (Or.inr ⟨d, rfl⟩)
    · simp only [hb, if_false, Bool.false_eq_true, Except.ok.injEq] at h
      subst h
      exact Or.inr (Or.inl rfl)

theorem verify_keeps_truthy (v : Verifier) (st : VerifierState) (c : Call) (jwt : String) :
    (strTruthy st.issuer = true → (v.verify st c jwt).1.issuer = st.issuer) ∧
    (strTruthy st.jwksUri = true → (v.verify st c jwt).1.jwksUri = st.jwksUri) := by
  rcases verify_state_cases v st c jwt with h | h | ⟨d, h⟩
  · rw [h]; exact ⟨fun _ => rfl, fun _ => rfl⟩
  · rw [h]
    exact ⟨fun _ => (withValidators_fields v st).2, fun _ => (withValidators_fields v st).1⟩
  · rw [h]
    constructor
    · intro ht
      rw [(withValidators_fields v _).2]
      exact orElseFalsy_of_truthy _ _ ht
    · intro ht
      rw [(withValidators_fields v _).1]
      exact orElseFalsy_of_truthy _ _ ht

theorem run_keeps_truthy (v : Verifier) (st : VerifierState) (calls : List (Call × String)) :
    (strTruthy st.issuer = true → (v.run st calls).issuer = st.issuer) ∧
    (strTruthy st.jwksUri = true → (v.run st calls).jwksUri = st.jwksUri) := by
  induction calls generalizing st with
  | nil => exact ⟨fun _ => rfl, fun _ => rfl⟩
  | cons x rest ih =>
    obtain ⟨c, jwt⟩ := x
    obtain ⟨h1, h2⟩ := verify_keeps_truthy v st c jwt
    obtain ⟨g1, g2⟩ := ih (v.verify st c jwt).1
    constructor
    · intro ht
      show (v.run (v.verify st c jwt).1 rest).issuer = st.issuer
      rw [g1 (by rw [h1 ht]; exact ht), h1 ht]
    · intro ht
      show (v.run (v.verify st c jwt).1 rest).jwksUri = st.jwksUri
      rw [g2 (by rw [h2 ht]; exact ht), h2 ht]

/-- C23 (as stated) fails: when the first discovery document carries no `jwks_uri`
and none is configured, the key-set URI is not fixed by that call: the first call
asks the key provider for `undefined`, and a later call whose refreshed document
carries a `jwks_uri` asks for that one. -/
theorem jwksUri_taken_from_later_document :
    Verifier.jwksUriAsked
      ⟨some "https://i/", none, none, Audience.one "api", none, some "RS256", 30000, 5000,
        600000, 5, none, false, []⟩
      ⟨none, none, none, none⟩
      ⟨0, Except.ok ⟨"https://i/", none, none⟩, fun _ => Except.error "Invalid URL"⟩ =
      some none ∧
    Verifier.jwksUriAsked
      ⟨some "https://i/", none, none, Audience.one "api", none, some "RS256", 30000, 5000,
        600000, 5, none, false, []⟩
      (Verifier.verify
        ⟨some "https://i/", none, none, Audience.one "api", none, some "RS256", 30000, 5000,
          600000, 5, none, false, []⟩
        ⟨none, none, none, none⟩
        ⟨0, Except.ok ⟨"https://i/", none, none⟩, fun _ => Except.error "Invalid URL"⟩
        "a.b.c").1
      ⟨0, Except.ok ⟨"https://i/", some "https://i/jwks", none⟩,
        fun _ => Except.error "unused"⟩ =
      some (some "https://i/jwks") := by
  decide

/-- C23 (amended). Within one verifier instance with an `issuerBaseURL`, the first
verify call that completes discovery fixes the issuer (the configured one, else the
discovered one) and builds the validator set from it and from that document's
algorithm list; after every later sequence of calls, whatever their discovery
documents carry, the issuer and the validator set are the same, so the default `iss`
and `alg` validators compare against the values of that first call. The key-set URI
is fixed by that call when it is truthy after it (configured, or carried by the first
document): then every later call asks the key provider for that URI. -/
theorem first_discovery_fixes_validation (v : Verifier) (st : VerifierState) (c1 c : Call)
    (d1 : Metadata) (jwt1 : String) (calls : List (Call × String))
    (hbase : strTruthy v.issuerBaseURL = true) (hnone : st.validators = none)
    (hd : c1.discovered = Except.ok d1) (hiss : d1.issuer ≠ "") :
    (v.verify st c1 jwt1).1.issuer = orElseFalsy st.issuer (some d1.issuer) ∧
    (v.verify st c1 jwt1).1.validators =
      some (v.buildValidators (orElseFalsy st.issuer (some d1.issuer))
        d1.id_token_signing_alg_values_supported) ∧
    (v.run (v.verify st c1 jwt1).1 calls).issuer = (v.verify st c1 jwt1).1.issuer ∧
    (v.run (v.verify st c1 jwt1).1 calls).validators = (v.verify st c1 jwt1).1.validators ∧
    (Validators.get? v.customValidators "iss" = none →
      ∃ vs, (v.run (v.verify st c1 jwt1).1 calls).validators = some vs ∧
        Validators.get? vs "iss" = some (Validator.fn (fun _ iss _ _ =>
          Completion.value
            (iss.strictEq (optStr (orElseFalsy st.issuer (some d1.issuer))))))) ∧
    (Validators.get? v.customValidators "alg" = none →
      ∃ vs, (v.run (v.verify st c1 jwt1).1 calls).validators = some vs ∧
        Validators.get? vs "alg" = some (Validator.fn (fun _ alg _ _ =>
          Completion.value
            (algCheck d1.id_token_signing_alg_values_supported v.tokenSigningAlg alg)))) ∧
    (strTruthy (v.verify st c1 jwt1).1.jwksUri = true →
      (v.run (v.verify st c1 jwt1).1 calls).jwksUri = (v.verify st c1 jwt1).1.jwksUri ∧
      (v.jwksUriAsked (v.run (v.verify st c1 jwt1).1 calls) c = none ∨
        v.jwksUriAsked (v.run (v.verify st c1 jwt1).1 calls) c =
          some (v.verify st c1 jwt1).1.jwksUri)) := by
  have hafter : v.afterDiscovery st c1 = Except.ok (st.discoveredWith d1) := by
    simp [Verifier.afterDiscovery, hbase, hd]
  have hst1 : (v.verify st c1 jwt1).1 = (st.discoveredWith d1).withValidators v := by
    rw [verify_eq, hafter]
    simp only
    cases c1.jwtVerify ((st.discoveredWith d1).withValidators v).jwksUri with
    | error m => rfl
    | ok r =>
      obtain ⟨payload, header⟩ := r
      simp only
      cases validate c1.clock payload header
        (((st.discoveredWith d1).withValidators v).validators.getD []) <;> rfl
  have hissuer : (v.verify st c1 jwt1).1.issuer = orElseFalsy st.issuer (some d1.issuer) := by
    rw [hst1, (withValidators_fields v _).2]
    rfl
  have hvals : (v.verify st c1 jwt1).1.validators =
      some (v.buildValidators (orElseFalsy st.issuer (some d1.issuer))
        d1.id_token_signing_alg_values_supported) := by
    rw [hst1]
    unfold VerifierState.withValidators
    have : (st.discoveredWith d1).validators = none := hnone
    rw [this]
    rfl
  have htruthy : strTruthy (v.verify st c1 jwt1).1.issuer = true := by
    rw [hissuer]
    unfold orElseFalsy
    by_cases h : strTruthy st.issuer = true
    · rw [if_pos h]; exact h
    · rw [if_neg h]
      simpa [strTruthy] using hiss
  have hrunv := run_validators_of_some v (v.verify st c1 jwt1).1 calls _ hvals
  refine ⟨hissuer, hvals, (run_keeps_truthy v _ calls).1 htruthy, hrunv.trans hvals.symm,
    ?_, ?_, ?_⟩
  · intro hc
    refine ⟨_, hrunv, ?_⟩
    unfold Verifier.buildValidators
    rw [get?_spread_of_not_mem _ _ _ hc]
    simp [defaultValidators, get?_cons]
  · intro hc
    refine ⟨_, hrunv, ?_⟩
    unfold Verifier.buildValidators
    rw [get?_spread_of_not_mem _ _ _ hc]
    simp [defaultValidators, get?_cons]
  · intro hj
    have hrun := (run_keeps_truthy v (v.verify st c1 jwt1).1 calls).2 hj
    refine ⟨hrun, ?_⟩
    unfold Verifier.jwksUriAsked Verifier.afterDiscovery
    simp only [hbase, if_true]
    cases c.discovered with
    | error m => exact Or.inl rfl
    | ok d =>
      right
      simp only
      rw [(withValidators_fields v _).1]
      show some (orElseFalsy (v.run (v.verify st c1 jwt1).1 calls).jwksUri d.jwks_uri) = _
      rw [orElseFalsy_of_truthy _ _ (by rw [hrun]; exact hj), hrun]

/-- C23 (amended) at a verifier with only an `issuerBaseURL` whose first document
carries issuer `https://i/` and a `jwks_uri`: after a later call whose document names
another issuer and another `jwks_uri`, the issuer is still `https://i/`. -/
theorem first_discovery_fixes_validation_witness :
    (Verifier.run
      ⟨some "https://i/", none, none, Audience.one "api", none, some "RS256", 30000, 5000,
        600000, 5, none, false, []⟩
      (Verifier.verify
        ⟨some "https://i/", none, none, Audience.one "api", none, some "RS256", 30000, 5000,
          600000, 5, none, false, []⟩
        ⟨none, none, none, none⟩
        ⟨0, Except.ok ⟨"https://i/", some "https://i/jwks", none⟩,
          fun _ => Except.error "bad signature"⟩ "a.b.c").1
      [(⟨1, Except.ok ⟨"https://other/", some "https://other/jwks", some ["ES256"]⟩,
          fun _ => Except.error "bad signature"⟩, "d.e.f")]).issuer =
    (Verifier.verify
      ⟨some "https://i/", none, none, Audience.one "api", none, some "RS256", 30000, 5000,
        600000, 5, none, false, []⟩
      ⟨none, none, none, none⟩
      ⟨0, Except.ok ⟨"https://i/", some "https://i/jwks", none⟩,
        fun _ => Except.error "bad signature"⟩ "a.b.c").1.issuer :=
  (first_discovery_fixes_validation
    ⟨some "https://i/", none, none, Audience.one "api", none, some "RS256", 30000, 5000,
      600000, 5, none, false, []⟩
    ⟨none, none, none, none⟩
    ⟨0, Except.ok ⟨"https://i/", some "https://i/jwks", none⟩,
      fun _ => Except.error "bad signature"⟩
    ⟨0, Except.error "unused", fun _ => Except.error "unused"⟩
    ⟨"https://i/", some "https://i/jwks", none⟩ "a.b.c"
    [(⟨1, Except.ok ⟨"https://other/", some "https://other/jwks", some ["ES256"]⟩,
        fun _ => Except.error "bad signature"⟩, "d.e.f")]
    rfl rfl rfl (by decide)).2.2.1

/-! ## Theorems: the booking controller -/

theorem findIndex_spec (i : String) (l : List Visit) (hnd : (l.map Visit.id).Nodup) :
    (findIndex (fun visit => visit.id == i) l = none ∧ ∀ v ∈ l, v.id ≠ i) ∨
    (∃ k, findIndex (fun visit => visit.id == i) l = some k ∧ (∃ v ∈ l, v.id = i) ∧
      l.eraseIdx k = l.filter (fun v => v.id != i) ∧
      (l.eraseIdx k).length + 1 = l.length) := by
  induction l with
  | nil => exact Or.inl ⟨rfl, fun v hv => absurd hv (List.not_mem_nil v)⟩
  | cons v rest ih =>
    rw [List.map_cons, List.nodup_cons] at hnd
    by_cases hv : v.id = i
    · right
      refine ⟨0, by simp [findIndex, hv], ⟨v, List.mem_cons_self _ _, hv⟩, ?_, by simp⟩
      have hrest : ∀ x ∈ rest, (x.id != i) = true := by
        intro x hx
        have : x.id ≠ i := by
          intro h
          apply hnd.1
          rw [hv, ← h]
          exact List.mem_map_of_mem _ hx
        simpa using this
      rw [List.eraseIdx_cons_zero, List.filter_cons]
      simp only [hv, bne_self_eq_false, Bool.false_eq_true, if_false]
      exact (List.filter_eq_self.mpr hrest).symm
    · have hb : (v.id == i) = false := by simpa using hv
      rcases ih hnd.2 with ⟨h1, h2⟩ | ⟨k, h1, ⟨w, hw, hwi⟩, h3, h4⟩
      · left
        refine ⟨by simp [findIndex, hb, h1], ?_⟩
        intro x hx
        rcases List.mem_cons.mp hx with rfl | hx
        · exact hv
        · exact h2 x hx
      · right
        refine ⟨k + 1, by simp [findIndex, hb, h1],
          ⟨w, List.mem_cons_of_mem _ hw, hwi⟩, ?_, by simp [List.eraseIdx_cons_succ]; omega⟩
        rw [List.eraseIdx_cons_succ, List.filter_cons, h3]
        have : (v.id != i) = true := by simpa using hv
        simp [this]

theorem filter_ids_nodup (i : String) (l : List Visit) (hnd : (l.map Visit.id).Nodup) :
    ((l.filter (fun v => v.id != i)).map Visit.id).Nodup :=
  List.Nodup.sublist (List.Sublist.map _ (List.filter_sublist l)) hnd

/-- C24. For a stored user whose booked visits have pairwise distinct ids, `bookVisit`
with id `i` appends `{i, date}` iff no booked visit has id `i`, and otherwise answers
400 "Already booked" and leaves the visits unchanged; `cancelBooking` with id `i`
removes exactly the one visit with id `i`, keeping the others in order, or answers 400
"Not booked" and leaves the visits unchanged; after either operation the ids are still
pairwise distinct. Each handler runs on the visits it read. -/
theorem booking_keeps_ids_distinct (stored : List Visit) (i : String) (date : JsVal)
    (hnd : (stored.map Visit.id).Nodup) :
    ((∀ v ∈ stored, v.id ≠ i) →
      bookVisit (some stored) i date =
        Except.ok (VisitsUpdate.push ⟨i, date⟩, ⟨200, "Booked successfully"⟩) ∧
      (VisitsUpdate.push ⟨i, date⟩).apply stored = stored ++ [⟨i, date⟩]) ∧
    ((∃ v ∈ stored, v.id = i) →
      bookVisit (some stored) i date =
        Except.ok (VisitsUpdate.none, ⟨400, "Already booked"⟩) ∧
      VisitsUpdate.none.apply stored = stored) ∧
    ((∃ v ∈ stored, v.id = i) →
      ∃ upd, cancelBooking (some stored) i =
          Except.ok (upd, ⟨200, "Cancelled successfully"⟩) ∧
        upd.apply stored = stored.filter (fun v => v.id != i) ∧
        (upd.apply stored).length + 1 = stored.length) ∧
    ((∀ v ∈ stored, v.id ≠ i) →
      cancelBooking (some stored) i = Except.ok (VisitsUpdate.none, ⟨400, "Not booked"⟩) ∧
      VisitsUpdate.none.apply stored = stored) ∧
    (∀ upd r, bookVisit (some stored) i date = Except.ok (upd, r) →
      ((upd.apply stored).map Visit.id).Nodup) ∧
    (∀ upd r, cancelBooking (some stored) i = Except.ok (upd, r) →
      ((upd.apply stored).map Visit.id).Nodup) := by
  have hany : stored.any (fun visit => visit.id == i) = true ↔ ∃ v ∈ stored, v.id = i := by
    simp [List.any_eq_true]
  have hbookNew : (∀ v ∈ stored, v.id ≠ i) →
      bookVisit (some stored) i date =
        Except.ok (VisitsUpdate.push ⟨i, date⟩, ⟨200, "Booked successfully"⟩) := by
    intro h
    have : ¬ stored.any (fun visit => visit.id == i) = true := by
      rw [hany]
      rintro ⟨v, hv, hvi⟩
      exact h v hv hvi
    simp [bookVisit, this]
  have hbookOld : (∃ v ∈ stored, v.id = i) →
      bookVisit (some stored) i date =
        Except.ok (VisitsUpdate.none, ⟨400, "Already booked"⟩) := by
    intro h
    simp only [bookVisit, hany.mpr h, if_true]
  have hcancelSome : (∃ v ∈ stored, v.id = i) →
      ∃ upd, cancelBooking (some stored) i =
          Except.ok (upd, ⟨200, "Cancelled successfully"⟩) ∧
        upd.apply stored = stored.filter (fun v => v.id != i) ∧
        (upd.apply stored).length + 1 = stored.length := by
    rintro ⟨v, hv, hvi⟩
    rcases findIndex_spec i stored hnd with ⟨_, h2⟩ | ⟨k, h1, _, h3, h4⟩
    · exact absurd hvi (h2 v hv)
    · exact ⟨VisitsUpdate.set (stored.eraseIdx k), by simp only [cancelBooking, h1], h3, h4⟩
  have hcancelNone : (∀ v ∈ stored, v.id ≠ i) →
      cancelBooking (some stored) i =
        Except.ok (VisitsUpdate.none, ⟨400, "Not booked"⟩) := by
    intro h
    rcases findIndex_spec i stored hnd with ⟨h1, _⟩ | ⟨k, _, ⟨v, hv, hvi⟩, _, _⟩
    · simp only [cancelBooking, h1]
    · exact absurd hvi (h v hv)
  refine ⟨fun h => ⟨hbookNew h, rfl⟩, fun h => ⟨hbookOld h, rfl⟩, hcancelSome,
    fun h => ⟨hcancelNone h, rfl⟩, ?_, ?_⟩
  · intro upd r hres
    by_cases h : ∃ v ∈ stored, v.id = i
    · rw [hbookOld h] at hres
      simp only [Except.ok.injEq, Prod.mk.injEq] at hres
      rw [← hres.1]
      exact hnd
    · have hno : ∀ v ∈ stored, v.id ≠ i := fun v hv hvi => h ⟨v, hv, hvi⟩
      rw [hbookNew hno] at hres
      simp only [Except.ok.injEq, Prod.mk.injEq] at hres
      rw [← hres.1]
      show ((stored ++ [(⟨i, date⟩ : Visit)]).map Visit.id).Nodup
      rw [List.map_append, List.nodup_append]
      refine ⟨hnd, by simp, ?_⟩
      intro a ha hb
      simp only [List.map_cons, List.map_nil, List.mem_singleton] at hb
      subst hb
      obtain ⟨v, hv, hvi⟩ := List.mem_map.mp ha
      exact hno v hv hvi
  · intro upd r hres
    by_cases h : ∃ v ∈ stored, v.id = i
    · obtain ⟨upd', h1, h2, _⟩ := hcancelSome h
      rw [h1] at hres
      simp only [Except.ok.injEq, Prod.mk.injEq] at hres
      rw [← hres.1, h2]
      exact filter_ids_nodup i stored hnd
    · have hno : ∀ v ∈ stored, v.id ≠ i := fun v hv hvi => h ⟨v, hv, hvi⟩
      rw [hcancelNone hno] at hres
      simp only [Except.ok.injEq, Prod.mk.injEq] at hres
      rw [← hres.1]
      exact hnd

/-- C24 at a user with visits to residencies `r1` and `r2`: cancelling `r1` leaves
the visit to `r2`. -/
theorem booking_keeps_ids_distinct_witness :
    ∃ upd, cancelBooking (some [⟨"r1", JsVal.str "2024-01-01"⟩, ⟨"r2", JsVal.str "2024-02-01"⟩])
        "r1" = Except.ok (upd, ⟨200, "Cancelled successfully"⟩) ∧
      upd.apply [⟨"r1", JsVal.str "2024-01-01"⟩, ⟨"r2", JsVal.str "2024-02-01"⟩] =
        [⟨"r1", JsVal.str "2024-01-01"⟩, ⟨"r2", JsVal.str "2024-02-01"⟩].filter
          (fun v => v.id != "r1") ∧
      (upd.apply [⟨"r1", JsVal.str "2024-01-01"⟩, ⟨"r2", JsVal.str "2024-02-01"⟩]).length + 1 =
        [(⟨"r1", JsVal.str "2024-01-01"⟩ : Visit), ⟨"r2", JsVal.str "2024-02-01"⟩].length :=
  (booking_keeps_ids_distinct [⟨"r1", JsVal.str "2024-01-01"⟩, ⟨"r2", JsVal.str "2024-02-01"⟩]
    "r1" JsVal.null (by decide)).2.2.1
    ⟨⟨"r1", JsVal.str "2024-01-01"⟩, List.mem_cons_self _ _, rfl⟩

end OAuth2JwtBearer
